import Mathlib

/-!
# Sync Gateway: document / revision / channel engine

A shallow embedding of `db/crud.go` and `auth/role.go`, and theorems about it.

Conventions of the embedding.

* A Go `map[string]V` is a list of key/value pairs with distinct keys; `range` visits the
  pairs in list order, so a statement proved for every list holds for every iteration order.
  A nil map and an empty map are identified.
* A Go slice whose nil-ness the code tests (`missing`, `possible`, `revids` in `RevDiff`) is an
  `Option (List _)`: `none` is the nil slice, `some []` an empty non-nil slice.
* A Go `error` result is an `Option Error`, `none` being `nil`.
* JSON text and the value it encodes are identified (`json.Marshal` followed by
  `json.Unmarshal` is the identity).
-/

namespace SyncGateway

/-! ## Errors (`base.HTTPError`, `couchbase.UpdateCancel`) -/

/-- Go `error` values that flow through `crud.go`: a `base.HTTPError{Status, Message}`, the
`couchbase.UpdateCancel` sentinel, or any other error (store failure, evaluator exception). -/
inductive Error where
  | http (Status : Int) (Message : String)
  | UpdateCancel
  | other (msg : String)
deriving DecidableEq, Repr

/-! ## JSON bodies -/

/-- A decoded JSON value (`interface{}` as produced by `encoding/json`). -/
inductive JSON where
  | null
  | bool (b : Bool)
  | num (n : Int)
  | str (s : String)
  | arr (items : List JSON)
  | obj (fields : List (String × JSON))
deriving Repr

/-- Go `type Body map[string]interface{}`. -/
abbrev Body := List (String × JSON)

/-- Map assignment `m[k] = v`: replace the entry of `k` if there is one, else add it. -/
def mapSet {V : Type} (m : List (String × V)) (k : String) (v : V) : List (String × V) :=
  match m with
  | [] => [(k, v)]
  | (k', v') :: rest => if k' = k then (k, v) :: rest else (k', v') :: mapSet rest k v

/-- Go `s, _ := body[key].(string)`: the string at `key`, or `""`. -/
def Body.getString (body : Body) (key : String) : String :=
  match body.lookup key with
  | some (JSON.str s) => s
  | _ => ""

/-- Go `b, _ := body[key].(bool)`: the boolean at `key`, or `false`. -/
def Body.getBool (body : Body) (key : String) : Bool :=
  match body.lookup key with
  | some (JSON.bool b) => b
  | _ => false

/-! ## Principals (`auth/role.go`) -/

/-- Go `channels.Set`, a set of channel names. -/
abbrev ChannelSet := List String

/-- Go `auth.roleImpl`; a `User` embeds it, and every method used by `crud.go`
(`Name`, `Channels`, `UnauthError`, `CanSeeChannel`) is the role's. -/
structure roleImpl where
  Name_ : String
  ExplicitChannels_ : ChannelSet
  Channels_ : ChannelSet
deriving DecidableEq, Repr

/-- Go `(role *roleImpl) Channels()`. -/
def roleImpl.Channels (role : roleImpl) : ChannelSet := role.Channels_

/-- Go `(role *roleImpl) UnauthError(message)`. -/
def roleImpl.UnauthError (role : roleImpl) (message : String) : Error :=
  if role.Name_ = "" then Error.http 401 "login required"
  else Error.http 403 message

/-! ## Channel maps and read authorization (`crud.go`) -/

/-- Go `ChannelRemoval{Seq, Rev}`. -/
structure ChannelRemoval where
  Seq : Nat
  Rev : String
deriving DecidableEq, Repr

/-- Go `type ChannelMap map[string]*ChannelRemoval`; the value `none` is the nil pointer,
meaning that the document is currently a member of the channel. -/
abbrev ChannelMap := List (String × Option ChannelRemoval)

/-- The `for channel := range user.Channels()` loop of `AuthorizeAnyDocChannels`: `true` when
the loop returns nil from inside, `false` when it falls through. -/
def authorizeLoop (channels : ChannelMap) : List String → Bool
  | [] => false
  | channel :: rest =>
    if channel = "*" then true
    else
      match channels.lookup channel with
      | some none => true    -- exists && value == nil
      | _ => authorizeLoop channels rest

/-- Go `AuthorizeAnyDocChannels(user, channels)`; `none` is the nil error. -/
def AuthorizeAnyDocChannels (user : Option roleImpl) (channels : ChannelMap) : Option Error :=
  match user with
  | none => none
  | some u =>
    if authorizeLoop channels u.Channels then none
    else some (u.UnauthError "You are not allowed to see this")

/-! ## Revision IDs and the revision tree

What `crud.go` uses of `revid.go`, `revtree.go` and `document.go` is modelled from the
specification. -/

/-- Is `c` a lowercase hexadecimal digit? -/
def isLowerHex (c : Char) : Bool :=
  c.isDigit || (decide ('a' ≤ c) && decide (c ≤ 'f'))

/-- The number written by a list of decimal digits. -/
def decimalValue (digits : List Char) : Nat :=
  digits.foldl (fun n c => 10 * n + (c.toNat - '0'.toNat)) 0

/-- Modelled from the spec: `parseRevID` of the absent `revid.go`, generation part only (the
only part `crud.go` reads). The wire format is `<decimal-generation>-<lowercase-hex-digest>`
and a generation below 1 is invalid. The result is a Go `int`, so a generation that does not
fit 64 bits in two's complement (`2 ^ 63` = 9223372036854775808 or more) is not parsed and
the ID is invalid. An invalid ID yields `-1` (callers test `generation < 0`), and the empty ID
yields `0` (`Put` increments it to the generation 1 of a first revision). -/
def parseRevID (revid : String) : Int :=
  if revid = "" then 0
  else
    let digits := revid.toList.takeWhile Char.isDigit
    match revid.toList.dropWhile Char.isDigit with
    | '-' :: digest =>
      if digits ≠ [] ∧ digest ≠ [] ∧ digest.all isLowerHex = true ∧ 1 ≤ decimalValue digits ∧
          decimalValue digits < 9223372036854775808
      then (decimalValue digits : Int) else -1
    | _ => -1

/-- The value that a Go `int` (64 bits, two's complement) holds after an arithmetic operation
whose exact result is `x`: the number congruent to `x` modulo `2 ^ 64` that lies between
`-2 ^ 63` and `2 ^ 63 - 1` (`2 ^ 63` is 9223372036854775808). -/
def wrapInt (x : Int) : Int :=
  (x + 9223372036854775808) % 18446744073709551616 - 9223372036854775808

/-- Go `RevInfo{ID, Parent, Deleted, Body}`: one revision of a document. `Body` is the stashed
JSON of the revision, when kept. -/
structure RevInfo where
  ID : String
  Parent : String
  Deleted : Bool
  Body : Option Body

/-- Go `type RevTree map[string]RevInfo`, keyed by `RevInfo.ID`: the set of revisions of one
document. -/
abbrev RevTree := List RevInfo

/-- Go `tree[revid]`: the revision stored under `revid`, or the zero `RevInfo`. -/
def RevTree.get (tree : RevTree) (revid : String) : RevInfo :=
  match tree.find? (fun info => info.ID = revid) with
  | some info => info
  | none => { ID := "", Parent := "", Deleted := false, Body := none }

/-- Modelled from the spec: `contains(id)` of the absent `revtree.go`: the tree has a
revision with this ID. -/
def RevTree.contains (tree : RevTree) (revid : String) : Bool :=
  tree.any (fun info => info.ID = revid)

/-- Go `for revid := range revmap`: the keys of the tree. -/
def RevTree.keys (tree : RevTree) : List String := tree.map (fun info => info.ID)

/-- Modelled from the spec: `is_leaf(id)` of the absent `revtree.go`: a leaf is a revision of
the tree with no children. -/
def RevTree.isLeaf (tree : RevTree) (revid : String) : Bool :=
  tree.contains revid && tree.all (fun info => info.Parent ≠ revid)

/-- Modelled from the spec: `add(rev)` of the absent `revtree.go`, as the map assignment
`tree[rev.ID] = rev`: the revision is appended, or replaces the entry with the same ID. -/
def RevTree.addRevision (tree : RevTree) (info : RevInfo) : RevTree :=
  match tree with
  | [] => [info]
  | x :: rest => if x.ID = info.ID then info :: rest else x :: RevTree.addRevision rest info

/-- Modelled from the spec: `set_body(id, body?)` of the absent `revtree.go`: the stashed body
of revision `revid` is replaced, nothing else changes. -/
def RevTree.setRevisionBody (tree : RevTree) (revid : String) (body : Option Body) : RevTree :=
  tree.map (fun info => if info.ID = revid then { info with Body := body } else info)

/-- Modelled from the spec: `get_body(id)` of the absent `revtree.go`, already parsed. -/
def RevTree.getParsedRevisionBody (tree : RevTree) (revid : String) : Option Body :=
  (tree.get revid).Body

/-- The leaves of the tree: the revisions with no children. -/
def RevTree.getLeaves (tree : RevTree) : List String :=
  tree.keys.filter (fun revid => tree.isLeaf revid)

/-- Does revision ID `a` beat `b` in winner selection: greater generation, ties broken by the
lexicographically greater ID string. -/
def revBeats (a b : String) : Bool :=
  decide (parseRevID b < parseRevID a) || (decide (parseRevID a = parseRevID b) && decide (b < a))

/-- The best of a list of candidate revision IDs, `none` when there is no candidate. -/
def pickWinner (candidates : List String) : Option String :=
  candidates.foldl (fun best revid =>
    match best with
    | none => some revid
    | some w => if revBeats revid w then some revid else some w) none

/-- Modelled from the spec: `winning_revision()` of the absent `revtree.go`. Of all
non-deleted leaves, the one with the greatest generation, ties broken by the lexicographically
greatest revision ID; if there is no non-deleted leaf, the same choice among the deleted
leaves; the empty ID for a tree without leaves. -/
def RevTree.winningRevision (tree : RevTree) : String :=
  match pickWinner (tree.getLeaves.filter (fun revid => !(tree.get revid).Deleted)) with
  | some w => w
  | none => (pickWinner (tree.getLeaves.filter (fun revid => (tree.get revid).Deleted))).getD ""

/-- Go `channels.AccessMap`, from principal name (or `role:<name>`) to granted channels. -/
abbrev AccessMap := List (String × ChannelSet)

/-- Go `document` (of the absent `document.go`), with the fields `crud.go` reads and writes;
modelled from the spec: the tuple `(id, current_rev, deleted, sequence, body, history,
channels, access)`. -/
structure document where
  ID : String
  CurrentRev : String
  Deleted : Bool
  Sequence : Nat
  History : RevTree
  Channels : ChannelMap
  Access : AccessMap
  body : Option Body

/-- Go `newDocument(docid)`: a document that has never existed. -/
def newDocument (docid : String) : document :=
  { ID := docid, CurrentRev := "", Deleted := false, Sequence := 0, History := [],
    Channels := [], Access := [], body := none }

/-- Modelled from the spec: the stored form of a revision body, without the properties
`_id`, `_rev` and `_revisions` that are added back on retrieval. -/
def stripSpecialProperties (body : Body) : Body :=
  body.filter (fun kv => kv.1 ≠ "_id" && kv.1 ≠ "_rev" && kv.1 ≠ "_revisions")

/-- Modelled from the spec: `setRevision(revid, body)` of the absent `document.go`: the body
of the current winner lives at the top level of the document, the body of any other
revision is stashed in the tree. -/
def document.setRevision (doc : document) (revid : String) (body : Body) : document :=
  if revid = doc.CurrentRev then { doc with body := some (stripSpecialProperties body) }
  else { doc with
    History := doc.History.setRevisionBody revid (some (stripSpecialProperties body)) }

/-- Modelled from the spec: `getRevisionJSON(revid)` of the absent `document.go`: the stored
body of a revision, from the top level for the current winner, else from the tree. -/
def document.getRevisionJSON (doc : document) (revid : String) : Option Body :=
  if revid = doc.CurrentRev then doc.body else (doc.History.get revid).Body

/-! ## The database -/

/-- The key/value store behind `base.Bucket`, restricted to document keys. `fault`, when set,
makes every operation of the store fail with that error (a store failure). -/
structure Bucket where
  docs : List (String × document)
  fault : Option Error

/-- Go `Bucket.Get(key, doc)`: a missing key is an HTTP 404 error. -/
def Bucket.Get (bucket : Bucket) (key : String) : Except Error document :=
  match bucket.fault with
  | some e => .error e
  | none =>
    match bucket.docs.lookup key with
    | some doc => .ok doc
    | none => .error (Error.http 404 "missing")

/-- Go `channels.ChannelMapperOutput{Channels, Access, Rejection}`. -/
structure ChannelMapperOutput where
  Channels : ChannelSet
  Access : AccessMap
  Rejection : Option Error

/-- Modelled from the spec: the sequence allocator of the absent `sequences.go`: a
monotonic 64-bit counter with atomic increment-and-return; `fault` is a store failure. -/
structure SequenceAllocator where
  last : Nat
  fault : Option Error

/-- Modelled from the spec: `nextSequence()`, atomic increment-and-return on 64 bits. -/
def SequenceAllocator.nextSequence (s : SequenceAllocator) :
    Except Error Nat × SequenceAllocator :=
  match s.fault with
  | some e => (.error e, s)
  | none => (.ok ((s.last + 1) % 2 ^ 64), { s with last := (s.last + 1) % 2 ^ 64 })

/-- Go `Database`: the configuration a request runs with, the external collaborators that
`crud.go` calls (taken as parameters), and the mutable state it touches. -/
structure Database where
  /-- The `db.user` field; `none` is the nil user (access control disabled). -/
  user : Option roleImpl
  /-- The `db.Validator.Validate(newJson, oldJson, user)` call, giving `(status, msg, err)`. -/
  Validator : Option (Body → Option Body → Option roleImpl → Int × String × Option Error)
  /-- The `db.ChannelMapper.MapToChannelsAndAccess(newJson, oldJson, userCtx)` call, giving
  `(output, err)`. -/
  ChannelMapper : Option (Body → Option Body → Option roleImpl →
    ChannelMapperOutput × Option Error)
  /-- The `createRevID(generation, parentRevID, body)` helper of the absent `revid.go`. -/
  createRevID : Int → String → Body → String
  /-- The `db.storeAttachments(doc, body, generation, parentRevID)` helper of the absent
  `attachment.go`: the body with attachment data replaced by digests, or an error. -/
  storeAttachments : document → Body → Int → String → Except Error Body
  /-- The `channels.SetFromArray(array, channels.KeepStar)` helper of the absent `channels`
  package: the set of the given names, or an error. -/
  SetFromArray : List String → Except Error ChannelSet
  /-- The `authr.GetUser(name)` lookup of the Principal Store. -/
  GetUser : String → Option roleImpl
  Bucket : Bucket
  sequences : SequenceAllocator
  /-- Number of `db.NotifyRevision()` calls so far. -/
  notifications : Nat
  /-- Names passed to `authr.InvalidateChannels`, in call order. -/
  invalidated : List String

/-- Go `(db *Database) realDocID(docid)`; `len` counts bytes. -/
def Database.realDocID (_db : Database) (docid : String) : String :=
  if docid.utf8ByteSize > 250 || "_".toList.isPrefixOf docid.toList then "" else docid

/-- Go `(db *Database) getDoc(docid)`. -/
def Database.getDoc (db : Database) (docid : String) : Except Error document :=
  let key := db.realDocID docid
  if key = "" then .error (Error.http 400 "Invalid doc ID")
  else db.Bucket.Get key

/-! ## Channels and access (`crud.go`, `role.go`) -/

/-- A character accepted by the class `[-+.@\w]` of `kValidNameRegexp`. -/
def isNameChar (c : Char) : Bool :=
  c.isAlphanum || c = '_' || c = '-' || c = '+' || c = '.' || c = '@'

/-- Go `auth.IsValidPrincipalName(name)`: the name matches `^[-+.@\w]*$`. -/
def IsValidPrincipalName (name : String) : Bool := name.toList.all isNameChar

/-- Go `validateAccessMap(access)`: every key, without its `role:` prefix if it has one, is a
valid principal name. -/
def validateAccessMap (access : AccessMap) : Bool :=
  access.all (fun kv =>
    let name := kv.1
    let name := if "role:".toList.isPrefixOf name.toList then String.mk (name.toList.drop 5)
      else name
    IsValidPrincipalName name)

/-- The strings of `body["channels"]` kept by the default channel assignment: the elements
that are strings of non-zero length. -/
def channelStrings (value : List JSON) : List String :=
  value.filterMap (fun channel =>
    match channel with
    | JSON.str channelStr => if channelStr ≠ "" then some channelStr else none
    | _ => none)

/-- Go `(db *Database) getChannelsAndAccess(doc, body, parentRevID)`, giving
`(result, access, err)`. -/
def Database.getChannelsAndAccess (db : Database) (doc : document) (body : Body)
    (parentRevID : String) : ChannelSet × AccessMap × Option Error :=
  let newJson := body
  let oldJson : Option Body :=
    if parentRevID ≠ "" then doc.getRevisionJSON parentRevID else none
  let rejected : Option Error :=
    match db.Validator with
    | none => none
    | some validate =>
      match validate newJson oldJson db.user with
      | (status, msg, err) =>
        let status := if err.isSome then 500 else status
        let msg := if err.isSome then "Exception in JS validation function" else msg
        if status ≥ 300 then some (Error.http status msg) else none
  match rejected with
  | some e => ([], [], some e)
  | none =>
    match db.ChannelMapper with
    | some mapper =>
      match mapper newJson oldJson db.user with
      | (output, none) =>
        match output.Rejection with
        | some rejection => (output.Channels, output.Access, some rejection)
        | none =>
          if !validateAccessMap output.Access then
            (output.Channels, output.Access, some (Error.http 500 "Error in JS sync function"))
          else (output.Channels, output.Access, none)
      | (_, some _) => ([], [], some (Error.http 500 "Exception in JS sync function"))
    | none =>
      match body.lookup "channels" with
      | some (JSON.arr value) =>
        match db.SetFromArray (channelStrings value) with
        | .ok result => (result, [], none)
        | .error e => ([], [], some e)
      | _ => ([], [], none)

/-- Go `(db *Database) updateDocChannels(doc, newChannels)`, giving the document and
`changed`. -/
def Database.updateDocChannels (_db : Database) (doc : document) (newChannels : ChannelSet) :
    document × Bool :=
  -- Mark every previous channel as unsubscribed:
  let marked : ChannelMap := doc.Channels.map (fun kv =>
    match kv.2 with
    | none => (kv.1, some { Seq := doc.Sequence, Rev := doc.CurrentRev })
    | some removal => (kv.1, some removal))
  let changed := doc.Channels.any (fun kv => kv.2.isNone)
  -- Mark every current channel as subscribed:
  let result := newChannels.foldl (fun (acc : ChannelMap × Bool) channel =>
    match acc.1.lookup channel with
    | some none => acc
    | _ => (mapSet acc.1 channel none, true)) (marked, changed)
  ({ doc with Channels := result.1 }, result.2)

/-- Go `reflect.DeepEqual` on two channel sets. -/
def setDeepEqual (a b : ChannelSet) : Bool :=
  a.length = b.length && a.all (fun x => b.contains x)

/-- Go `reflect.DeepEqual(newAccess, oldAccess)` on two access maps. -/
def accessDeepEqual (a b : AccessMap) : Bool :=
  a.length = b.length && a.all (fun kv =>
    match b.lookup kv.1 with
    | some v => setDeepEqual kv.2 v
    | none => false)

/-- Go `(db *Database) updateDocAccess(doc, newAccess)`, giving the document, the names whose
channels are invalidated (in call order) and `changed`. -/
def Database.updateDocAccess (db : Database) (doc : document) (newAccess : AccessMap) :
    document × List String × Bool :=
  let oldAccess := doc.Access
  if accessDeepEqual newAccess oldAccess then (doc, [], false)
  else
    ({ doc with Access := newAccess },
     (oldAccess.map Prod.fst ++ newAccess.map Prod.fst).filter
       (fun name => (db.GetUser name).isSome),
     true)

/-! ## `REVS_DIFF` -/

/-- The variables of the first loop of `RevDiff`. -/
structure RevDiffVars where
  missing : Option (List String)
  found : List String
  maxMissingGen : Int

/-- One iteration of `for _, revid := range revids` in `RevDiff`. -/
def revDiffStep (revmap : RevTree) (v : RevDiffVars) (revid : String) : RevDiffVars :=
  if revmap.contains revid then
    { v with found := revid :: v.found }   -- found[revid] = true
  else
    let missing : List String :=
      match v.missing with
      | none => []       -- missing = make([]string, 0, 5)
      | some m => m
    let gen := parseRevID revid
    if gen > 0 then
      { missing := some (missing ++ [revid]), found := v.found,
        maxMissingGen := if gen > v.maxMissingGen then gen else v.maxMissingGen }
    else
      { v with missing := some missing }

/-- The second loop of `RevDiff`, `for revid := range revmap`, followed by the reset of an
empty `possible` to nil. -/
def revDiffPossible (revmap : RevTree) (v : RevDiffVars) : Option (List String) :=
  let possible := revmap.keys.filter
    (fun revid => !v.found.contains revid && decide (parseRevID revid < v.maxMissingGen))
  if possible.length = 0 then none else some possible

/-- Go `(db *Database) RevDiff(docid, revids)`, giving `(missing, possible, err)`. -/
def Database.RevDiff (db : Database) (docid : String) (revids : Option (List String)) :
    Option (List String) × Option (List String) × Option Error :=
  match db.getDoc docid with
  | .error _ => (revids, none, none)
  | .ok doc =>
    let revmap := doc.History
    let v := (revids.getD []).foldl (revDiffStep revmap)
      { missing := none, found := [], maxMissingGen := 0 }
    if v.missing.isSome then (v.missing, revDiffPossible revmap v, none)
    else (none, none, none)

/-- The `docOutput` map built by `RevsDiff`: key `"missing"`, and key `"possible_ancestors"`
only when `possible` is not nil. -/
structure DocOutput where
  missing : List String
  possible_ancestors : Option (List String)
deriving DecidableEq, Repr

/-- The `for docid, revs := range input` loop of `RevsDiff`. -/
def revsDiffLoop (db : Database) :
    List (String × Option (List String)) → List (String × DocOutput) →
      Except Error (List (String × DocOutput))
  | [], output => .ok output
  | (docid, revs) :: rest, output =>
    match db.RevDiff docid revs with
    | (_, _, some err) => .error err
    | (some missing, possible, none) =>
      revsDiffLoop db rest (mapSet output docid { missing := missing, possible_ancestors := possible })
    | (none, _, none) => revsDiffLoop db rest output

/-- Go `(db *Database) RevsDiff(input)`. -/
def Database.RevsDiff (db : Database) (input : List (String × Option (List String))) :
    Except Error (List (String × DocOutput)) :=
  revsDiffLoop db input []

/-! ## Updating documents (`crud.go`) -/

/-- The part of the function that `updateDoc` passes to `Bucket.Update` which recomputes the
winning revision and moves the revision bodies (from "Determine which is the current winning
revision" to "transfer the current revision's body to the top level"). -/
def updateDocRevisions (doc : document) (newRevID : String) (body : Body) : document :=
  -- Determine which is the current "winning" revision:
  let prevCurrentRev := doc.CurrentRev
  let doc := { doc with CurrentRev := doc.History.winningRevision }
  let doc := { doc with Deleted := (doc.History.get doc.CurrentRev).Deleted }
  let doc :=
    if doc.CurrentRev ≠ prevCurrentRev ∧ prevCurrentRev ≠ "" then
      -- Store the doc's previous body into the revision tree:
      { doc with History := doc.History.setRevisionBody prevCurrentRev doc.body }
    else doc
  -- Store the new revision body into the doc:
  let doc := doc.setRevision newRevID body
  if doc.CurrentRev ≠ newRevID ∧ doc.CurrentRev ≠ prevCurrentRev then
    -- Transfer the current revision's body to the top level doc.body:
    { doc with
      body := doc.History.getParsedRevisionBody doc.CurrentRev,
      History := doc.History.setRevisionBody doc.CurrentRev none }
  else doc

/-- The function that `updateDoc` passes to `Bucket.Update`, run on the current document
(`unmarshalDocument` of the stored value). Gives the document to store and the new revision
ID, or an error, and the database after the side effects of the run (sequence allocation,
channel invalidation). -/
def Database.updateDocCallback (db : Database)
    (callback : document → Except Error (document × Body)) (doc : document) :
    Except Error (document × String) × Database :=
  -- Invoke the callback to update the document and return a new revision body:
  match callback doc with
  | .error err => (.error err, db)
  | .ok (doc, body) =>
    match body.lookup "_rev" with
    | some (JSON.str newRevID) =>
      let doc := updateDocRevisions doc newRevID body
      -- Assign the document the next sequence number:
      match db.sequences.nextSequence with
      | (.error err, sequences) => (.error err, { db with sequences := sequences })
      | (.ok sequence, sequences) =>
        let db := { db with sequences := sequences }
        let doc := { doc with Sequence := sequence }
        -- Run the validation and sync functions
        let parentRevID := (doc.History.get newRevID).Parent
        let body := mapSet body "_id" (JSON.str doc.ID)
        match db.getChannelsAndAccess doc body parentRevID with
        | (_, _, some err) => (.error err, db)
        | (channels, access, none) =>
          let doc := (db.updateDocChannels doc channels).1
          match db.updateDocAccess doc access with
          | (doc, names, _) =>
            (.ok (doc, newRevID), { db with invalidated := db.invalidated ++ names })
    | _ => (.error (Error.other "panic: interface conversion"), db)

/-- Go `unmarshalDocument(docid, currentValue)` on the value stored under `key`: the stored
document, or a new document when there is no value. -/
def Database.currentDocument (db : Database) (docid key : String) : document :=
  match db.Bucket.docs.lookup key with
  | some doc => doc
  | none => newDocument docid

/-- Go `db.Bucket.Update(key, 0, fn)` as `updateDoc` uses it, without races: `fn` runs once on
the current value (a new document when the key is absent); the value is stored only when `fn`
returns no error. Gives `(err, newRevID)` and the database afterwards. -/
def Database.bucketUpdate (db : Database) (docid key : String)
    (callback : document → Except Error (document × Body)) :
    (Option Error × String) × Database :=
  match db.Bucket.fault with
  | some err => ((some err, ""), db)
  | none =>
    match db.updateDocCallback callback (db.currentDocument docid key) with
    | (.error err, db) => ((some err, ""), db)
    | (.ok (doc, newRevID), db) =>
      ((none, newRevID),
       { db with Bucket := { db.Bucket with docs := mapSet db.Bucket.docs key doc } })

/-- Go `(db *Database) updateDoc(docid, callback)`, giving `(newRevID, err)` and the database
afterwards. -/
def Database.updateDoc (db : Database) (docid : String)
    (callback : document → Except Error (document × Body)) :
    (String × Option Error) × Database :=
  let key := db.realDocID docid
  if key = "" then (("", some (Error.http 400 "Invalid doc ID")), db)
  else
    match db.bucketUpdate docid key callback with
    | ((some Error.UpdateCancel, _), db) => (("", none), db)
    | ((some err, _), db) => (("", some err), db)
    | ((none, newRevID), db) =>
      ((newRevID, none), { db with notifications := db.notifications + 1 })

/-- The variables that the callback of `Put` captures and assigns. -/
structure PutVars where
  matchRev : String
  generation : Int
  body : Body

/-- The parent check at the head of the callback of `Put` ("make sure matchRev matches an
existing leaf revision"): the captured variables after the check, or the conflict error. -/
def PutCheck (v : PutVars) (doc : document) : Except Error PutVars :=
  if v.matchRev = "" then
    let v := { v with matchRev := doc.CurrentRev }
    if v.matchRev ≠ "" then
      -- PUT with no parent rev given, but there is an existing current revision.
      -- This is OK as long as the current one is deleted.
      if !(doc.History.get v.matchRev).Deleted then
        .error (Error.http 409 "Document exists")
      else .ok { v with generation := wrapInt (parseRevID v.matchRev + 1) }
    else .ok v
  else if !doc.History.isLeaf v.matchRev then
    .error (Error.http 409 "Document revision conflict")
  else .ok v

/-- The callback that `Put` passes to `updateDoc`, together with the captured variables after
the run. -/
def Database.PutCallback (db : Database) (deleted : Bool) (v : PutVars) (doc : document) :
    PutVars × Except Error (document × Body) :=
  match PutCheck v doc with
  | .error err =>
    ({ v with matchRev := if v.matchRev = "" then doc.CurrentRev else v.matchRev }, .error err)
  | .ok v =>
    match db.storeAttachments doc v.body v.generation v.matchRev with
    | .error err => (v, .error err)
    | .ok body =>
      -- Make up a new _rev, and add it to the history:
      let newRev := db.createRevID v.generation v.matchRev body
      let body := mapSet body "_rev" (JSON.str newRev)
      let info : RevInfo :=
        { ID := newRev, Parent := v.matchRev, Deleted := deleted, Body := none }
      ({ v with body := body },
       .ok ({ doc with History := doc.History.addRevision info }, body))

/-- Go `(db *Database) Put(docid, body)`, giving `(newRevID, err)` and the database
afterwards. -/
def Database.Put (db : Database) (docid : String) (body : Body) :
    (String × Option Error) × Database :=
  let matchRev := body.getString "_rev"
  let generation := parseRevID matchRev
  if generation < 0 then (("", some (Error.http 400 "Invalid revision ID")), db)
  else
    let generation := wrapInt (generation + 1)
    let deleted := body.getBool "_deleted"
    db.updateDoc docid (fun doc =>
      (db.PutCallback deleted
        { matchRev := matchRev, generation := generation, body := body } doc).2)

/-- Go `(db *Database) DeleteDoc(docid, revid)`. -/
def Database.DeleteDoc (db : Database) (docid : String) (revid : String) :
    (String × Option Error) × Database :=
  db.Put docid [("_deleted", JSON.bool true), ("_rev", JSON.str revid)]

/-- The first loop of the callback of `PutExistingRev`: the index of the first revision of
`docHistory` that the tree contains, `len(docHistory)` when there is none. -/
def currentRevIndex (tree : RevTree) : List String → Nat
  | [] => 0
  | revid :: rest => if tree.contains revid then 0 else currentRevIndex tree rest + 1

/-- The second loop of the callback of `PutExistingRev`,
`for i := currentRevIndex - 1; i >= 0; i--`, entered with `n = i + 1`. -/
def addNewRevisions (docHistory : List String) (deleted : Bool) :
    Nat → RevTree → String → RevTree
  | 0, tree, _ => tree
  | i + 1, tree, parent =>
    addNewRevisions docHistory deleted i
      (tree.addRevision { ID := docHistory.getD i "", Parent := parent,
                          Deleted := (i == 0 && deleted), Body := none })
      (docHistory.getD i "")

/-- The callback that `PutExistingRev` passes to `updateDoc`. -/
def Database.PutExistingRevCallback (db : Database) (body : Body) (docHistory : List String)
    (newRev : String) (generation : Int) (deleted : Bool) (doc : document) :
    Except Error (document × Body) :=
  -- Find the point where this doc's history branches from the current rev:
  let index := currentRevIndex doc.History docHistory
  let parent := if index < docHistory.length then docHistory.getD index "" else ""
  if index = 0 then .error Error.UpdateCancel   -- No new revisions to add
  else
    -- Add all the new-to-me revisions to the rev tree:
    let doc := { doc with History := addNewRevisions docHistory deleted index doc.History parent }
    let parentRevID := (doc.History.get newRev).Parent
    match db.storeAttachments doc body generation parentRevID with
    | .error err => .error err
    | .ok body => .ok (doc, mapSet body "_rev" (JSON.str newRev))

/-- Go `(db *Database) PutExistingRev(docid, body, docHistory)`, giving `err` and the database
afterwards. Indexing an empty `docHistory` panics. -/
def Database.PutExistingRev (db : Database) (docid : String) (body : Body)
    (docHistory : List String) : Option Error × Database :=
  match docHistory with
  | [] => (some (Error.other "panic: index out of range"), db)
  | newRev :: _ =>
    let generation := parseRevID newRev
    if generation < 0 then (some (Error.http 400 "Invalid revision ID"), db)
    else
      let deleted := body.getBool "_deleted"
      match db.updateDoc docid
          (db.PutExistingRevCallback body docHistory newRev generation deleted) with
      | ((_, err), db) => (err, db)

/-! ## Specification-side notions for `RevDiff` -/

/-- The requested revisions that `RevDiff` appends to `missing`: those not in the tree whose
ID has a positive generation. -/
def appended (revmap : RevTree) (revids : List String) : List String :=
  revids.filter (fun r => !revmap.contains r && decide (parseRevID r > 0))

/-- The largest of `m` and the generations of `revs`. -/
def maxGenerationFrom (m : Int) (revs : List String) : Int :=
  revs.foldl (fun m r => max m (parseRevID r)) m

/-- The largest generation among `revs`, `0` when there is none. -/
def maxGeneration (revs : List String) : Int := maxGenerationFrom 0 revs

/-! ## Specification-side notions for writes -/

/-- The structure of a revision tree: its revisions without their stashed bodies. -/
def RevTree.shape (tree : RevTree) : List (String × String × Bool) :=
  tree.map (fun info => (info.ID, info.Parent, info.Deleted))

/-- The derived fields of a document agree with its tree: `CurrentRev` is the winning revision
and `Deleted` is the tombstone flag of that revision. -/
def document.currentIsWinner (doc : document) : Prop :=
  doc.CurrentRev = doc.History.winningRevision ∧
  doc.Deleted = (doc.History.get doc.CurrentRev).Deleted

instance (doc : document) : Decidable doc.currentIsWinner := by
  unfold document.currentIsWinner
  exact inferInstance

/-- A write request: `Put`, `PutExistingRev` or `DeleteDoc` with its arguments. -/
inductive Write where
  | Put (docid : String) (body : Body)
  | PutExistingRev (docid : String) (body : Body) (docHistory : List String)
  | DeleteDoc (docid : String) (revid : String)

/-- The database after a write request. -/
def Database.write (db : Database) : Write → Database
  | Write.Put docid body => (db.Put docid body).2
  | Write.PutExistingRev docid body docHistory => (db.PutExistingRev docid body docHistory).2
  | Write.DeleteDoc docid revid => (db.DeleteDoc docid revid).2

/-- The database after a sequence of write requests. -/
def Database.writeAll (db : Database) (writes : List Write) : Database :=
  writes.foldl Database.write db

/-- The revisions of `docHistory` that come before the first one the tree contains: the
prefix that `PutExistingRev` has to graft. -/
def newRevisions (tree : RevTree) (docHistory : List String) : List String :=
  docHistory.take (currentRevIndex tree docHistory)

/-- The tree that the callback of `PutExistingRev` builds from `tree`: the result of its second
loop, entered at the index and with the parent found by its first loop. -/
def graftedTree (tree : RevTree) (docHistory : List String) (deleted : Bool) : RevTree :=
  addNewRevisions docHistory deleted (currentRevIndex tree docHistory) tree
    (docHistory.getD (currentRevIndex tree docHistory) "")

/-! ## Concrete databases used to instantiate the theorems -/

/-- A database with no user, validator or mapper, holding `docs`; revision IDs are minted as
`1-a`, `2-b`, `3-c` by generation and attachments are left alone. -/
def exampleDatabase (docs : List (String × document)) : Database :=
  { user := none, Validator := none, ChannelMapper := none,
    createRevID := fun generation _ _ =>
      if generation = 1 then "1-a" else if generation = 2 then "2-b" else "3-c",
    storeAttachments := fun _ body _ _ => .ok body,
    SetFromArray := fun array => .ok array,
    GetUser := fun _ => none,
    Bucket := { docs := docs, fault := none },
    sequences := { last := 0, fault := none },
    notifications := 0, invalidated := [] }

/-- The revision tree `1-a ← 2-b`. -/
def linearHistory : RevTree :=
  [{ ID := "1-a", Parent := "", Deleted := false, Body := none },
   { ID := "2-b", Parent := "1-a", Deleted := false, Body := none }]

/-- A document whose server-side history is `[1-a, 2-b]`. -/
def linearDoc : document :=
  { ID := "doc", CurrentRev := "2-b", Deleted := false, Sequence := 2,
    History := linearHistory, Channels := [], Access := [], body := some [] }

/-- The empty example database. -/
def emptyDatabase : Database := exampleDatabase []

/-- The example database after `Put` of a first revision (`1-a`), `Put` of a second one on top
of it (`2-b`) and `PutExistingRev` of the conflicting revision `2-c` with history
`[2-c, 1-a]`: the tree has the two leaves `2-b` and `2-c`, and `2-c` wins. -/
def conflictDatabase : Database :=
  (((emptyDatabase.Put "doc" [("x", JSON.num 1)]).2.Put "doc"
      [("x", JSON.num 2), ("_rev", JSON.str "1-a")]).2.PutExistingRev "doc"
      [("v", JSON.str "c")] ["2-c", "1-a"]).2

/-- The example database after `PutExistingRev` with the history `[1-a, xyz]`, whose ancestor
`xyz` is not a well-formed revision ID. -/
def malformedAncestorDatabase : Database :=
  (emptyDatabase.PutExistingRev "doc" [("v", JSON.str "b")] ["1-a", "xyz"]).2

/-- A sequence of writes on one document: two edits, a conflicting replicated revision, and
the deletion of the winning branch. -/
def exampleWrites : List Write :=
  [Write.Put "doc" [("x", JSON.num 1)],
   Write.Put "doc" [("x", JSON.num 2), ("_rev", JSON.str "1-a")],
   Write.PutExistingRev "doc" [("v", JSON.str "c")] ["2-c", "1-a"],
   Write.DeleteDoc "doc" "2-c"]

/-- The example database after `Put` of a first revision (`1-a`). -/
def oneRevDatabase : Database := (emptyDatabase.Put "doc" [("x", JSON.num 1)]).2

/-- The example database whose store fails on every operation. -/
def faultyDatabase : Database :=
  { exampleDatabase [("doc", linearDoc)] with
    Bucket := { docs := [("doc", linearDoc)], fault := some (Error.other "store failure") } }

/-- The HTTP status of an error, when it is a `base.HTTPError`. -/
def Error.status (e : Error) : Option Int :=
  match e with
  | Error.http status _ => some status
  | _ => none

/-- The message of an error, when it is a `base.HTTPError`. -/
def Error.message (e : Error) : Option String :=
  match e with
  | Error.http _ message => some message
  | _ => none

/-- The example database with a validator that answers every write with the given status,
message and evaluator error. -/
def validatorDatabase (status : Int) (msg : String) (err : Option Error) : Database :=
  { emptyDatabase with Validator := some (fun _ _ _ => (status, msg, err)) }

/-- The example database with a sync function that raises an evaluator error on every
write, returning the given output alongside. -/
def raisingMapperDatabase (output : ChannelMapperOutput) : Database :=
  { emptyDatabase with
    ChannelMapper := some (fun _ _ _ => (output, some (Error.other "ReferenceError"))) }

/-! ## Authorizing a set of channels (`auth/role.go`) -/

/-- Go `(role *roleImpl) CanSeeChannel(channel)`; `none` is the nil role. -/
def CanSeeChannel (role : Option roleImpl) (channel : String) : Bool :=
  match role with
  | none => true
  | some r => r.Channels_.contains channel || r.Channels_.contains "*"

/-- Go `fmt.Sprintf("%v", forbidden)` on a slice of strings: `[a b c]`. -/
def formatStrings (items : List String) : String :=
  "[" ++ " ".intercalate items ++ "]"

/-- The `forbidden` slice built by the loop of `authorizeAllChannels`: the channels of the
set that the principal cannot see, in iteration order. -/
def forbiddenChannels (princ : Option roleImpl) (channels : ChannelSet) : List String :=
  channels.filter (fun channel => !CanSeeChannel princ channel)

/-- Go `authorizeAllChannels(princ, channels)`; `none` is the nil error. A nil principal sees
every channel, so `UnauthError` is never called on it. -/
def authorizeAllChannels (princ : Option roleImpl) (channels : ChannelSet) : Option Error :=
  let forbidden := forbiddenChannels princ channels
  if forbidden ≠ [] then
    match princ with
    | some role =>
      some (role.UnauthError ("You are not allowed to see channels " ++ formatStrings forbidden))
    | none => some (Error.other "panic: nil pointer dereference")
  else none

/-- Go `(role *roleImpl) AuthorizeAllChannels(channels)`. -/
def roleImpl.AuthorizeAllChannels (role : roleImpl) (channels : ChannelSet) : Option Error :=
  authorizeAllChannels (some role) channels

/-! ## Reading a revision (`crud.go`) -/

/-- Modelled from the spec: `getRevision(revid)` of the absent `document.go`: the stored body
of the revision with its `_id` and `_rev` added back, or nil when the body is not available. -/
def document.getRevision (doc : document) (revid : String) : Option Body :=
  match doc.getRevisionJSON revid with
  | none => none
  | some body => some (mapSet (mapSet body "_id" (JSON.str doc.ID)) "_rev" (JSON.str revid))

/-- The chain of revision IDs from `revid` towards the root, following at most `fuel`
parent links. -/
def RevTree.ancestry (tree : RevTree) : Nat → String → List String
  | 0, _ => []
  | fuel + 1, revid =>
    if revid = "" then [] else revid :: RevTree.ancestry tree fuel (tree.get revid).Parent

/-- Modelled from the spec: `ancestry(id)` (`getHistory` of the absent `revtree.go`): the
chain from the revision to the root. -/
def RevTree.getHistory (tree : RevTree) (revid : String) : List String :=
  RevTree.ancestry tree (tree.length + 1) revid

/-- Go `(db *Database) getRevFromDoc(doc, revid, listRevisions)`. The helper
`encodeRevisions` of the absent `revid.go` is taken as a parameter. -/
def Database.getRevFromDoc (db : Database) (encodeRevisions : List String → JSON)
    (doc : document) (revid : String) (listRevisions : Bool) : Except Error Body :=
  match AuthorizeAnyDocChannels db.user doc.Channels with
  | some err => .error err
  | none =>
    let requested := revid
    let revid := if requested = "" then doc.CurrentRev else requested
    if requested = "" ∧ (doc.History.get revid).Deleted = true then
      .error (Error.http 404 "deleted")
    else
      match doc.getRevision revid with
      | none => .error (Error.http 404 "missing")
      | some body =>
        let body :=
          if (doc.History.get revid).Deleted then mapSet body "_deleted" (JSON.bool true)
          else body
        let body :=
          if listRevisions then
            mapSet body "_revisions" (encodeRevisions (doc.History.getHistory revid))
          else body
        .ok body

/-- The example database after `Put` of a first revision (`1-a`) and its deletion: the
winning revision `2-b` is a tombstone. -/
def deletedDatabase : Database := (oneRevDatabase.DeleteDoc "doc" "1-a").2

/-- An `encodeRevisions` for the examples: the list of the revision IDs. -/
def exampleEncodeRevisions (history : List String) : JSON :=
  JSON.arr (history.map JSON.str)

/-- A sync function for the examples: the channels of a revision are the strings of the
`channels` property of its body, and no access is granted. -/
def exampleMapper (newJson : Body) (_oldJson : Option Body) (_user : Option roleImpl) :
    ChannelMapperOutput × Option Error :=
  ({ Channels :=
       match newJson.lookup "channels" with
       | some (JSON.arr value) => channelStrings value
       | _ => [],
     Access := [], Rejection := none }, none)

/-- The example database with `exampleMapper` as its sync function, after `PutExistingRev` of
the revision `2-c` (history `[2-c, 1-a]`, channel `foo`) and then of the conflicting revision
`2-b` (history `[2-b, 1-a]`, channel `bar`), which loses to `2-c`. -/
def losingBranchDatabase : Database :=
  (({ emptyDatabase with ChannelMapper := some exampleMapper }.PutExistingRev "doc"
      [("channels", JSON.arr [JSON.str "foo"])] ["2-c", "1-a"]).2.PutExistingRev "doc"
      [("channels", JSON.arr [JSON.str "bar"])] ["2-b", "1-a"]).2

/-- The revision that the callback of `Put` adds, given the captured variables after the
parent check and the body returned by `storeAttachments`. -/
def putRevision (db : Database) (v : PutVars) (body : Body) (deleted : Bool) : RevInfo :=
  { ID := db.createRevID v.generation v.matchRev body, Parent := v.matchRev,
    Deleted := deleted, Body := none }

/-- The captured variables of the callback of `Put` when it is first invoked. -/
def putVars (body : Body) : PutVars :=
  { matchRev := body.getString "_rev",
    generation := wrapInt (parseRevID (body.getString "_rev") + 1), body := body }

/-- The example database whose `storeAttachments` rejects every body. -/
def failingAttachmentsDatabase : Database :=
  { emptyDatabase with
    storeAttachments := fun _ _ _ _ => .error (Error.http 400 "Invalid attachment") }

/-- The example database after `Put` of a first revision (`1-a`) and `PutExistingRev` with the
one-element history `[2-b]`, which adds `2-b` as a second root: the ID that `createRevID` will
make for a child of `1-a` is already in the tree. -/
def collisionDatabase : Database :=
  (oneRevDatabase.PutExistingRev "doc" [("v", JSON.str "b")] ["2-b"]).2

/-- Well-formedness of a revision tree: revision IDs are unique, the parent of every non-root
revision is in the tree, and the generation of every revision is its parent's generation + 1
(1 at a root, the empty parent having generation 0). Entries of `shape` are
`(ID, Parent, Deleted)`. -/
def RevTree.wellFormed (tree : RevTree) : Prop :=
  (tree.shape.map (fun x => x.1)).Nodup ∧
  (∀ x ∈ tree.shape, x.2.1 = "" ∨ ∃ y ∈ tree.shape, y.1 = x.2.1) ∧
  (∀ x ∈ tree.shape, parseRevID x.1 = parseRevID x.2.1 + 1)

instance (tree : RevTree) : Decidable tree.wellFormed := by
  unfold RevTree.wellFormed
  exact inferInstance

/-! ## Specification-side notions for access maps -/

/-- A key of an access map with one leading `role:` prefix removed, when it has one. -/
def withoutRolePrefix (name : String) : String :=
  if "role:".toList.isPrefixOf name.toList then String.mk (name.toList.drop 5) else name

/-- The name matches `^[-+.@\w]*$`, read off the regular expression: every character is an
ASCII letter, an ASCII digit, or one of `_`, `-`, `+`, `.`, `@`. -/
def matchesNameRegexp (name : String) : Prop :=
  ∀ c ∈ name.toList,
    ('a' ≤ c ∧ c ≤ 'z') ∨ ('A' ≤ c ∧ c ≤ 'Z') ∨ ('0' ≤ c ∧ c ≤ '9') ∨
      c ∈ ['_', '-', '+', '.', '@']

instance (name : String) : Decidable (matchesNameRegexp name) := by
  unfold matchesNameRegexp
  exact inferInstance

/-- The example database with a sync function that grants the given access map on every
write and assigns no channel. -/
def accessMapperDatabase (access : AccessMap) : Database :=
  { emptyDatabase with
    ChannelMapper := some (fun _ _ _ =>
      ({ Channels := [], Access := access, Rejection := none }, none)) }

/-- The names that are keys of exactly one of two access maps: the symmetric difference of
the key sets. -/
def symmetricDifference (oldAccess newAccess : AccessMap) : List String :=
  (oldAccess.map Prod.fst).filter (fun name => !(newAccess.map Prod.fst).contains name) ++
  (newAccess.map Prod.fst).filter (fun name => !(oldAccess.map Prod.fst).contains name)

/-- The example database whose Principal Store knows the users `alice` and `bob`. -/
def usersDatabase : Database :=
  { emptyDatabase with
    GetUser := fun name =>
      if name = "alice" ∨ name = "bob" then
        some { Name_ := name, ExplicitChannels_ := [], Channels_ := [] }
      else none }

/-- The example database `deletedDatabase` (tree `1-a ← 2-b`, `2-b` a tombstone) after a
concurrent `PutExistingRev` of the live revision `2-c` with history `[2-c, 1-a]`: the leaves
are the tombstone `2-b` and `2-c`, and `2-c` wins. -/
def racedDatabase : Database :=
  (deletedDatabase.PutExistingRev "doc" [("v", JSON.str "c")] ["2-c", "1-a"]).2

/-- What a run of the callback of `Put` decides: the error, or the new revision ID, and the
parent and generation it used. -/
def putOutcome (run : PutVars × Except Error (document × Body)) :
    Option Error × String × String × Int :=
  match run.2 with
  | .error err => (some err, "", "", 0)
  | .ok (_, body) => (none, body.getString "_rev", run.1.matchRev, run.1.generation)

/-! ## Server configuration (`rest/config.go`) -/

/-- Go `var DefaultInterface`. -/
def DefaultInterface : String := ":4984"

/-- Go `var DefaultAdminInterface`. -/
def DefaultAdminInterface : String := ":4985"

/-- Go `var DefaultServer`. -/
def DefaultServer : String := "http://localhost:8091"

/-- Go `var DefaultPool`. -/
def DefaultPool : String := "default"

/-- Go `DbConfig`; a `*string` field is an `Option`, `none` being the nil pointer. -/
structure DbConfig where
  Name : String
  Server : Option String
  Bucket : Option String
  Pool : Option String
deriving DecidableEq, Repr

/-- Go `ServerConfig`; `BrowserID` holds the `Origin` of the `BrowserIDConfig`. `Databases` is
a slice of `DbConfig` values, not of pointers. -/
structure ServerConfig where
  Interface : Option String
  AdminInterface : Option String
  BrowserID : Option String
  Log : List String
  Pretty : Bool
  Databases : List DbConfig
deriving DecidableEq, Repr

/-- The body of the `for _, dbConfig := range config.Databases` loop of `ReadConfig`: the
value of the loop variable `dbConfig` at the end of an iteration that started with the given
value. -/
def readConfigLoopBody (dbConfig : DbConfig) : DbConfig :=
  let dbConfig :=
    if dbConfig.Server = none then { dbConfig with Server := some DefaultServer } else dbConfig
  let dbConfig :=
    if dbConfig.Bucket = none then { dbConfig with Bucket := some dbConfig.Name } else dbConfig
  let dbConfig :=
    if dbConfig.Pool = none then { dbConfig with Pool := some DefaultPool } else dbConfig
  dbConfig

/-- The `for _, dbConfig := range config.Databases` loop of `ReadConfig` as explicit state
passing. The state is the slice `config.Databases` and the loop variable `dbConfig`; an
iteration copies the next element into the variable and runs the body, whose assignments are
all to fields of the variable, so no iteration writes to the slice. -/
def readConfigLoop (databases : List DbConfig) : List DbConfig × Option DbConfig :=
  databases.foldl (fun state element =>
    let dbConfig := element
    (state.1, some (readConfigLoopBody dbConfig))) (databases, none)

/-- Go `ReadConfig(path)`, from the outcome of opening the file and decoding it. -/
def ReadConfig (decoded : Except Error ServerConfig) : Except Error ServerConfig :=
  match decoded with
  | .error err => .error err
  | .ok config =>
    -- Validation:
    if config.Databases.length = 0 then .error (Error.other "no databases listed")
    else
      let config :=
        if config.Interface = none then { config with Interface := some DefaultInterface }
        else config
      let config :=
        if config.AdminInterface = none then
          { config with AdminInterface := some DefaultAdminInterface }
        else config
      let config := { config with Databases := (readConfigLoop config.Databases).1 }
      .ok config

/-- The arguments `(server, pool, bucketName)` that `addDatabaseFromConfig(config)` passes to
`db.ConnectToBucket`. -/
def addDatabaseFromConfig (config : DbConfig) : String × String × String :=
  let server := "http://localhost:8091"
  let pool := "default"
  let bucketName := config.Name
  let server := match config.Server with
    | some s => s
    | none => server
  let pool := match config.Pool with
    | some p => p
    | none => pool
  let bucketName := match config.Bucket with
    | some b => b
    | none => bucketName
  (server, pool, bucketName)

/-- The decoded configuration file `\x7b"Databases": [\x7b"Name": "db"\x7d]\x7d`. -/
def exampleConfig : ServerConfig :=
  { Interface := none, AdminInterface := none, BrowserID := none, Log := [], Pretty := false,
    Databases := [{ Name := "db", Server := none, Bucket := none, Pool := none }] }

/-! ## Special documents (`special_docs.go`) -/

/-- The values that the store holds under the keys of special documents (`_sync:...`),
decoded. No document lives under such a key, since `realDocID` refuses a leading `_`, so this
part of `db.Bucket` is kept apart from `Bucket.docs`. `fault`, when set, makes every operation
of the store fail with that error. -/
structure SpecialBucket where
  docs : List (String × Body)
  fault : Option Error

/-- Go `Bucket.Get(key, &body)`: a missing key is an HTTP 404 error. -/
def SpecialBucket.Get (bucket : SpecialBucket) (key : String) : Except Error Body :=
  match bucket.fault with
  | some e => .error e
  | none =>
    match bucket.docs.lookup key with
    | some body => .ok body
    | none => .error (Error.http 404 "missing")

/-- Go `db.Bucket.Update(key, 0, fn)` as `putSpecial` uses it, without races: `fn` runs once on
the stored value (`none` when the key has no value) and gives the captured `revid` and the new
value, or an error. A nil new value removes the key (`TestDesignDocs` reads 404 after the
delete); nothing is written when `fn` returns an error. -/
def SpecialBucket.Update (bucket : SpecialBucket) (key : String)
    (fn : Option Body → Except Error (String × Option Body)) :
    (String × Option Error) × SpecialBucket :=
  match bucket.fault with
  | some err => (("", some err), bucket)
  | none =>
    match fn (bucket.docs.lookup key) with
    | .error err => (("", some err), bucket)
    | .ok (revid, some value) =>
      ((revid, none), { bucket with docs := mapSet bucket.docs key value })
    | .ok (revid, none) =>
      ((revid, none), { bucket with docs := bucket.docs.filter (fun kv => kv.1 ≠ key) })

/-- Go `(db *Database) realSpecialDocID(doctype, docid)`. -/
def realSpecialDocID (doctype : String) (docid : String) : String :=
  "_sync:" ++ doctype ++ ":" ++ docid

/-- Go `(db *Database) GetSpecial(doctype, docid)`. -/
def GetSpecial (bucket : SpecialBucket) (doctype : String) (docid : String) :
    Except Error Body :=
  let key := realSpecialDocID doctype docid
  if key = "" then .error (Error.http 400 "Invalid doc ID")
  else bucket.Get key

/-- Go `fmt.Sscanf(matchRev, "0-%d", &generation)` on the `uint` variable `generation`, which
holds 0: the number written by the decimal digits that follow the prefix `0-`, when there are
digits and the number fits 64 bits; otherwise the variable keeps its 0. -/
def scanGeneration (matchRev : String) : Nat :=
  match matchRev.toList with
  | '0' :: '-' :: rest =>
    let digits := rest.takeWhile Char.isDigit
    if digits ≠ [] ∧ decimalValue digits < 2 ^ 64 then decimalValue digits else 0
  | _ => 0

/-- Go `fmt.Sprintf("0-%d", generation)`. -/
def formatGeneration (generation : Nat) : String := "0-" ++ toString generation

/-- Go `matchRev != prevBody["_rev"]`, a string compared with an `interface\x7b\x7d`: they
are equal only when the stored `_rev` is a string with the same text. -/
def revMismatch (matchRev : String) (prevBody : Body) : Bool :=
  match prevBody.lookup "_rev" with
  | some (JSON.str rev) => decide (matchRev ≠ rev)
  | _ => true

/-- The function that `putSpecial` passes to `Bucket.Update`, run on the stored value (`none`
when `len(value) == 0`); `body = none` is the nil body of a delete. Gives the captured `revid`
and the value to store (`none` for the nil value), or an error; `generation + 1` is computed
on 64 bits. -/
def putSpecialCallback (matchRev : String) (body : Option Body) (value : Option Body) :
    Except Error (String × Option Body) :=
  let rejected : Option Error :=
    match value with
    | none =>
      if matchRev ≠ "" ∨ body.isNone then
        some (Error.http 404 "No previous revision to replace")
      else none
    | some prevBody =>
      if revMismatch matchRev prevBody then some (Error.http 409 "Document update conflict")
      else none
  match rejected with
  | some err => .error err
  | none =>
    match body with
    | some body =>
      -- Updating:
      let generation : Nat := if matchRev ≠ "" then scanGeneration matchRev else 0
      let revid := formatGeneration ((generation + 1) % 2 ^ 64)
      .ok (revid, some (mapSet body "_rev" (JSON.str revid)))
    | none =>
      -- Deleting:
      .ok ("", none)

/-- Go `(db *Database) putSpecial(doctype, docid, matchRev, body)`, giving `(revid, err)`, the
store afterwards, and whether `db.ReadDesignDocument()` was called. -/
def putSpecial (bucket : SpecialBucket) (doctype : String) (docid : String)
    (matchRev : String) (body : Option Body) :
    (String × Option Error) × SpecialBucket × Bool :=
  let key := realSpecialDocID doctype docid
  if key = "" then (("", some (Error.http 400 "Invalid doc ID")), bucket, false)
  else
    match bucket.Update key (putSpecialCallback matchRev body) with
    | ((revid, err), bucket) =>
      -- Ugly hack to detect changes to the channel-mapper function:
      ((revid, err), bucket, err.isNone && decide (doctype = "design" ∧ docid = "channels"))

/-- Go `stripSpecialSpecialProperties(body)`: the entries whose key does not start with
`_`. -/
def stripSpecialSpecialProperties (body : Body) : Body :=
  body.filter (fun kv => kv.1 = "" || !("_".toList.isPrefixOf kv.1.toList))

/-- Go `(db *Database) PutSpecial(doctype, docid, body)`. -/
def PutSpecial (bucket : SpecialBucket) (doctype : String) (docid : String) (body : Body) :
    (String × Option Error) × SpecialBucket × Bool :=
  let matchRev := body.getString "_rev"
  let body := stripSpecialSpecialProperties body
  putSpecial bucket doctype docid matchRev (some body)

/-- Go `(db *Database) DeleteSpecial(doctype, docid, revid)`, giving `err` and the store
afterwards. -/
def DeleteSpecial (bucket : SpecialBucket) (doctype : String) (docid : String)
    (revid : String) : Option Error × SpecialBucket :=
  match putSpecial bucket doctype docid revid none with
  | ((_, err), bucket, _) => (err, bucket)

/-- The store with no special document. -/
def emptySpecialBucket : SpecialBucket := { docs := [], fault := none }

/-- The store after `PUT \x7b"hi": "there"\x7d` to `_design/foo`, as in `TestDesignDocs`. -/
def designFooBucket : SpecialBucket :=
  (PutSpecial emptySpecialBucket "design" "foo" [("hi", JSON.str "there")]).2.1

/-- A store whose special document `_design/foo` carries the greatest revision number that
fits 64 bits. -/
def lastGenerationBucket : SpecialBucket :=
  { docs := [("_sync:design:foo",
      [("hi", JSON.str "there"), ("_rev", JSON.str "0-18446744073709551615")])],
    fault := none }

/-- The example database after `PutExistingRev` with the one-element history
`[9223372036854775807-a]`: the document has one revision, a leaf, whose generation is the
greatest that a 64-bit `int` holds. -/
def maxGenerationDatabase : Database :=
  (emptyDatabase.PutExistingRev "doc" [("v", JSON.str "a")] ["9223372036854775807-a"]).2

/-! ## Theorems -/

theorem authorizeLoop_iff (channels : ChannelMap) (cs : List String) :
    authorizeLoop channels cs = true ↔
      "*" ∈ cs ∨ ∃ c ∈ cs, channels.lookup c = some none := by
  induction cs with
  | nil => simp [authorizeLoop]
  | cons c rest ih =>
    unfold authorizeLoop
    by_cases hc : c = "*"
    · simp [hc]
    · simp only [hc, if_false]
      have hne : ¬ ("*" = c) := fun h => hc h.symm
      cases hl : channels.lookup c with
      | none => simp [ih, hl, hne]
      | some v =>
        cases v with
        | none => simp [hl]
        | some r => simp [ih, hl, hne]

/-- C1: `AuthorizeAnyDocChannels` returns nil exactly when the user is nil, or the user's
channel set contains `"*"`, or some channel of the user's set is a key of the channel map whose
value is the membership sentinel (nil); an entry holding a Removal record grants nothing. -/
theorem C1_authorizeAnyDocChannels_iff (user : Option roleImpl) (channels : ChannelMap) :
    (AuthorizeAnyDocChannels user channels = none ↔
      (user = none ∨ ∃ u, user = some u ∧
        ("*" ∈ u.Channels ∨ ∃ c ∈ u.Channels, channels.lookup c = some none))) ∧
    (∀ u c r, user = some u → "*" ∉ u.Channels →
      (∀ c' ∈ u.Channels, c' ≠ c → channels.lookup c' ≠ some none) →
      channels.lookup c = some (some r) → AuthorizeAnyDocChannels user channels ≠ none) := by
  constructor
  · cases user with
    | none => simp [AuthorizeAnyDocChannels]
    | some u =>
      simp only [AuthorizeAnyDocChannels, Option.some.injEq, false_or, exists_eq_left', reduceCtorEq]
      rw [← authorizeLoop_iff]
      by_cases h : authorizeLoop channels u.Channels = true <;> simp [h]
  · intro u c r hu hstar hothers hc
    subst hu
    have hno : ¬ authorizeLoop channels u.Channels = true := by
      rw [authorizeLoop_iff]
      rintro (h | ⟨c', hc', hl⟩)
      · exact hstar h
      · by_cases hcc : c' = c
        · subst hcc; rw [hc] at hl; cases hl
        · exact hothers c' hc' hcc hl
    simp [AuthorizeAnyDocChannels, hno]


/-- C1, instantiated: a user whose only channel is `foo` is refused on a document whose entry
for `foo` is a Removal record. -/
theorem C1_authorizeAnyDocChannels_iff_witness :
    AuthorizeAnyDocChannels
      (some { Name_ := "alice", ExplicitChannels_ := ["foo"], Channels_ := ["foo"] })
      [("foo", some { Seq := 2, Rev := "2-b" }), ("bar", none)] ≠ none :=
  (C1_authorizeAnyDocChannels_iff
    (some { Name_ := "alice", ExplicitChannels_ := ["foo"], Channels_ := ["foo"] })
    [("foo", some { Seq := 2, Rev := "2-b" }), ("bar", none)]).2
    { Name_ := "alice", ExplicitChannels_ := ["foo"], Channels_ := ["foo"] } "foo"
    { Seq := 2, Rev := "2-b" } rfl (by decide) (by decide) (by decide)

/-! ### `RevDiff`: the first loop -/

theorem revDiff_fold_missing (revmap : RevTree) (revids : List String) (v : RevDiffVars) :
    (revids.foldl (revDiffStep revmap) v).missing.getD [] =
      v.missing.getD [] ++ appended revmap revids := by
  induction revids generalizing v with
  | nil => simp [appended]
  | cons r rest ih =>
    rw [List.foldl_cons, ih]
    unfold revDiffStep appended
    by_cases hc : revmap.contains r = true
    · simp [hc]
    · by_cases hg : parseRevID r > 0
      · cases hm : v.missing <;> simp [hc, hg, hm, List.filter_cons]
      · cases hm : v.missing <;> simp [hc, hg, hm, List.filter_cons]

theorem revDiff_fold_isSome (revmap : RevTree) (revids : List String) (v : RevDiffVars) :
    (revids.foldl (revDiffStep revmap) v).missing.isSome =
      (v.missing.isSome || revids.any (fun r => !revmap.contains r)) := by
  induction revids generalizing v with
  | nil => simp
  | cons r rest ih =>
    rw [List.foldl_cons, ih]
    unfold revDiffStep
    by_cases hc : revmap.contains r = true
    · simp [hc]
    · by_cases hg : parseRevID r > 0
      · simp [hc, hg]
      · simp [hc, hg]

theorem revDiff_fold_found (revmap : RevTree) (revids : List String) (v : RevDiffVars)
    (x : String) :
    x ∈ (revids.foldl (revDiffStep revmap) v).found ↔
      x ∈ v.found ∨ (x ∈ revids ∧ revmap.contains x = true) := by
  induction revids generalizing v with
  | nil => simp
  | cons r rest ih =>
    rw [List.foldl_cons, ih]
    unfold revDiffStep
    by_cases hc : revmap.contains r = true
    · simp only [hc, if_true, List.mem_cons]
      constructor
      · rintro ((h | h) | h)
        · subst h; exact Or.inr ⟨Or.inl rfl, hc⟩
        · exact Or.inl h
        · exact Or.inr ⟨Or.inr h.1, h.2⟩
      · rintro (h | ⟨h | h, h2⟩)
        · exact Or.inl (Or.inr h)
        · exact Or.inl (Or.inl h)
        · exact Or.inr ⟨h, h2⟩
    · have hx : ∀ y, y = r → ¬ revmap.contains y = true := fun y hy => hy ▸ hc
      by_cases hg : parseRevID r > 0
      · simp only [hc, hg, if_true, List.mem_cons]
        constructor
        · rintro (h | h)
          · exact Or.inl h
          · exact Or.inr ⟨Or.inr h.1, h.2⟩
        · rintro (h | ⟨h | h, h2⟩)
          · exact Or.inl h
          · exact absurd h2 (hx x h)
          · exact Or.inr ⟨h, h2⟩
      · simp only [hc, hg, if_false, List.mem_cons]
        constructor
        · rintro (h | h)
          · exact Or.inl h
          · exact Or.inr ⟨Or.inr h.1, h.2⟩
        · rintro (h | ⟨h | h, h2⟩)
          · exact Or.inl h
          · exact absurd h2 (hx x h)
          · exact Or.inr ⟨h, h2⟩

theorem revDiff_fold_max (revmap : RevTree) (revids : List String) (v : RevDiffVars) :
    (revids.foldl (revDiffStep revmap) v).maxMissingGen =
      maxGenerationFrom v.maxMissingGen (appended revmap revids) := by
  induction revids generalizing v with
  | nil => simp [appended, maxGenerationFrom]
  | cons r rest ih =>
    rw [List.foldl_cons, ih]
    unfold revDiffStep appended maxGenerationFrom
    by_cases hc : revmap.contains r = true
    · simp [hc]
    · by_cases hg : parseRevID r > 0
      · simp only [hc, hg, if_true, List.filter_cons, Bool.not_false, Bool.true_and,
          decide_True, List.foldl_cons, Bool.false_eq_true, if_false]
        congr 1
        by_cases h2 : parseRevID r > v.maxMissingGen
        · simp [h2]; omega
        · simp [h2]; omega
      · simp [hc, hg, List.filter_cons]

/-! ### `RevDiff` on a document that loads -/

theorem RevDiff_loaded (db : Database) (docid : String) (revids : Option (List String))
    (doc : document) (h : db.getDoc docid = .ok doc) :
    db.RevDiff docid revids =
      if (revids.getD []).any (fun r => !doc.History.contains r) then
        (some (appended doc.History (revids.getD [])),
         revDiffPossible doc.History ((revids.getD []).foldl (revDiffStep doc.History)
           { missing := none, found := [], maxMissingGen := 0 }), none)
      else (none, none, none) := by
  unfold Database.RevDiff
  rw [h]
  simp only
  have h1 := revDiff_fold_isSome doc.History (revids.getD [])
    { missing := none, found := [], maxMissingGen := 0 }
  have h2 := revDiff_fold_missing doc.History (revids.getD [])
    { missing := none, found := [], maxMissingGen := 0 }
  simp only [Option.isSome_none, Bool.false_or, Option.getD_none, List.nil_append] at h1 h2
  rw [h1]
  by_cases ha : (revids.getD []).any (fun r => !doc.History.contains r) = true
  · rw [if_pos ha, if_pos ha]
    rw [ha] at h1
    obtain ⟨m, hm⟩ := Option.isSome_iff_exists.mp h1
    rw [hm] at h2 ⊢
    simp only [Option.getD_some] at h2
    rw [h2]
  · rw [if_neg ha, if_neg ha]

theorem RevTree.mem_keys_iff (tree : RevTree) (r : String) :
    r ∈ tree.keys ↔ tree.contains r = true := by
  unfold RevTree.keys RevTree.contains
  simp only [List.mem_map, List.any_eq_true, decide_eq_true_eq]

theorem mem_revDiffPossible (revmap : RevTree) (v : RevDiffVars) (r : String) :
    r ∈ (revDiffPossible revmap v).getD [] ↔
      revmap.contains r = true ∧ r ∉ v.found ∧ parseRevID r < v.maxMissingGen := by
  unfold revDiffPossible
  simp only
  split
  · rename_i h0
    rw [List.length_eq_zero] at h0
    have : r ∉ revmap.keys.filter
        (fun revid => !v.found.contains revid && decide (parseRevID revid < v.maxMissingGen)) := by
      rw [h0]; simp
    simp only [Option.getD_none, List.not_mem_nil, false_iff]
    intro hc
    apply this
    simp [List.mem_filter, RevTree.mem_keys_iff, hc.1, hc.2.1, hc.2.2]
  · simp [List.mem_filter, RevTree.mem_keys_iff]

theorem RevDiff_error_nil (db : Database) (docid : String) (revids : Option (List String)) :
    (db.RevDiff docid revids).2.2 = none := by
  unfold Database.RevDiff
  split
  · rfl
  · simp only
    split <;> rfl

theorem lookup_mapSet {V : Type} (m : List (String × V)) (k k' : String) (v : V) :
    (mapSet m k v).lookup k' = if k' = k then some v else m.lookup k' := by
  induction m with
  | nil =>
    by_cases h : k' = k
    · simp [mapSet, List.lookup, h]
    · have hb : (k' == k) = false := by simpa using h
      simp [mapSet, List.lookup, h, hb]
  | cons p rest ih =>
    obtain ⟨a, b⟩ := p
    unfold mapSet
    by_cases ha : a = k
    · subst ha
      by_cases h : k' = a
      · simp [List.lookup, h]
      · have hb : (k' == a) = false := by simpa using h
        simp [List.lookup, h, hb]
    · simp only [ha, if_false, List.lookup]
      by_cases h : k' = a
      · subst h
        simp [ha]
      · have hb : (k' == a) = false := by simpa using h
        simp only [hb, ih]

theorem revsDiffLoop_spec (db : Database) (input : List (String × Option (List String)))
    (output : List (String × DocOutput)) :
    ∃ out, revsDiffLoop db input output = .ok out ∧
      ∀ d, (out.lookup d).isSome = true ↔
        ((output.lookup d).isSome = true ∨
          ∃ revs, (d, revs) ∈ input ∧ (db.RevDiff d revs).1.isSome = true) := by
  induction input generalizing output with
  | nil => exact ⟨output, rfl, by simp⟩
  | cons p rest ih =>
    obtain ⟨docid, revs⟩ := p
    have herr := RevDiff_error_nil db docid revs
    unfold revsDiffLoop
    rcases hr : db.RevDiff docid revs with ⟨missing, possible, err⟩
    rw [hr] at herr
    simp only at herr
    subst herr
    cases missing with
    | none =>
      obtain ⟨out, ho, hspec⟩ := ih output
      refine ⟨out, ho, fun d => ?_⟩
      rw [hspec d]
      constructor
      · rintro (h | ⟨revs', hm, hs⟩)
        · exact Or.inl h
        · exact Or.inr ⟨revs', List.mem_cons_of_mem _ hm, hs⟩
      · rintro (h | ⟨revs', hm, hs⟩)
        · exact Or.inl h
        · rcases List.mem_cons.mp hm with heq | hm
          · injection heq with h1 h2
            subst h1; subst h2
            rw [hr] at hs
            simp at hs
          · exact Or.inr ⟨revs', hm, hs⟩
    | some m =>
      obtain ⟨out, ho, hspec⟩ :=
        ih (mapSet output docid { missing := m, possible_ancestors := possible })
      refine ⟨out, ho, fun d => ?_⟩
      rw [hspec d, lookup_mapSet]
      by_cases hd : d = docid
      · subst hd
        simp only [if_true, Option.isSome_some, true_or, true_iff]
        exact Or.inr ⟨revs, List.mem_cons_self _ _, by rw [hr]; rfl⟩
      · simp only [hd, if_false]
        constructor
        · rintro (h | ⟨revs', hm, hs⟩)
          · exact Or.inl h
          · exact Or.inr ⟨revs', List.mem_cons_of_mem _ hm, hs⟩
        · rintro (h | ⟨revs', hm, hs⟩)
          · exact Or.inl h
          · rcases List.mem_cons.mp hm with heq | hm
            · injection heq with h1 h2
              exact absurd h1 hd
            · exact Or.inr ⟨revs', hm, hs⟩

theorem exists_gen_of_lt_maxGenerationFrom (revs : List String) (m g : Int)
    (h : g < maxGenerationFrom m revs) : g < m ∨ ∃ x ∈ revs, g < parseRevID x := by
  induction revs generalizing m with
  | nil => exact Or.inl h
  | cons r rest ih =>
    unfold maxGenerationFrom at h
    rw [List.foldl_cons] at h
    rcases ih (max m (parseRevID r)) h with h1 | ⟨x, hx, hg⟩
    · rcases lt_max_iff.mp h1 with h2 | h2
      · exact Or.inl h2
      · exact Or.inr ⟨r, List.mem_cons_self _ _, h2⟩
    · exact Or.inr ⟨x, List.mem_cons_of_mem _ hx, hg⟩

/-- The membership test of `possible_ancestors` on a document that loads. -/
theorem mem_possible_loaded (db : Database) (docid : String) (revids : Option (List String))
    (doc : document) (h : db.getDoc docid = .ok doc) (r : String) :
    r ∈ (db.RevDiff docid revids).2.1.getD [] ↔
      (∃ x ∈ revids.getD [], doc.History.contains x = false) ∧
      doc.History.contains r = true ∧ r ∉ revids.getD [] ∧
      parseRevID r < maxGeneration ((db.RevDiff docid revids).1.getD []) := by
  rw [RevDiff_loaded db docid revids doc h]
  by_cases ha : (revids.getD []).any (fun r => !doc.History.contains r) = true
  · have hex : ∃ x ∈ revids.getD [], doc.History.contains x = false := by
      simpa using ha
    rw [if_pos ha]
    simp only [Option.getD_some]
    rw [mem_revDiffPossible, revDiff_fold_found, revDiff_fold_max]
    simp only [List.not_mem_nil, false_or, not_and, maxGeneration]
    constructor
    · rintro ⟨hc, hn, hg⟩
      exact ⟨hex, hc, fun hm => hn hm hc, hg⟩
    · rintro ⟨_, hc, hn, hg⟩
      exact ⟨hc, fun hm => absurd hm hn, hg⟩
  · rw [if_neg ha]
    simp only [Option.getD_none, List.not_mem_nil, false_iff]
    rintro ⟨⟨x, hx, hxc⟩, _⟩
    apply ha
    simp only [List.any_eq_true, Bool.not_eq_true']
    exact ⟨x, hx, hxc⟩

theorem RevDiff_missing_loaded (db : Database) (docid : String) (revids : Option (List String))
    (doc : document) (h : db.getDoc docid = .ok doc) :
    (db.RevDiff docid revids).1.getD [] = appended doc.History (revids.getD []) ∧
    ((db.RevDiff docid revids).1.isSome = true ↔
      ∃ r ∈ revids.getD [], doc.History.contains r = false) := by
  rw [RevDiff_loaded db docid revids doc h]
  by_cases ha : (revids.getD []).any (fun r => !doc.History.contains r) = true
  · rw [if_pos ha]
    refine ⟨rfl, ?_⟩
    simp only [Option.isSome_some, true_iff]
    simpa using ha
  · rw [if_neg ha]
    have hall : ∀ r ∈ revids.getD [], doc.History.contains r = true := by
      simpa using ha
    refine ⟨?_, ?_⟩
    · simp only [Option.getD_none, appended]
      symm
      rw [List.filter_eq_nil_iff]
      intro r hr
      simp [hall r hr]
    · simp only [Option.isSome_none, Bool.false_eq_true, false_iff, not_exists, not_and]
      intro r hr
      simp [hall r hr]

/-! ### `RevsDiff` and `RevDiff`: entries, missing revisions and possible ancestors -/

/-- C6: for a document that loads, the output of `RevsDiff` has an entry for its doc ID if and
only if at least one revision requested for it is not in the document's history; so when only
revisions of the history are requested there is no entry. -/
theorem C6_revsDiff_entry_iff (db : Database) (input : List (String × Option (List String)))
    (docid : String) (doc : document) (h : db.getDoc docid = .ok doc) :
    ∃ out, db.RevsDiff input = .ok out ∧
      ((out.lookup docid).isSome = true ↔
        ∃ revs, (docid, revs) ∈ input ∧ ∃ r ∈ revs.getD [], doc.History.contains r = false) ∧
      ((∀ revs, (docid, revs) ∈ input → ∀ r ∈ revs.getD [], doc.History.contains r = true) →
        out.lookup docid = none) := by
  obtain ⟨out, ho, hspec⟩ := revsDiffLoop_spec db input []
  have hiff : (out.lookup docid).isSome = true ↔
      ∃ revs, (docid, revs) ∈ input ∧ ∃ r ∈ revs.getD [], doc.History.contains r = false := by
    rw [hspec docid]
    simp only [List.lookup, Option.isSome_none, Bool.false_eq_true, false_or]
    constructor
    · rintro ⟨revs, hm, hs⟩
      exact ⟨revs, hm, (RevDiff_missing_loaded db docid revs doc h).2.mp hs⟩
    · rintro ⟨revs, hm, hs⟩
      exact ⟨revs, hm, (RevDiff_missing_loaded db docid revs doc h).2.mpr hs⟩
  refine ⟨out, ho, hiff, fun hall => ?_⟩
  cases hl : out.lookup docid with
  | none => rfl
  | some e =>
    rw [hl] at hiff
    obtain ⟨revs, hm, r, hr, hc⟩ := hiff.mp rfl
    rw [hall revs hm r hr] at hc
    cases hc

/-- C6, instantiated: asking for the full history `[1-a, 2-b]` of a stored document gives no
entry for it. -/
theorem C6_revsDiff_entry_iff_witness :
    ∃ out, (exampleDatabase [("doc", linearDoc)]).RevsDiff [("doc", some linearHistory.keys)]
        = .ok out ∧
      ((out.lookup "doc").isSome = true ↔
        ∃ revs, ("doc", revs) ∈ [("doc", some linearHistory.keys)] ∧
          ∃ r ∈ revs.getD [], linearDoc.History.contains r = false) ∧
      ((∀ revs, ("doc", revs) ∈ [("doc", some linearHistory.keys)] →
          ∀ r ∈ revs.getD [], linearDoc.History.contains r = true) →
        out.lookup "doc" = none) :=
  C6_revsDiff_entry_iff (exampleDatabase [("doc", linearDoc)])
    [("doc", some linearHistory.keys)] "doc" linearDoc rfl

/-- C7 as stated fails on the S6 scenario: with server history `[1-a, 2-b]` and request
`[2-b, 3-c, 4-d]`, `RevDiff` reports missing `[3-c, 4-d]` and possible ancestors `[1-a]` only;
`2-b` is in the history with generation 2 < 4 yet is not listed. -/
theorem C7_counterexample :
    (exampleDatabase [("doc", linearDoc)]).RevDiff "doc" (some ["2-b", "3-c", "4-d"])
      = (some ["3-c", "4-d"], some ["1-a"], none) ∧
    ¬ (∀ r, r ∈ ((exampleDatabase [("doc", linearDoc)]).RevDiff "doc"
          (some ["2-b", "3-c", "4-d"])).2.1.getD [] ↔
        (linearDoc.History.contains r = true ∧
          parseRevID r < maxGeneration (((exampleDatabase [("doc", linearDoc)]).RevDiff "doc"
            (some ["2-b", "3-c", "4-d"])).1.getD []))) := by
  have hres : (exampleDatabase [("doc", linearDoc)]).RevDiff "doc" (some ["2-b", "3-c", "4-d"])
      = (some ["3-c", "4-d"], some ["1-a"], none) := by decide
  refine ⟨hres, fun hall => ?_⟩
  have h2 := (hall "2-b").mpr ⟨by decide, by rw [hres]; decide⟩
  rw [hres] at h2
  revert h2
  decide

/-- C7 (amended): for a document that loads and a request with at least one revision not in
its history, the possible ancestors reported by `RevDiff` are exactly the revisions of the
history that were not themselves requested and whose generation is below the largest
generation among the revisions reported missing (0 when none is reported). -/
theorem C7_possible_ancestors_iff (db : Database) (docid : String)
    (revids : Option (List String)) (doc : document) (h : db.getDoc docid = .ok doc)
    (hmiss : ∃ x ∈ revids.getD [], doc.History.contains x = false) (r : String) :
    r ∈ (db.RevDiff docid revids).2.1.getD [] ↔
      (doc.History.contains r = true ∧ r ∉ revids.getD [] ∧
        parseRevID r < maxGeneration ((db.RevDiff docid revids).1.getD [])) := by
  rw [mem_possible_loaded db docid revids doc h]
  exact ⟨fun hx => hx.2, fun hx => ⟨hmiss, hx⟩⟩

/-- C7 (amended), instantiated on the S6 scenario for the revision `1-a`. -/
theorem C7_possible_ancestors_iff_witness :
    "1-a" ∈ ((exampleDatabase [("doc", linearDoc)]).RevDiff "doc"
        (some ["2-b", "3-c", "4-d"])).2.1.getD [] ↔
      (linearDoc.History.contains "1-a" = true ∧
        "1-a" ∉ (some ["2-b", "3-c", "4-d"]).getD [] ∧
        parseRevID "1-a" < maxGeneration (((exampleDatabase [("doc", linearDoc)]).RevDiff "doc"
          (some ["2-b", "3-c", "4-d"])).1.getD [])) :=
  C7_possible_ancestors_iff (exampleDatabase [("doc", linearDoc)]) "doc"
    (some ["2-b", "3-c", "4-d"]) linearDoc rfl ⟨"3-c", by decide, by decide⟩ "1-a"

/-- C8: every revision that `RevDiff` lists in `possible_ancestors` is in the history of the
(loaded) document and its generation is strictly below the largest generation among the
revisions listed as missing; when its ID is well formed, a listed missing revision of greater
generation exists. -/
theorem C8_possible_ancestors_sound (db : Database) (docid : String)
    (revids : Option (List String)) (r : String)
    (hr : r ∈ (db.RevDiff docid revids).2.1.getD []) :
    (∃ doc, db.getDoc docid = .ok doc ∧ doc.History.contains r = true) ∧
    parseRevID r < maxGeneration ((db.RevDiff docid revids).1.getD []) ∧
    (0 ≤ parseRevID r →
      ∃ m ∈ (db.RevDiff docid revids).1.getD [], parseRevID r < parseRevID m) := by
  cases hdoc : db.getDoc docid with
  | error e =>
    unfold Database.RevDiff at hr
    rw [hdoc] at hr
    simp at hr
  | ok doc =>
    obtain ⟨_, hc, _, hg⟩ := (mem_possible_loaded db docid revids doc hdoc r).mp hr
    refine ⟨⟨doc, rfl, hc⟩, hg, fun h0 => ?_⟩
    rcases exists_gen_of_lt_maxGenerationFrom _ 0 _ hg with h1 | h1
    · omega
    · exact h1

/-- C8, instantiated on the S6 scenario for the possible ancestor `1-a`. -/
theorem C8_possible_ancestors_sound_witness :
    (∃ doc, (exampleDatabase [("doc", linearDoc)]).getDoc "doc" = .ok doc ∧
      doc.History.contains "1-a" = true) ∧
    parseRevID "1-a" < maxGeneration (((exampleDatabase [("doc", linearDoc)]).RevDiff "doc"
      (some ["2-b", "3-c", "4-d"])).1.getD []) ∧
    (0 ≤ parseRevID "1-a" →
      ∃ m ∈ ((exampleDatabase [("doc", linearDoc)]).RevDiff "doc"
        (some ["2-b", "3-c", "4-d"])).1.getD [], parseRevID "1-a" < parseRevID m) :=
  C8_possible_ancestors_sound (exampleDatabase [("doc", linearDoc)]) "doc"
    (some ["2-b", "3-c", "4-d"]) "1-a" (by decide)

/-- C9 fails on the code: `RevsDiff` emits an entry whose `missing` list is empty when the only
unknown requested revision is malformed (`xyz`), and when the document cannot be loaded and
the requested list is the empty list. -/
theorem C9_entry_with_empty_missing :
    (exampleDatabase [("doc", linearDoc)]).RevsDiff [("doc", some ["xyz"])]
      = .ok [("doc", { missing := [], possible_ancestors := none })] ∧
    (exampleDatabase []).RevsDiff [("nodoc", some [])]
      = .ok [("nodoc", { missing := [], possible_ancestors := none })] := by
  constructor <;> rfl

/-- C10: for a document that loads and a request whose revision IDs all parse with a
generation of at least 1, the `missing` list of `RevDiff` is exactly the requested revisions
not contained in the history, in input order, and no revision of the history is in it. -/
theorem C10_missing_partition (db : Database) (docid : String)
    (revids : Option (List String)) (doc : document) (h : db.getDoc docid = .ok doc)
    (hgen : ∀ r ∈ revids.getD [], 1 ≤ parseRevID r) :
    (db.RevDiff docid revids).1.getD [] =
      (revids.getD []).filter (fun r => !doc.History.contains r) ∧
    ∀ r ∈ (db.RevDiff docid revids).1.getD [], doc.History.contains r = false := by
  have hm := (RevDiff_missing_loaded db docid revids doc h).1
  have heq : appended doc.History (revids.getD []) =
      (revids.getD []).filter (fun r => !doc.History.contains r) := by
    unfold appended
    apply List.filter_congr
    intro r hr
    have := hgen r hr
    have hpos : parseRevID r > 0 := by omega
    simp [hpos]
  rw [hm, heq]
  refine ⟨rfl, fun r hr => ?_⟩
  have := (List.mem_filter.mp hr).2
  simpa using this

/-- C10, instantiated on the S6 scenario: the request `[2-b, 3-c, 4-d]` splits into the known
`2-b` and the missing `[3-c, 4-d]`. -/
theorem C10_missing_partition_witness :
    ((exampleDatabase [("doc", linearDoc)]).RevDiff "doc"
        (some ["2-b", "3-c", "4-d"])).1.getD [] =
      ((some ["2-b", "3-c", "4-d"]).getD []).filter (fun r => !linearDoc.History.contains r) ∧
    ∀ r ∈ ((exampleDatabase [("doc", linearDoc)]).RevDiff "doc"
        (some ["2-b", "3-c", "4-d"])).1.getD [], linearDoc.History.contains r = false :=
  C10_missing_partition (exampleDatabase [("doc", linearDoc)]) "doc"
    (some ["2-b", "3-c", "4-d"]) linearDoc rfl (by decide)

/-! ### `updateDoc` when the callback fails -/

theorem updateDoc_of_callback_error (db : Database) (docid : String)
    (callback : document → Except Error (document × Body)) (e : Error)
    (hkey : db.realDocID docid ≠ "") (hfault : db.Bucket.fault = none)
    (hcb : callback (db.currentDocument docid (db.realDocID docid)) = .error e) :
    db.updateDoc docid callback = (("", if e = Error.UpdateCancel then none else some e), db) := by
  unfold Database.updateDoc
  simp only [hkey, if_false]
  unfold Database.bucketUpdate
  rw [hfault]
  simp only
  unfold Database.updateDocCallback
  rw [hcb]
  cases e <;> simp

theorem PutCheck_error_status (v : PutVars) (doc : document) (e : Error)
    (h : PutCheck v doc = .error e) : ∃ msg, e = Error.http 409 msg := by
  unfold PutCheck at h
  split at h
  · simp only at h
    split at h
    · split at h
      · injection h with h; exact ⟨_, h.symm⟩
      · cases h
    · cases h
  · split at h
    · injection h with h; exact ⟨_, h.symm⟩
    · cases h

theorem PutCheck_ok_iff (v : PutVars) (doc : document) :
    (∃ v', PutCheck v doc = .ok v') ↔
      (v.matchRev ≠ "" ∧ doc.History.isLeaf v.matchRev = true) ∨
      (v.matchRev = "" ∧
        (doc.CurrentRev = "" ∨ (doc.History.get doc.CurrentRev).Deleted = true)) := by
  unfold PutCheck
  by_cases hm : v.matchRev = ""
  · simp only [hm, if_true, ne_eq, not_true_eq_false, false_and, false_or, true_and]
    by_cases hc : doc.CurrentRev = ""
    · simp [hc]
    · by_cases hd : (doc.History.get doc.CurrentRev).Deleted = true
      · simp [hc, hd]
      · simp [hc, hd]
  · simp only [hm, if_false, ne_eq, not_false_eq_true, true_and, false_and, or_false]
    by_cases hl : doc.History.isLeaf v.matchRev = true
    · simp [hl]
    · simp [hl]

/-! ### Winner selection -/

theorem pickWinner_fold_mem (l : List String) (init : Option String) (w : String)
    (h : l.foldl (fun best revid =>
      match best with
      | none => some revid
      | some w => if revBeats revid w then some revid else some w) init = some w) :
    init = some w ∨ w ∈ l := by
  induction l generalizing init with
  | nil => exact Or.inl h
  | cons r rest ih =>
    rw [List.foldl_cons] at h
    rcases ih _ h with h1 | h1
    · cases init with
      | none =>
        simp only [Option.some.injEq] at h1
        exact Or.inr (h1 ▸ List.mem_cons_self _ _)
      | some w0 =>
        simp only at h1
        split at h1
        · simp only [Option.some.injEq] at h1
          exact Or.inr (h1 ▸ List.mem_cons_self _ _)
        · exact Or.inl h1
    · exact Or.inr (List.mem_cons_of_mem _ h1)

theorem pickWinner_fold_none (l : List String) (init : Option String)
    (h : l.foldl (fun best revid =>
      match best with
      | none => some revid
      | some w => if revBeats revid w then some revid else some w) init = none) :
    init = none ∧ l = [] := by
  induction l generalizing init with
  | nil => exact ⟨h, rfl⟩
  | cons r rest ih =>
    rw [List.foldl_cons] at h
    have := (ih _ h).1
    cases init with
    | none => simp at this
    | some w0 =>
      simp only at this
      split at this <;> cases this

theorem pickWinner_mem (l : List String) (w : String) (h : pickWinner l = some w) : w ∈ l := by
  rcases pickWinner_fold_mem l none w h with h1 | h1
  · cases h1
  · exact h1

theorem pickWinner_none (l : List String) (h : pickWinner l = none) : l = [] :=
  (pickWinner_fold_none l none h).2

/-- When no revision has an empty ID, the winner is the empty ID or a tombstone exactly when
the tree has no non-deleted leaf. -/
theorem winner_deleted_iff (tree : RevTree) (hempty : tree.contains "" = false) :
    (tree.winningRevision = "" ∨ (tree.get tree.winningRevision).Deleted = true) ↔
      ∀ r ∈ tree.getLeaves, (tree.get r).Deleted = true := by
  unfold RevTree.winningRevision
  cases hlive : pickWinner (tree.getLeaves.filter (fun revid => !(tree.get revid).Deleted)) with
  | some w =>
    simp only
    have hw := pickWinner_mem _ _ hlive
    rw [List.mem_filter] at hw
    have hdel : (tree.get w).Deleted = false := by simpa using hw.2
    have hkey : w ∈ tree.keys := (List.mem_filter.mp hw.1).1
    have hne : w ≠ "" := by
      intro h0
      rw [h0, RevTree.mem_keys_iff, hempty] at hkey
      cases hkey
    constructor
    · rintro (h | h)
      · exact absurd h hne
      · rw [hdel] at h; cases h
    · intro hall
      have := hall w hw.1
      rw [hdel] at this; cases this
  | none =>
    simp only
    have hnil := pickWinner_none _ hlive
    have hall : ∀ r ∈ tree.getLeaves, (tree.get r).Deleted = true := by
      intro r hr
      by_contra hd
      have : r ∈ tree.getLeaves.filter (fun revid => !(tree.get revid).Deleted) := by
        rw [List.mem_filter]; exact ⟨hr, by simpa using hd⟩
      rw [hnil] at this
      cases this
    refine ⟨fun _ => hall, fun _ => ?_⟩
    cases hdead : pickWinner (tree.getLeaves.filter (fun revid => (tree.get revid).Deleted)) with
    | none => exact Or.inl rfl
    | some w =>
      right
      have hw := pickWinner_mem _ _ hdead
      simp only [Option.getD_some]
      exact (List.mem_filter.mp hw).2

/-! ### `Put`: the parent check -/

theorem realDocID_eq (db : Database) (docid : String) (h : db.realDocID docid ≠ "") :
    db.realDocID docid = docid := by
  unfold Database.realDocID at h ⊢
  split
  · rename_i hc
    rw [if_pos hc] at h
    exact absurd rfl h
  · rfl

/-- C2 as stated fails: in the database whose document has the two leaves `2-b` and `2-c`
(winner `2-c`), a `Put` whose `_rev` is the losing leaf `2-b` passes the parent check,
succeeds with the new revision `3-c` and adds it to the tree; and a `Put` whose `_rev` is the
malformed `xyz` fails with HTTP 400, not 409. -/
theorem C2_counterexample :
    (conflictDatabase.currentDocument "doc" "doc").CurrentRev = "2-c" ∧
    (conflictDatabase.currentDocument "doc" "doc").History.winningRevision = "2-c" ∧
    Body.getString [("_rev", JSON.str "2-b"), ("z", JSON.num 3)] "_rev" = "2-b" ∧
    (conflictDatabase.Put "doc" [("_rev", JSON.str "2-b"), ("z", JSON.num 3)]).1
      = ("3-c", none) ∧
    ((conflictDatabase.Put "doc" [("_rev", JSON.str "2-b"), ("z", JSON.num 3)]).2.currentDocument
      "doc" "doc").History.keys = ["1-a", "2-b", "2-c", "3-c"] ∧
    (conflictDatabase.Put "doc" [("_rev", JSON.str "xyz")]).1
      = ("", some (Error.http 400 "Invalid revision ID")) := by
  refine ⟨?_, ?_, ?_, ?_, ?_, ?_⟩ <;> with_unfolding_all decide

/-- C2 (amended): for an existing document, `Put` passes its parent check exactly when
`body["_rev"]` is a leaf of the revision tree, or `_rev` is absent and the document's current
revision is empty or a tombstone (which, when the current revision is the winner, means that
the tree has no non-deleted leaf). In every other case `Put` fails with HTTP 409, or with HTTP
400 when `_rev` is not a valid revision ID, and leaves the database as it was. -/
theorem C2_put_parent_check (db : Database) (docid : String) (body : Body) (doc : document)
    (hkey : db.realDocID docid ≠ "") (hfault : db.Bucket.fault = none)
    (hdoc : db.Bucket.docs.lookup docid = some doc) :
    ((∃ v', PutCheck { matchRev := body.getString "_rev",
                       generation := wrapInt (parseRevID (body.getString "_rev") + 1),
                       body := body } doc = .ok v') ↔
      (body.getString "_rev" ≠ "" ∧ doc.History.isLeaf (body.getString "_rev") = true) ∨
      (body.getString "_rev" = "" ∧
        (doc.CurrentRev = "" ∨ (doc.History.get doc.CurrentRev).Deleted = true))) ∧
    ((¬ ∃ v', PutCheck { matchRev := body.getString "_rev",
                         generation := wrapInt (parseRevID (body.getString "_rev") + 1),
                         body := body } doc = .ok v') →
      (∃ msg, db.Put docid body = (("", some (Error.http 409 msg)), db)) ∨
      (parseRevID (body.getString "_rev") < 0 ∧
        db.Put docid body = (("", some (Error.http 400 "Invalid revision ID")), db))) ∧
    (doc.CurrentRev = doc.History.winningRevision → doc.History.contains "" = false →
      ((doc.CurrentRev = "" ∨ (doc.History.get doc.CurrentRev).Deleted = true) ↔
        ∀ r ∈ doc.History.getLeaves, (doc.History.get r).Deleted = true)) := by
  refine ⟨PutCheck_ok_iff _ doc, fun hno => ?_, fun hwin hempty => ?_⟩
  · by_cases hgen : parseRevID (body.getString "_rev") < 0
    · right
      refine ⟨hgen, ?_⟩
      unfold Database.Put
      simp only [hgen, if_true]
    · left
      cases hc : PutCheck (PutVars.mk (body.getString "_rev")
          (wrapInt (parseRevID (body.getString "_rev") + 1)) body) doc with
      | ok v' => exact absurd ⟨v', hc⟩ hno
      | error e =>
        obtain ⟨msg, hmsg⟩ := PutCheck_error_status _ _ _ hc
        refine ⟨msg, ?_⟩
        unfold Database.Put
        simp only [hgen, if_false]
        have hcur : db.currentDocument docid (db.realDocID docid) = doc := by
          unfold Database.currentDocument
          rw [realDocID_eq db docid hkey, hdoc]
        rw [updateDoc_of_callback_error db docid _ e hkey hfault]
        · subst hmsg
          simp
        · rw [hcur]
          unfold Database.PutCallback
          rw [hc]
  · rw [hwin]
    exact winner_deleted_iff doc.History hempty

/-- C2 (amended), instantiated on the database with the two leaves `2-b` and `2-c` and a
`Put` whose `_rev` is the leaf `2-b`. -/
theorem C2_put_parent_check_witness :
    (∃ v', PutCheck { matchRev := Body.getString [("_rev", JSON.str "2-b")] "_rev",
                      generation :=
                        wrapInt (parseRevID (Body.getString [("_rev", JSON.str "2-b")] "_rev") + 1),
                      body := [("_rev", JSON.str "2-b")] }
        (conflictDatabase.currentDocument "doc" "doc") = .ok v') ↔
      (Body.getString [("_rev", JSON.str "2-b")] "_rev" ≠ "" ∧
        (conflictDatabase.currentDocument "doc" "doc").History.isLeaf
          (Body.getString [("_rev", JSON.str "2-b")] "_rev") = true) ∨
      (Body.getString [("_rev", JSON.str "2-b")] "_rev" = "" ∧
        ((conflictDatabase.currentDocument "doc" "doc").CurrentRev = "" ∨
          ((conflictDatabase.currentDocument "doc" "doc").History.get
            (conflictDatabase.currentDocument "doc" "doc").CurrentRev).Deleted = true)) :=
  (C2_put_parent_check conflictDatabase "doc" [("_rev", JSON.str "2-b")]
    (conflictDatabase.currentDocument "doc" "doc") (by with_unfolding_all decide)
    (by with_unfolding_all decide) (by with_unfolding_all rfl)).1

/-! ### `PutExistingRev`: a revision that is already present -/

/-- C4 as stated fails: after `PutExistingRev` with the history `[1-a, xyz]` the tree of the
document contains `xyz`, yet `PutExistingRev` with the history `[xyz]` returns the HTTP 400
error "Invalid revision ID". -/
theorem C4_counterexample :
    (malformedAncestorDatabase.currentDocument "doc" "doc").History.contains "xyz" = true ∧
    (malformedAncestorDatabase.PutExistingRev "doc" [("v", JSON.str "b")] ["xyz"]).1
      = some (Error.http 400 "Invalid revision ID") := by
  constructor <;> with_unfolding_all decide

/-- C4 (amended): for a history list whose first revision `h[0]` is in the revision tree of the
stored document and passes the revision-ID check of `PutExistingRev` (`parseRevID` gives a
generation of at least 0), `PutExistingRev` returns no error and leaves the whole database as
it was: the stored document, the sequence counter, the invalidations and the number of change
notifications are unchanged. -/
theorem C4_putExistingRev_noop (db : Database) (docid : String) (body : Body)
    (newRev : String) (ancestors : List String) (doc : document)
    (hkey : db.realDocID docid ≠ "") (hfault : db.Bucket.fault = none)
    (hdoc : db.Bucket.docs.lookup docid = some doc)
    (hcontains : doc.History.contains newRev = true) (hgen : 0 ≤ parseRevID newRev) :
    db.PutExistingRev docid body (newRev :: ancestors) = (none, db) := by
  unfold Database.PutExistingRev
  have hlt : ¬ parseRevID newRev < 0 := by omega
  simp only [hlt, if_false]
  have hcur : db.currentDocument docid (db.realDocID docid) = doc := by
    unfold Database.currentDocument
    rw [realDocID_eq db docid hkey, hdoc]
  rw [updateDoc_of_callback_error db docid _ Error.UpdateCancel hkey hfault]
  · simp
  · rw [hcur]
    unfold Database.PutExistingRevCallback
    simp [currentRevIndex, hcontains]

/-- C4 (amended), instantiated: `PutExistingRev` of `[2-b, 1-a]` on the database whose document
already has `2-b`. -/
theorem C4_putExistingRev_noop_witness :
    conflictDatabase.PutExistingRev "doc" [("x", JSON.num 2)] ("2-b" :: ["1-a"])
      = (none, conflictDatabase) :=
  C4_putExistingRev_noop conflictDatabase "doc" [("x", JSON.num 2)] "2-b" ["1-a"]
    (conflictDatabase.currentDocument "doc" "doc") (by with_unfolding_all decide)
    (by with_unfolding_all decide) (by with_unfolding_all rfl) (by with_unfolding_all decide)
    (by decide)

/-! ### What depends only on the shape of a revision tree -/

theorem RevTree.keys_eq_shape (tree : RevTree) : tree.keys = tree.shape.map (fun x => x.1) := by
  simp [RevTree.keys, RevTree.shape, List.map_map, Function.comp_def]

theorem RevTree.contains_eq_shape (tree : RevTree) (r : String) :
    tree.contains r = tree.shape.any (fun x => decide (x.1 = r)) := by
  induction tree with
  | nil => rfl
  | cons x rest ih =>
    unfold RevTree.contains RevTree.shape at *
    simp only [List.any_cons, List.map_cons]
    rw [ih]

theorem RevTree.all_parent_eq_shape (tree : RevTree) (r : String) :
    tree.all (fun info => decide (info.Parent ≠ r)) =
      tree.shape.all (fun x => decide (x.2.1 ≠ r)) := by
  induction tree with
  | nil => rfl
  | cons x rest ih =>
    unfold RevTree.shape at *
    simp only [List.all_cons, List.map_cons]
    rw [ih]

theorem RevTree.isLeaf_eq_shape (tree : RevTree) (r : String) :
    tree.isLeaf r = (tree.shape.any (fun x => decide (x.1 = r)) &&
      tree.shape.all (fun x => decide (x.2.1 ≠ r))) := by
  unfold RevTree.isLeaf
  rw [RevTree.contains_eq_shape, RevTree.all_parent_eq_shape]

theorem RevTree.get_eq_shape (tree : RevTree) (r : String) :
    ((tree.get r).ID, (tree.get r).Parent, (tree.get r).Deleted) =
      (tree.shape.find? (fun x => decide (x.1 = r))).getD ("", "", false) := by
  induction tree with
  | nil => rfl
  | cons x rest ih =>
    unfold RevTree.get RevTree.shape at *
    simp only [List.find?_cons, List.map_cons]
    by_cases h : x.ID = r
    · simp [h]
    · simp only [h, decide_False]
      exact ih

theorem RevTree.get_congr {t t' : RevTree} (h : t.shape = t'.shape) (r : String) :
    (t.get r).ID = (t'.get r).ID ∧ (t.get r).Parent = (t'.get r).Parent ∧
      (t.get r).Deleted = (t'.get r).Deleted := by
  have h1 := RevTree.get_eq_shape t r
  have h2 := RevTree.get_eq_shape t' r
  rw [h] at h1
  have h3 := h1.trans h2.symm
  simp only [Prod.mk.injEq] at h3
  exact h3

theorem RevTree.getLeaves_congr {t t' : RevTree} (h : t.shape = t'.shape) :
    t.getLeaves = t'.getLeaves := by
  unfold RevTree.getLeaves
  rw [RevTree.keys_eq_shape, RevTree.keys_eq_shape, h]
  apply List.filter_congr
  intro r _
  rw [RevTree.isLeaf_eq_shape, RevTree.isLeaf_eq_shape, h]

theorem RevTree.winningRevision_congr {t t' : RevTree} (h : t.shape = t'.shape) :
    t.winningRevision = t'.winningRevision := by
  unfold RevTree.winningRevision
  have hd : (fun revid => (t.get revid).Deleted) = (fun revid => (t'.get revid).Deleted) :=
    funext (fun r => (RevTree.get_congr h r).2.2)
  have hn : (fun revid => !(t.get revid).Deleted) = (fun revid => !(t'.get revid).Deleted) :=
    funext (fun r => by rw [(RevTree.get_congr h r).2.2])
  rw [RevTree.getLeaves_congr h, hd, hn]

theorem RevTree.shape_setRevisionBody (tree : RevTree) (r : String) (b : Option Body) :
    (tree.setRevisionBody r b).shape = tree.shape := by
  unfold RevTree.setRevisionBody RevTree.shape
  rw [List.map_map]
  apply List.map_congr_left
  intro info _
  simp only [Function.comp]
  split <;> rfl

/-! ### What `updateDoc` stores -/

theorem updateDocRevisions_spec (doc : document) (newRevID : String) (body : Body) :
    (updateDocRevisions doc newRevID body).CurrentRev = doc.History.winningRevision ∧
    (updateDocRevisions doc newRevID body).Deleted =
      (doc.History.get doc.History.winningRevision).Deleted ∧
    (updateDocRevisions doc newRevID body).History.shape = doc.History.shape := by
  unfold updateDocRevisions document.setRevision
  simp only
  refine ⟨?_, ?_, ?_⟩
  · split <;> split <;> split <;> rfl
  · split <;> split <;> split <;> rfl
  · split <;> split <;> split <;> simp only [RevTree.shape_setRevisionBody]

theorem updateDocChannels_fields (db : Database) (doc : document) (newChannels : ChannelSet) :
    (db.updateDocChannels doc newChannels).1.CurrentRev = doc.CurrentRev ∧
    (db.updateDocChannels doc newChannels).1.Deleted = doc.Deleted ∧
    (db.updateDocChannels doc newChannels).1.History = doc.History :=
  ⟨rfl, rfl, rfl⟩

theorem updateDocAccess_fields (db : Database) (doc : document) (newAccess : AccessMap) :
    (db.updateDocAccess doc newAccess).1.CurrentRev = doc.CurrentRev ∧
    (db.updateDocAccess doc newAccess).1.Deleted = doc.Deleted ∧
    (db.updateDocAccess doc newAccess).1.History = doc.History := by
  unfold Database.updateDocAccess
  simp only
  split <;> exact ⟨rfl, rfl, rfl⟩

theorem updateDocCallback_bucket (db : Database)
    (callback : document → Except Error (document × Body)) (doc0 : document) :
    (db.updateDocCallback callback doc0).2.Bucket = db.Bucket := by
  unfold Database.updateDocCallback
  split
  · rfl
  · split
    · simp only
      split
      · rfl
      · split
        · rfl
        · rfl
    · rfl

theorem updateDocCallback_ok (db : Database)
    (callback : document → Except Error (document × Body)) (doc0 doc : document)
    (newRevID : String) (db' : Database)
    (h : db.updateDocCallback callback doc0 = (.ok (doc, newRevID), db')) :
    ∃ doc1 body, callback doc0 = .ok (doc1, body) ∧
      body.lookup "_rev" = some (JSON.str newRevID) ∧
      doc.CurrentRev = doc1.History.winningRevision ∧
      doc.Deleted = (doc1.History.get doc1.History.winningRevision).Deleted ∧
      doc.History.shape = doc1.History.shape := by
  unfold Database.updateDocCallback at h
  split at h
  · cases h
  · rename_i doc1 body hcb
    split at h
    · rename_i rev hrev
      simp only at h
      split at h
      · cases h
      · split at h
        · cases h
        · rename_i channels access hca
          simp only [Prod.mk.injEq, Except.ok.injEq] at h
          obtain ⟨⟨hdoc, hrevid⟩, _⟩ := h
          subst hrevid
          refine ⟨doc1, body, hcb, hrev, ?_⟩
          have hs := updateDocRevisions_spec doc1 rev body
          rw [← hdoc]
          simp only [updateDocAccess_fields, updateDocChannels_fields]
          exact hs
    · cases h

theorem updateDocCallback_notifications (db : Database)
    (callback : document → Except Error (document × Body)) (doc0 : document) :
    (db.updateDocCallback callback doc0).2.notifications = db.notifications := by
  unfold Database.updateDocCallback
  split
  · rfl
  · split
    · simp only
      split
      · rfl
      · split
        · rfl
        · rfl
    · rfl

theorem mem_mapSet {V : Type} (m : List (String × V)) (k : String) (v : V) (p : String × V)
    (h : p ∈ mapSet m k v) : p ∈ m ∨ p = (k, v) := by
  induction m with
  | nil =>
    simp only [mapSet, List.mem_singleton] at h
    exact Or.inr h
  | cons x rest ih =>
    obtain ⟨a, b⟩ := x
    unfold mapSet at h
    split at h
    · rcases List.mem_cons.mp h with h1 | h1
      · exact Or.inr h1
      · exact Or.inl (List.mem_cons_of_mem _ h1)
    · rcases List.mem_cons.mp h with h1 | h1
      · exact Or.inl (h1 ▸ List.mem_cons_self _ _)
      · rcases ih h1 with h2 | h2
        · exact Or.inl (List.mem_cons_of_mem _ h2)
        · exact Or.inr h2

/-- The outcome of `updateDoc`: either the write does not commit, and the store and the
notification count are as before; or the function passed to `Bucket.Update` returned a
document, which is stored under the key, and one notification is sent. -/
theorem updateDoc_outcome (db : Database) (docid : String)
    (callback : document → Except Error (document × Body)) :
    ((db.updateDoc docid callback).2.Bucket = db.Bucket ∧
      (db.updateDoc docid callback).2.notifications = db.notifications) ∨
    (∃ doc newRevID db',
      db.updateDocCallback callback (db.currentDocument docid (db.realDocID docid))
        = (.ok (doc, newRevID), db') ∧
      (db.updateDoc docid callback).2.Bucket.docs
        = mapSet db.Bucket.docs (db.realDocID docid) doc ∧
      (db.updateDoc docid callback).2.notifications = db.notifications + 1) := by
  unfold Database.updateDoc
  simp only
  split
  · exact Or.inl ⟨rfl, rfl⟩
  · unfold Database.bucketUpdate
    cases hf : db.Bucket.fault with
    | some err =>
      left
      cases err <;> exact ⟨rfl, rfl⟩
    | none =>
      simp only
      have hb := updateDocCallback_bucket db callback
        (db.currentDocument docid (db.realDocID docid))
      have hn := updateDocCallback_notifications db callback
        (db.currentDocument docid (db.realDocID docid))
      rcases hres : db.updateDocCallback callback
        (db.currentDocument docid (db.realDocID docid)) with ⟨res, db1⟩
      rw [hres] at hb hn
      simp only at hb hn
      cases res with
      | error e =>
        left
        simp only
        cases e <;> exact ⟨hb, hn⟩
      | ok r =>
        obtain ⟨doc, newRevID⟩ := r
        right
        refine ⟨doc, newRevID, db1, rfl, ?_, ?_⟩
        · simp only [hb]
        · simp only [hn]

theorem mem_of_lookup {V : Type} (m : List (String × V)) (k : String) (v : V)
    (h : m.lookup k = some v) : (k, v) ∈ m := by
  induction m with
  | nil => cases h
  | cons x rest ih =>
    obtain ⟨a, b⟩ := x
    unfold List.lookup at h
    by_cases hk : k = a
    · subst hk
      simp only [beq_self_eq_true, Option.some.injEq] at h
      subst h
      exact List.mem_cons_self _ _
    · have hb : (k == a) = false := by simpa using hk
      simp only [hb] at h
      exact List.mem_cons_of_mem _ (ih h)

theorem currentDocument_mem (db : Database) (docid key : String)
    (h : (db.Bucket.docs.lookup key).isSome = true) :
    (key, db.currentDocument docid key) ∈ db.Bucket.docs := by
  unfold Database.currentDocument
  cases hl : db.Bucket.docs.lookup key with
  | none => rw [hl] at h; cases h
  | some doc => exact mem_of_lookup _ _ _ hl

theorem stored_currentIsWinner (db : Database)
    (callback : document → Except Error (document × Body)) (doc0 doc : document)
    (newRevID : String) (db' : Database)
    (h : db.updateDocCallback callback doc0 = (.ok (doc, newRevID), db')) :
    doc.currentIsWinner := by
  obtain ⟨doc1, body, _, _, hcur, hdel, hshape⟩ :=
    updateDocCallback_ok db callback doc0 doc newRevID db' h
  have hw := RevTree.winningRevision_congr hshape
  refine ⟨hcur.trans hw.symm, ?_⟩
  rw [hdel, hcur]
  exact ((RevTree.get_congr hshape _).2.2).symm

theorem updateDoc_preserves (db : Database) (docid : String)
    (callback : document → Except Error (document × Body))
    (hinv : ∀ key doc, (key, doc) ∈ db.Bucket.docs → doc.currentIsWinner) :
    ∀ key doc, (key, doc) ∈ (db.updateDoc docid callback).2.Bucket.docs →
      doc.currentIsWinner := by
  intro key doc hmem
  rcases updateDoc_outcome db docid callback with ⟨hb, _⟩ | ⟨d, r, db', hcb, hdocs, _⟩
  · rw [hb] at hmem
    exact hinv key doc hmem
  · rw [hdocs] at hmem
    rcases mem_mapSet _ _ _ _ hmem with h1 | h1
    · exact hinv key doc h1
    · injection h1 with _ h2
      subst h2
      exact stored_currentIsWinner db callback _ _ r db' hcb

theorem Put_preserves (db : Database) (docid : String) (body : Body)
    (hinv : ∀ key doc, (key, doc) ∈ db.Bucket.docs → doc.currentIsWinner) :
    ∀ key doc, (key, doc) ∈ (db.Put docid body).2.Bucket.docs → doc.currentIsWinner := by
  unfold Database.Put
  simp only
  split
  · exact hinv
  · exact updateDoc_preserves db docid _ hinv

theorem PutExistingRev_preserves (db : Database) (docid : String) (body : Body)
    (docHistory : List String)
    (hinv : ∀ key doc, (key, doc) ∈ db.Bucket.docs → doc.currentIsWinner) :
    ∀ key doc, (key, doc) ∈ (db.PutExistingRev docid body docHistory).2.Bucket.docs →
      doc.currentIsWinner := by
  unfold Database.PutExistingRev
  cases docHistory with
  | nil => exact hinv
  | cons newRev rest =>
    simp only
    split
    · exact hinv
    · exact updateDoc_preserves db docid _ hinv

theorem write_preserves (db : Database) (w : Write)
    (hinv : ∀ key doc, (key, doc) ∈ db.Bucket.docs → doc.currentIsWinner) :
    ∀ key doc, (key, doc) ∈ (db.write w).Bucket.docs → doc.currentIsWinner := by
  cases w with
  | Put docid body => exact Put_preserves db docid body hinv
  | PutExistingRev docid body docHistory =>
    exact PutExistingRev_preserves db docid body docHistory hinv
  | DeleteDoc docid revid => exact Put_preserves db docid _ hinv

theorem writeAll_preserves (writes : List Write) (db : Database)
    (hinv : ∀ key doc, (key, doc) ∈ db.Bucket.docs → doc.currentIsWinner) :
    ∀ key doc, (key, doc) ∈ (db.writeAll writes).Bucket.docs → doc.currentIsWinner := by
  induction writes generalizing db with
  | nil => exact hinv
  | cons w rest ih =>
    unfold Database.writeAll
    rw [List.foldl_cons]
    exact ih (db.write w) (write_preserves db w hinv)

theorem updateDoc_unchanged_of_callback_error (db : Database) (docid : String)
    (callback : document → Except Error (document × Body)) (e : Error)
    (hcb : callback (db.currentDocument docid (db.realDocID docid)) = .error e) :
    (db.updateDoc docid callback).2 = db := by
  unfold Database.updateDoc
  simp only
  split
  · rfl
  · unfold Database.bucketUpdate
    cases hf : db.Bucket.fault with
    | some err => cases err <;> rfl
    | none =>
      simp only
      unfold Database.updateDocCallback
      rw [hcb]
      cases e <;> rfl

/-- C3: in a database whose stored documents all have `CurrentRev` equal to the winning
revision of their history and `Deleted` equal to that revision's flag: a write that `updateDoc`
commits stores a document whose `CurrentRev` is `winningRevision()` of the history as mutated by
the callback (and of the stored history) and whose `Deleted` flag is that revision's; a write
whose callback fails or cancels leaves the database unchanged; hence the property holds for
every stored document after any sequence of `Put`, `PutExistingRev` and `DeleteDoc`. -/
theorem C3_current_rev_is_winner (db : Database)
    (hinv : ∀ key doc, (key, doc) ∈ db.Bucket.docs → doc.currentIsWinner) :
    (∀ docid callback,
      (db.updateDoc docid callback).2.notifications = db.notifications + 1 →
      ∃ doc1 body stored,
        callback (db.currentDocument docid (db.realDocID docid)) = .ok (doc1, body) ∧
        (db.updateDoc docid callback).2.Bucket.docs.lookup (db.realDocID docid) = some stored ∧
        stored.CurrentRev = doc1.History.winningRevision ∧
        stored.Deleted = (doc1.History.get doc1.History.winningRevision).Deleted ∧
        stored.currentIsWinner) ∧
    (∀ docid callback e,
      callback (db.currentDocument docid (db.realDocID docid)) = .error e →
      (db.updateDoc docid callback).2 = db) ∧
    (∀ writes key doc, (key, doc) ∈ (db.writeAll writes).Bucket.docs →
      doc.currentIsWinner) := by
  refine ⟨fun docid callback hn => ?_, fun docid callback e hcb => ?_, fun writes => ?_⟩
  · rcases updateDoc_outcome db docid callback with ⟨_, hsame⟩ | ⟨d, r, db', hcb, hdocs, _⟩
    · omega
    · obtain ⟨doc1, body, hcall, _, hcur, hdel, _⟩ :=
        updateDocCallback_ok db callback _ d r db' hcb
      refine ⟨doc1, body, d, hcall, ?_, hcur, hdel,
        stored_currentIsWinner db callback _ d r db' hcb⟩
      rw [hdocs, lookup_mapSet]
      simp
  · exact updateDoc_unchanged_of_callback_error db docid callback e hcb
  · exact writeAll_preserves writes db hinv

/-- C3, instantiated: after two edits, a conflicting replicated revision and a deletion,
starting from the empty database, the stored document has the property. -/
theorem C3_current_rev_is_winner_witness :
    ((emptyDatabase.writeAll exampleWrites).currentDocument "doc" "doc").currentIsWinner :=
  (C3_current_rev_is_winner emptyDatabase (fun _ _ h => by cases h)).2.2 exampleWrites "doc" _
    (currentDocument_mem _ "doc" "doc" (by with_unfolding_all decide))

/-! ### `PutExistingRev`: grafting the new revisions -/

theorem RevTree.get_addRevision (tree : RevTree) (info : RevInfo) (r : String) :
    (tree.addRevision info).get r = if info.ID = r then info else tree.get r := by
  induction tree with
  | nil =>
    unfold RevTree.addRevision RevTree.get
    by_cases h : info.ID = r <;> simp [List.find?, h]
  | cons x rest ih =>
    unfold RevTree.addRevision
    by_cases hx : x.ID = info.ID
    · simp only [hx, if_true]
      unfold RevTree.get
      by_cases h : info.ID = r
      · simp [List.find?, h]
      · have hxr : ¬ x.ID = r := fun h' => h (hx ▸ h')
        simp [List.find?, h, hxr]
    · simp only [hx, if_false]
      by_cases hxr : x.ID = r
      · have h : ¬ info.ID = r := fun h' => hx (hxr.trans h'.symm)
        unfold RevTree.get
        simp [List.find?, h, hxr]
      · have ih' := ih
        unfold RevTree.get at ih' ⊢
        simp only [List.find?, hxr, decide_False]
        exact ih'

theorem RevTree.contains_addRevision (tree : RevTree) (info : RevInfo) (r : String) :
    (tree.addRevision info).contains r = (decide (info.ID = r) || tree.contains r) := by
  induction tree with
  | nil => simp [RevTree.addRevision, RevTree.contains]
  | cons x rest ih =>
    unfold RevTree.addRevision
    by_cases hx : x.ID = info.ID
    · simp only [hx, if_true]
      unfold RevTree.contains
      simp only [List.any_cons, hx, Bool.or_self_left]
    · simp only [hx, if_false]
      unfold RevTree.contains at ih ⊢
      simp only [List.any_cons, ih]
      rw [← Bool.or_assoc, ← Bool.or_assoc, Bool.or_comm (decide (x.ID = r))]

theorem RevTree.keys_addRevision (tree : RevTree) (info : RevInfo)
    (h : tree.contains info.ID = false) :
    (tree.addRevision info).keys = tree.keys ++ [info.ID] := by
  induction tree with
  | nil => rfl
  | cons x rest ih =>
    unfold RevTree.contains at h ih
    simp only [List.any_cons, Bool.or_eq_false_iff, decide_eq_false_iff_not] at h
    unfold RevTree.addRevision
    simp only [h.1, if_false]
    unfold RevTree.keys at ih ⊢
    simp only [List.map_cons, List.cons_append, ih h.2]

theorem get_addNewRevisions_other (h : List String) (deleted : Bool) (r : String) :
    ∀ (n : Nat) (tree : RevTree) (parent : String), (∀ j < n, h.getD j "" ≠ r) →
      (addNewRevisions h deleted n tree parent).get r = tree.get r := by
  intro n
  induction n with
  | zero => intro tree parent _; rfl
  | succ i ih =>
    intro tree parent hne
    unfold addNewRevisions
    rw [ih _ _ (fun j hj => hne j (by omega)), RevTree.get_addRevision]
    simp only [hne i (by omega), if_false]

theorem get_addNewRevisions_new (h : List String) (deleted : Bool) :
    ∀ (n : Nat) (tree : RevTree) (parent : String) (j : Nat), j < n →
      (∀ j' < j, h.getD j' "" ≠ h.getD j "") →
      (addNewRevisions h deleted n tree parent).get (h.getD j "") =
        { ID := h.getD j "", Parent := if j + 1 = n then parent else h.getD (j + 1) "",
          Deleted := (j == 0 && deleted), Body := none } := by
  intro n
  induction n with
  | zero => intro tree parent j hj; omega
  | succ i ih =>
    intro tree parent j hj hdistinct
    unfold addNewRevisions
    by_cases hji : j = i
    · subst hji
      rw [get_addNewRevisions_other h deleted _ _ _ _ hdistinct, RevTree.get_addRevision]
      simp
    · rw [ih _ _ j (by omega) hdistinct]
      by_cases hj1 : j + 1 = i
      · simp [hj1]
      · have : ¬ j + 1 = i + 1 := by omega
        simp [hj1, this]

theorem contains_addNewRevisions (h : List String) (deleted : Bool) (r : String) :
    ∀ (n : Nat) (tree : RevTree) (parent : String),
      ((addNewRevisions h deleted n tree parent).contains r = true ↔
        tree.contains r = true ∨ ∃ j < n, h.getD j "" = r) := by
  intro n
  induction n with
  | zero => intro tree parent; simp [addNewRevisions]
  | succ i ih =>
    intro tree parent
    unfold addNewRevisions
    rw [ih, RevTree.contains_addRevision]
    simp only [Bool.or_eq_true, decide_eq_true_eq]
    constructor
    · rintro ((h1 | h1) | ⟨j, hj, h1⟩)
      · exact Or.inr ⟨i, by omega, h1⟩
      · exact Or.inl h1
      · exact Or.inr ⟨j, by omega, h1⟩
    · rintro (h1 | ⟨j, hj, h1⟩)
      · exact Or.inl (Or.inr h1)
      · by_cases hji : j = i
        · subst hji; exact Or.inl (Or.inl h1)
        · exact Or.inr ⟨j, by omega, h1⟩

theorem keys_addNewRevisions (h : List String) (deleted : Bool) :
    ∀ (n : Nat) (tree : RevTree) (parent : String),
      (∀ j < n, tree.contains (h.getD j "") = false) →
      (∀ i j, i < j → j < n → h.getD i "" ≠ h.getD j "") →
      (addNewRevisions h deleted n tree parent).keys =
        tree.keys ++ ((List.range n).map (fun j => h.getD j "")).reverse := by
  intro n
  induction n with
  | zero => intro tree parent _ _; simp [addNewRevisions]
  | succ i ih =>
    intro tree parent hnot hdistinct
    unfold addNewRevisions
    rw [ih]
    · rw [RevTree.keys_addRevision _ _ (hnot i (by omega)), List.range_succ]
      simp
    · intro j hj
      rw [RevTree.contains_addRevision, hnot j (by omega)]
      simp only [Bool.or_false, decide_eq_false_iff_not]
      exact fun heq => hdistinct j i hj (by omega) heq.symm
    · exact fun a b hab hb => hdistinct a b hab (by omega)

theorem currentRevIndex_le (tree : RevTree) (h : List String) :
    currentRevIndex tree h ≤ h.length := by
  induction h with
  | nil => simp [currentRevIndex]
  | cons r rest ih =>
    unfold currentRevIndex
    split
    · omega
    · simp only [List.length_cons]; omega

theorem currentRevIndex_not_contains (tree : RevTree) (h : List String) :
    ∀ j < currentRevIndex tree h, tree.contains (h.getD j "") = false := by
  induction h with
  | nil => intro j hj; simp [currentRevIndex] at hj
  | cons r rest ih =>
    intro j hj
    unfold currentRevIndex at hj
    split at hj
    · omega
    · rename_i hc
      cases j with
      | zero => simpa using hc
      | succ j' =>
        simp only [List.getD_cons_succ]
        exact ih j' (by omega)

theorem currentRevIndex_contains (tree : RevTree) (h : List String)
    (hlt : currentRevIndex tree h < h.length) :
    tree.contains (h.getD (currentRevIndex tree h) "") = true := by
  induction h with
  | nil => simp at hlt
  | cons r rest ih =>
    unfold currentRevIndex at hlt ⊢
    split
    · rename_i hc; simpa using hc
    · rename_i hc
      simp only [hc, if_false, List.length_cons, Bool.false_eq_true] at hlt
      simp only [List.getD_cons_succ]
      exact ih (by omega)

theorem map_range_getD (h : List String) :
    ∀ n, n ≤ h.length → (List.range n).map (fun j => h.getD j "") = h.take n := by
  induction h with
  | nil => intro n hn; simp at hn; subst hn; rfl
  | cons a rest ih =>
    intro n hn
    cases n with
    | zero => rfl
    | succ m =>
      rw [List.range_succ_eq_map, List.map_cons, List.map_map, List.take_succ_cons]
      simp only [List.getD_cons_zero, List.cons.injEq, true_and]
      rw [← ih m (by simpa using hn)]
      apply List.map_congr_left
      intro j _
      simp

theorem PutExistingRevCallback_history (db : Database) (body : Body) (docHistory : List String)
    (newRev : String) (generation : Int) (deleted : Bool) (doc doc' : document) (body' : Body)
    (h : db.PutExistingRevCallback body docHistory newRev generation deleted doc
      = .ok (doc', body')) :
    doc'.History = graftedTree doc.History docHistory deleted := by
  unfold Database.PutExistingRevCallback at h
  simp only at h
  split at h
  · cases h
  · split at h
    · cases h
    · simp only [Except.ok.injEq, Prod.mk.injEq] at h
      rw [← h.1]
      unfold graftedTree
      simp only
      by_cases hlt : currentRevIndex doc.History docHistory < docHistory.length
      · simp only [hlt, if_true]
      · simp only [hlt, if_false]
        rw [List.getD_eq_default _ _ (by omega)]

theorem newRevisions_distinct (tree : RevTree) (docHistory : List String)
    (hnodup : (newRevisions tree docHistory).Nodup) :
    ∀ i j, i < j → j < currentRevIndex tree docHistory →
      docHistory.getD i "" ≠ docHistory.getD j "" := by
  unfold newRevisions at hnodup
  rw [← map_range_getD docHistory _ (currentRevIndex_le tree docHistory)] at hnodup
  intro i j hij hj heq
  have := List.inj_on_of_nodup_map hnodup (List.mem_range.mpr (by omega))
    (List.mem_range.mpr hj) heq
  omega

/-- C5 as stated fails. With the history `[1-a, 1-a]` on a new document (`k = 2`) the revision
`1-a` ends with parent `1-a`, not the empty parent stated for `h[k-1]`, and the
tree has one revision, not two. With the history `[xyz]` (`k = 1`) `PutExistingRev` returns
HTTP 400 and adds nothing. -/
theorem C5_counterexample :
    currentRevIndex (emptyDatabase.currentDocument "doc" "doc").History ["1-a", "1-a"] = 2 ∧
    (emptyDatabase.PutExistingRev "doc" [] ["1-a", "1-a"]).1 = none ∧
    (((emptyDatabase.PutExistingRev "doc" [] ["1-a", "1-a"]).2.currentDocument
      "doc" "doc").History.get "1-a").Parent = "1-a" ∧
    ((emptyDatabase.PutExistingRev "doc" [] ["1-a", "1-a"]).2.currentDocument
      "doc" "doc").History.keys = ["1-a"] ∧
    currentRevIndex (emptyDatabase.currentDocument "doc" "doc").History ["xyz"] = 1 ∧
    (emptyDatabase.PutExistingRev "doc" [] ["xyz"]).1
      = some (Error.http 400 "Invalid revision ID") ∧
    ((emptyDatabase.PutExistingRev "doc" [] ["xyz"]).2.currentDocument
      "doc" "doc").History.contains "xyz" = false := by
  refine ⟨?_, ?_, ?_, ?_, ?_, ?_, ?_⟩ <;> with_unfolding_all decide

/-- C5 (amended): let `k` be the least index with `h[k]` in the tree of the document (`len(h)`
if none), and suppose `k > 0` and `h[0..k-1]` has no repeated revision ID. Then the tree that
the callback of `PutExistingRev` builds has exactly the revisions `h[0..k-1]` added: `h[i]` has
parent `h[i+1]` (the empty parent when `i + 1 = len(h)`), only `h[0]` carries the `_deleted`
flag of the body, and every revision that was in the tree is unchanged; when the write commits,
the stored tree has this structure. -/
theorem C5_putExistingRev_graft (db : Database) (docid : String) (body : Body)
    (docHistory : List String) (doc : document)
    (hk : 0 < currentRevIndex doc.History docHistory)
    (hnodup : (newRevisions doc.History docHistory).Nodup) :
    (∀ j < currentRevIndex doc.History docHistory,
      doc.History.contains (docHistory.getD j "") = false) ∧
    (currentRevIndex doc.History docHistory < docHistory.length →
      doc.History.contains (docHistory.getD (currentRevIndex doc.History docHistory) "")
        = true) ∧
    (∀ i < currentRevIndex doc.History docHistory,
      (graftedTree doc.History docHistory (body.getBool "_deleted")).get (docHistory.getD i "")
        = { ID := docHistory.getD i "", Parent := docHistory.getD (i + 1) "",
            Deleted := (i == 0 && body.getBool "_deleted"), Body := none }) ∧
    (∀ r, doc.History.contains r = true →
      (graftedTree doc.History docHistory (body.getBool "_deleted")).get r
        = doc.History.get r) ∧
    (graftedTree doc.History docHistory (body.getBool "_deleted")).keys
      = doc.History.keys ++ (newRevisions doc.History docHistory).reverse ∧
    (∀ newRev generation doc' body',
      db.PutExistingRevCallback body docHistory newRev generation (body.getBool "_deleted") doc
        = .ok (doc', body') →
      doc'.History = graftedTree doc.History docHistory (body.getBool "_deleted")) ∧
    (db.currentDocument docid (db.realDocID docid) = doc →
      (db.PutExistingRev docid body docHistory).2.notifications = db.notifications + 1 →
      ∃ stored,
        (db.PutExistingRev docid body docHistory).2.Bucket.docs.lookup (db.realDocID docid)
          = some stored ∧
        stored.History.shape
          = (graftedTree doc.History docHistory (body.getBool "_deleted")).shape) := by
  have hnot := currentRevIndex_not_contains doc.History docHistory
  have hdistinct := newRevisions_distinct doc.History docHistory hnodup
  refine ⟨hnot, currentRevIndex_contains doc.History docHistory, fun i hi => ?_,
    fun r hr => ?_, ?_, fun newRev generation doc' body' hcb => ?_, fun hdoc hcommit => ?_⟩
  · unfold graftedTree
    rw [get_addNewRevisions_new docHistory _ _ _ _ i hi
      (fun j' hj' => hdistinct j' i hj' hi)]
    by_cases hlast : i + 1 = currentRevIndex doc.History docHistory
    · simp [hlast]
    · simp [hlast]
  · unfold graftedTree
    apply get_addNewRevisions_other
    intro j hj heq
    rw [← heq, hnot j hj] at hr
    cases hr
  · unfold graftedTree newRevisions
    rw [keys_addNewRevisions docHistory _ _ _ _ hnot hdistinct,
      map_range_getD docHistory _ (currentRevIndex_le doc.History docHistory)]
  · exact PutExistingRevCallback_history db body docHistory newRev generation _ doc doc' body' hcb
  · cases docHistory with
    | nil => simp [currentRevIndex] at hk
    | cons newRev ancestors =>
      unfold Database.PutExistingRev at hcommit ⊢
      simp only at hcommit ⊢
      split at hcommit
      · simp only at hcommit
        omega
      · rename_i hgen
        simp only [hgen, if_false]
        have hcommit' : (db.updateDoc docid (db.PutExistingRevCallback body
            (newRev :: ancestors) newRev (parseRevID newRev)
            (body.getBool "_deleted"))).2.notifications = db.notifications + 1 := hcommit
        rcases updateDoc_outcome db docid (db.PutExistingRevCallback body (newRev :: ancestors)
          newRev (parseRevID newRev) (body.getBool "_deleted"))
          with ⟨_, hsame⟩ | ⟨d, r, db', hres, hdocs, _⟩
        · rw [hsame] at hcommit'
          omega
        · obtain ⟨doc1, body1, hcall, _, _, _, hshape⟩ :=
            updateDocCallback_ok db _ _ d r db' hres
          rw [hdoc] at hcall
          refine ⟨d, ?_, ?_⟩
          · rw [hdocs, lookup_mapSet]
            simp
          · rw [hshape, PutExistingRevCallback_history db body _ newRev _ _ doc doc1 body1 hcall]

/-- C5 (amended), instantiated: grafting the history `[3-d, 2-c, 1-a]` onto a document that
has `1-a` adds `2-c` and then `3-d`. -/
theorem C5_putExistingRev_graft_witness :
    (graftedTree (oneRevDatabase.currentDocument "doc" "doc").History ["3-d", "2-c", "1-a"]
      (Body.getBool [("v", JSON.str "d")] "_deleted")).keys
      = (oneRevDatabase.currentDocument "doc" "doc").History.keys ++
        (newRevisions (oneRevDatabase.currentDocument "doc" "doc").History
          ["3-d", "2-c", "1-a"]).reverse :=
  (C5_putExistingRev_graft oneRevDatabase "doc" [("v", JSON.str "d")] ["3-d", "2-c", "1-a"]
    (oneRevDatabase.currentDocument "doc" "doc") (by with_unfolding_all decide)
    (by with_unfolding_all decide)).2.2.2.2.1

/-! ### `RevDiff` on a document that does not load -/

/-- C11: if loading the document fails with any error (HTTP 404, an invalid doc ID, a store
failure, ...), `RevDiff` returns no error, its `missing` list is the input list and it reports
no possible ancestors. -/
theorem C11_revDiff_load_failure (db : Database) (docid : String)
    (revids : Option (List String)) (e : Error) (h : db.getDoc docid = .error e) :
    db.RevDiff docid revids = (revids, none, none) := by
  unfold Database.RevDiff
  rw [h]

/-- C11, instantiated on a missing document (404), an invalid doc ID (400) and a store
failure. -/
theorem C11_revDiff_load_failure_witness :
    (emptyDatabase.getDoc "nodoc" = .error (Error.http 404 "missing") ∧
      emptyDatabase.RevDiff "nodoc" (some ["1-a", "2-b"]) = (some ["1-a", "2-b"], none, none)) ∧
    (emptyDatabase.getDoc "_local" = .error (Error.http 400 "Invalid doc ID") ∧
      emptyDatabase.RevDiff "_local" (some ["1-a"]) = (some ["1-a"], none, none)) ∧
    (faultyDatabase.getDoc "doc" = .error (Error.other "store failure") ∧
      faultyDatabase.RevDiff "doc" (some ["2-b", "3-c"]) = (some ["2-b", "3-c"], none, none)) :=
  ⟨⟨rfl, C11_revDiff_load_failure emptyDatabase "nodoc" (some ["1-a", "2-b"]) _ rfl⟩,
   ⟨rfl, C11_revDiff_load_failure emptyDatabase "_local" (some ["1-a"]) _ rfl⟩,
   ⟨rfl, C11_revDiff_load_failure faultyDatabase "doc" (some ["2-b", "3-c"]) _ rfl⟩⟩

/-! ### `UnauthError` -/

/-- C16: the error built by `UnauthError` has HTTP status 401 when the name of the principal
is empty and is the HTTP 403 error carrying the given message when the name is not empty; this
is the error that `AuthorizeAnyDocChannels` returns when it refuses a user. -/
theorem C16_unauthError_status (role : roleImpl) (message : String) :
    (role.Name_ = "" → (role.UnauthError message).status = some 401) ∧
    (role.Name_ ≠ "" → role.UnauthError message = Error.http 403 message) ∧
    (∀ channels, AuthorizeAnyDocChannels (some role) channels ≠ none →
      AuthorizeAnyDocChannels (some role) channels
        = some (role.UnauthError "You are not allowed to see this")) := by
  refine ⟨fun h => ?_, fun h => ?_, fun channels hne => ?_⟩
  · simp [roleImpl.UnauthError, h, Error.status]
  · simp [roleImpl.UnauthError, h]
  · unfold AuthorizeAnyDocChannels at hne ⊢
    simp only at hne ⊢
    split
    · rename_i hloop
      rw [if_pos hloop] at hne
      exact absurd rfl hne
    · rfl

/-- C16, instantiated on the anonymous principal and on the user `alice`. -/
theorem C16_unauthError_status_witness :
    ((roleImpl.mk "" [] []).UnauthError "no").status = some 401 ∧
    (roleImpl.mk "alice" [] []).UnauthError "no" = Error.http 403 "no" :=
  ⟨(C16_unauthError_status (roleImpl.mk "" [] []) "no").1 rfl,
   (C16_unauthError_status (roleImpl.mk "alice" [] []) "no").2.1 (by decide)⟩

/-! ### `updateDocChannels` -/

theorem lookup_markRemoved (channels : ChannelMap) (removal : ChannelRemoval) (c : String) :
    (channels.map (fun kv =>
      match kv.2 with
      | none => (kv.1, some removal)
      | some r => (kv.1, some r))).lookup c =
      match channels.lookup c with
      | some none => some (some removal)
      | other => other := by
  induction channels with
  | nil => rfl
  | cons kv rest ih =>
    obtain ⟨k, v⟩ := kv
    by_cases hk : c = k
    · subst hk
      cases v <;> simp [List.lookup]
    · have hb : (c == k) = false := by simpa using hk
      cases v <;> simp only [List.map_cons, List.lookup, hb] <;> exact ih

theorem lookup_subscribe (newChannels : List String) (c : String) :
    ∀ (acc : ChannelMap × Bool),
      (newChannels.foldl (fun (acc : ChannelMap × Bool) channel =>
        match acc.1.lookup channel with
        | some none => acc
        | _ => (mapSet acc.1 channel none, true)) acc).1.lookup c =
        if c ∈ newChannels then some none else acc.1.lookup c := by
  induction newChannels with
  | nil => intro acc; simp
  | cons x rest ih =>
    intro acc
    rw [List.foldl_cons, ih]
    by_cases hr : c ∈ rest
    · simp [hr]
    · simp only [hr, if_false, List.mem_cons, or_false]
      by_cases hx : c = x
      · subst hx
        simp only [if_true]
        split
        · rename_i hl; exact hl
        · rw [lookup_mapSet]; simp
      · simp only [hx, if_false]
        split
        · rfl
        · rw [lookup_mapSet]; simp [hx]

/-- C12: after `updateDocChannels(doc, N)` the entry of each channel `C` is: the membership
sentinel (nil) if `C` is in `N`; else, if `C` was a member before, a Removal record with the
document's current `Sequence` and `CurrentRev`; else exactly what it was before (an earlier
Removal record, or no entry). No channel key is removed, and nothing but the channel map of
the document changes. -/
theorem C12_updateDocChannels_entries (db : Database) (doc : document)
    (newChannels : ChannelSet) (c : String) :
    (db.updateDocChannels doc newChannels).1.Channels.lookup c =
      (if c ∈ newChannels then some none
       else
        match doc.Channels.lookup c with
        | some none => some (some { Seq := doc.Sequence, Rev := doc.CurrentRev })
        | other => other) ∧
    ((doc.Channels.lookup c).isSome = true →
      ((db.updateDocChannels doc newChannels).1.Channels.lookup c).isSome = true) ∧
    { (db.updateDocChannels doc newChannels).1 with Channels := doc.Channels } = doc := by
  have hmain : (db.updateDocChannels doc newChannels).1.Channels.lookup c =
      (if c ∈ newChannels then some none
       else
        match doc.Channels.lookup c with
        | some none => some (some { Seq := doc.Sequence, Rev := doc.CurrentRev })
        | other => other) := by
    unfold Database.updateDocChannels
    simp only
    rw [lookup_subscribe, lookup_markRemoved]
  refine ⟨hmain, fun hsome => ?_, rfl⟩
  rw [hmain]
  split
  · rfl
  · cases hl : doc.Channels.lookup c with
    | none => rw [hl] at hsome; cases hsome
    | some v => cases v <;> rfl

/-- C12, instantiated: a document in `foo`, with an earlier removal from `old`, is moved to
`bar` at sequence 7, revision `2-b`. -/
theorem C12_updateDocChannels_entries_witness :
    ((emptyDatabase.updateDocChannels
        { linearDoc with Sequence := 7,
                         Channels := [("foo", none), ("old", some { Seq := 1, Rev := "1-a" })] }
        ["bar"]).1.Channels.lookup "foo").isSome = true :=
  (C12_updateDocChannels_entries emptyDatabase
    { linearDoc with Sequence := 7,
                     Channels := [("foo", none), ("old", some { Seq := 1, Rev := "1-a" })] }
    ["bar"] "foo").2.1 (by decide)

/-! ### `getChannelsAndAccess`: the validator and the sync function -/

theorem getChannelsAndAccess_validator (db : Database) (doc : document) (body : Body)
    (parentRevID : String)
    (validate : Body → Option Body → Option roleImpl → Int × String × Option Error)
    (status : Int) (msg : String) (err : Option Error)
    (hv : db.Validator = some validate)
    (hres : validate body (if parentRevID ≠ "" then doc.getRevisionJSON parentRevID else none)
      db.user = (status, msg, err)) :
    (err.isSome = true → db.getChannelsAndAccess doc body parentRevID
      = ([], [], some (Error.http 500 "Exception in JS validation function"))) ∧
    (err = none → status ≥ 300 → db.getChannelsAndAccess doc body parentRevID
      = ([], [], some (Error.http status msg))) ∧
    (err = none → status < 300 → db.getChannelsAndAccess doc body parentRevID
      = { db with Validator := none }.getChannelsAndAccess doc body parentRevID) := by
  refine ⟨fun he => ?_, fun he hs => ?_, fun he hs => ?_⟩
  · unfold Database.getChannelsAndAccess
    simp only [hv, hres, he, if_true]
    simp
  · subst he
    unfold Database.getChannelsAndAccess
    simp only [hv, hres]
    simp [hs]
  · subst he
    have hs' : ¬ status ≥ 300 := by omega
    unfold Database.getChannelsAndAccess
    simp only [hv, hres]
    simp [hs']

/-- C19 as stated fails: a validator that returns the status 403 without raising, a status
outside 300..399, has its write rejected by `getChannelsAndAccess` with an HTTP 403 error. -/
theorem C19_counterexample :
    ¬ (300 ≤ (403 : Int) ∧ (403 : Int) ≤ 399) ∧
    (validatorDatabase 403 "forbidden" none).getChannelsAndAccess
        (newDocument "doc") [("x", JSON.num 1)] ""
      = ([], [], some (Error.http 403 "forbidden")) := by
  constructor
  · decide
  · rfl

/-- C19 (amended): when the configured validator returns, without raising, a status below
300, the write passes validation: `getChannelsAndAccess` continues exactly as if no validator
were configured. Every status of 300 or more, in 300..399 or not, is rejected with an HTTP
error carrying that status and the validator's message. -/
theorem C19_validator_status (db : Database) (doc : document) (body : Body)
    (parentRevID : String)
    (validate : Body → Option Body → Option roleImpl → Int × String × Option Error)
    (status : Int) (msg : String)
    (hv : db.Validator = some validate)
    (hres : validate body (if parentRevID ≠ "" then doc.getRevisionJSON parentRevID else none)
      db.user = (status, msg, none)) :
    (status < 300 → db.getChannelsAndAccess doc body parentRevID
      = { db with Validator := none }.getChannelsAndAccess doc body parentRevID) ∧
    (status ≥ 300 → db.getChannelsAndAccess doc body parentRevID
      = ([], [], some (Error.http status msg))) :=
  ⟨(getChannelsAndAccess_validator db doc body parentRevID validate status msg none hv hres).2.2
      rfl,
   (getChannelsAndAccess_validator db doc body parentRevID validate status msg none hv hres).2.1
      rfl⟩

/-- C19 (amended), instantiated on a validator that returns the status 200. -/
theorem C19_validator_status_witness :
    (validatorDatabase 200 "" none).getChannelsAndAccess (newDocument "doc")
        [("channels", JSON.arr [JSON.str "foo"])] ""
      = { validatorDatabase 200 "" none with Validator := none }.getChannelsAndAccess
          (newDocument "doc") [("channels", JSON.arr [JSON.str "foo"])] "" :=
  (C19_validator_status (validatorDatabase 200 "" none) (newDocument "doc")
    [("channels", JSON.arr [JSON.str "foo"])] "" (fun _ _ _ => (200, "", none)) 200 "" rfl
    rfl).1 (by decide)

theorem getChannelsAndAccess_mapper_error (db : Database) (doc : document) (body : Body)
    (parentRevID : String)
    (mapper : Body → Option Body → Option roleImpl → ChannelMapperOutput × Option Error)
    (output : ChannelMapperOutput) (e : Error)
    (hpass : db.Validator = none ∨ ∃ validate status msg, db.Validator = some validate ∧
      validate body (if parentRevID ≠ "" then doc.getRevisionJSON parentRevID else none)
        db.user = (status, msg, none) ∧ status < 300)
    (hm : db.ChannelMapper = some mapper)
    (hres : mapper body (if parentRevID ≠ "" then doc.getRevisionJSON parentRevID else none)
      db.user = (output, some e)) :
    db.getChannelsAndAccess doc body parentRevID
      = ([], [], some (Error.http 500 "Exception in JS sync function")) := by
  have hnov : { db with Validator := none }.getChannelsAndAccess doc body parentRevID
      = ([], [], some (Error.http 500 "Exception in JS sync function")) := by
    unfold Database.getChannelsAndAccess
    simp only [hm, hres]
  rcases hpass with hnone | ⟨validate, status, msg, hv, hvres, hlt⟩
  · have hdb : db = { db with Validator := none } := by
      cases db
      simp only at hnone
      subst hnone
      rfl
    rw [hdb]
    exact hnov
  · rw [(getChannelsAndAccess_validator db doc body parentRevID validate status msg none hv
      hvres).2.2 rfl hlt]
    exact hnov

theorem getChannelsAndAccess_sequences (db : Database) (sequences : SequenceAllocator)
    (doc : document) (body : Body) (parentRevID : String) :
    { db with sequences := sequences }.getChannelsAndAccess doc body parentRevID
      = db.getChannelsAndAccess doc body parentRevID := rfl

theorem updateDocCallback_sync_error (db : Database)
    (callback : document → Except Error (document × Body)) (doc0 doc1 : document)
    (body : Body) (newRevID : String) (sequence : Nat) (sequences : SequenceAllocator)
    (e : Error)
    (hcb : callback doc0 = .ok (doc1, body))
    (hrev : body.lookup "_rev" = some (JSON.str newRevID))
    (hseq : db.sequences.nextSequence = (.ok sequence, sequences))
    (hsync : (db.getChannelsAndAccess
      { updateDocRevisions doc1 newRevID body with Sequence := sequence }
      (mapSet body "_id" (JSON.str (updateDocRevisions doc1 newRevID body).ID))
      ((updateDocRevisions doc1 newRevID body).History.get newRevID).Parent).2.2 = some e) :
    db.updateDocCallback callback doc0 = (.error e, { db with sequences := sequences }) := by
  unfold Database.updateDocCallback
  rw [hcb]
  simp only [hrev, hseq]
  rw [getChannelsAndAccess_sequences]
  rcases hres : db.getChannelsAndAccess
      { updateDocRevisions doc1 newRevID body with Sequence := sequence }
      (mapSet body "_id" (JSON.str (updateDocRevisions doc1 newRevID body).ID))
      ((updateDocRevisions doc1 newRevID body).History.get newRevID).Parent
    with ⟨channels, access, err⟩
  rw [hres] at hsync
  simp only at hsync
  subst hsync
  rfl

/-- C20: if the validator raises an evaluator error, or the validator lets the write pass and
the sync function raises one, `getChannelsAndAccess` fails with an HTTP error of status 500,
whatever status or output came with the evaluator error; and when the call that `updateDoc`
makes to `getChannelsAndAccess` fails so, `updateDoc` stores nothing, sends no notification
and returns that error. -/
theorem C20_evaluator_error (db : Database) (doc : document) (body : Body)
    (parentRevID : String) :
    (∀ validate status msg e, db.Validator = some validate →
      validate body (if parentRevID ≠ "" then doc.getRevisionJSON parentRevID else none)
        db.user = (status, msg, some e) →
      db.getChannelsAndAccess doc body parentRevID
        = ([], [], some (Error.http 500 "Exception in JS validation function"))) ∧
    (∀ mapper output e,
      (db.Validator = none ∨ ∃ validate status msg, db.Validator = some validate ∧
        validate body (if parentRevID ≠ "" then doc.getRevisionJSON parentRevID else none)
          db.user = (status, msg, none) ∧ status < 300) →
      db.ChannelMapper = some mapper →
      mapper body (if parentRevID ≠ "" then doc.getRevisionJSON parentRevID else none)
        db.user = (output, some e) →
      db.getChannelsAndAccess doc body parentRevID
        = ([], [], some (Error.http 500 "Exception in JS sync function"))) ∧
    (∀ docid callback doc1 body0 newRevID sequence sequences msg,
      callback (db.currentDocument docid (db.realDocID docid)) = .ok (doc1, body0) →
      body0.lookup "_rev" = some (JSON.str newRevID) →
      db.sequences.nextSequence = (.ok sequence, sequences) →
      doc = { updateDocRevisions doc1 newRevID body0 with Sequence := sequence } →
      body = mapSet body0 "_id" (JSON.str doc.ID) →
      parentRevID = (doc.History.get newRevID).Parent →
      (db.getChannelsAndAccess doc body parentRevID).2.2 = some (Error.http 500 msg) →
      (db.updateDoc docid callback).2.Bucket = db.Bucket ∧
      (db.updateDoc docid callback).2.notifications = db.notifications ∧
      (db.realDocID docid ≠ "" → db.Bucket.fault = none →
        (db.updateDoc docid callback).1 = ("", some (Error.http 500 msg)))) := by
  refine ⟨fun validate status msg e hv hres => ?_, fun mapper output e hpass hm hres => ?_,
    fun docid callback doc1 body0 newRevID sequence sequences msg hcb hrev hseq hdoc hbody
      hparent hsync => ?_⟩
  · exact (getChannelsAndAccess_validator db doc body parentRevID validate status msg (some e)
      hv hres).1 rfl
  · exact getChannelsAndAccess_mapper_error db doc body parentRevID mapper output e hpass hm hres
  · subst hdoc
    subst hbody
    subst hparent
    have hrun := updateDocCallback_sync_error db callback _ doc1 body0 newRevID sequence
      sequences (Error.http 500 msg) hcb hrev hseq hsync
    refine ⟨?_, ?_, fun hkey hfault => ?_⟩
    · rcases updateDoc_outcome db docid callback with ⟨hb, _⟩ | ⟨d, r, db', hok, _, _⟩
      · exact hb
      · rw [hrun] at hok
        cases hok
    · rcases updateDoc_outcome db docid callback with ⟨_, hn⟩ | ⟨d, r, db', hok, _, _⟩
      · exact hn
      · rw [hrun] at hok
        cases hok
    · unfold Database.updateDoc
      simp only [hkey, if_false]
      unfold Database.bucketUpdate
      rw [hfault]
      simp only
      rw [hrun]

/-- C20, instantiated: a validator that raises alongside the status 200, and a sync function
that raises alongside an output, both end in HTTP 500. -/
theorem C20_evaluator_error_witness :
    (validatorDatabase 200 "" (some (Error.other "TypeError"))).getChannelsAndAccess
        (newDocument "doc") [("x", JSON.num 1)] ""
      = ([], [], some (Error.http 500 "Exception in JS validation function")) ∧
    (raisingMapperDatabase { Channels := ["foo"], Access := [], Rejection := none }
        ).getChannelsAndAccess (newDocument "doc") [("x", JSON.num 1)] ""
      = ([], [], some (Error.http 500 "Exception in JS sync function")) :=
  ⟨(C20_evaluator_error (validatorDatabase 200 "" (some (Error.other "TypeError")))
      (newDocument "doc") [("x", JSON.num 1)] "").1 _ 200 "" (Error.other "TypeError") rfl rfl,
   (C20_evaluator_error
      (raisingMapperDatabase { Channels := ["foo"], Access := [], Rejection := none })
      (newDocument "doc") [("x", JSON.num 1)] "").2.1 _
      { Channels := ["foo"], Access := [], Rejection := none } (Error.other "ReferenceError")
      (Or.inl rfl) rfl rfl⟩

/-! ### `authorizeAllChannels` -/

theorem CanSeeChannel_iff (princ : Option roleImpl) (c : String) :
    CanSeeChannel princ c = true ↔
      (princ = none ∨ ∃ r, princ = some r ∧ (c ∈ r.Channels_ ∨ "*" ∈ r.Channels_)) := by
  cases princ with
  | none => simp [CanSeeChannel]
  | some r => simp [CanSeeChannel]

theorem mem_forbiddenChannels (princ : Option roleImpl) (channels : ChannelSet) (c : String) :
    c ∈ forbiddenChannels princ channels ↔ c ∈ channels ∧ CanSeeChannel princ c = false := by
  simp [forbiddenChannels, List.mem_filter]

theorem forbiddenChannels_none (channels : ChannelSet) : forbiddenChannels none channels = [] := by
  simp [forbiddenChannels, CanSeeChannel]

/-- C17 as stated fails for the anonymous principal: refused on the channel `a`, it gets the
HTTP 401 error "login required", whose message does not name the channel `a`. -/
theorem C17_counterexample :
    forbiddenChannels (some { Name_ := "", ExplicitChannels_ := [], Channels_ := [] }) ["a"]
      = ["a"] ∧
    authorizeAllChannels (some { Name_ := "", ExplicitChannels_ := [], Channels_ := [] }) ["a"]
      = some (Error.http 401 "login required") ∧
    'a' ∉ "login required".toList := by
  refine ⟨?_, ?_, ?_⟩ <;> decide

/-- C17 (amended): `authorizeAllChannels` returns nil if and only if the principal can see
every channel of the set, where it can see a channel iff the role is nil, or its channel set
contains the channel, or contains `"*"`. When it fails for a principal with a name, the error
is the HTTP 403 whose message lists exactly the channels of the set that the principal cannot
see; for the anonymous principal it is the HTTP 401 "login required", which names none. -/
theorem C17_authorizeAllChannels (princ : Option roleImpl) (channels : ChannelSet) :
    (authorizeAllChannels princ channels = none ↔
      ∀ c ∈ channels, CanSeeChannel princ c = true) ∧
    (∀ c, CanSeeChannel princ c = true ↔
      (princ = none ∨ ∃ r, princ = some r ∧ (c ∈ r.Channels_ ∨ "*" ∈ r.Channels_))) ∧
    (∀ c, c ∈ forbiddenChannels princ channels ↔
      c ∈ channels ∧ CanSeeChannel princ c = false) ∧
    (∀ r, princ = some r → r.Name_ ≠ "" → authorizeAllChannels princ channels ≠ none →
      authorizeAllChannels princ channels = some (Error.http 403
        ("You are not allowed to see channels " ++
          formatStrings (forbiddenChannels princ channels)))) ∧
    (∀ r, princ = some r → r.Name_ = "" → authorizeAllChannels princ channels ≠ none →
      authorizeAllChannels princ channels = some (Error.http 401 "login required")) := by
  refine ⟨?_, CanSeeChannel_iff princ, mem_forbiddenChannels princ channels, ?_, ?_⟩
  · unfold authorizeAllChannels
    simp only
    by_cases hf : forbiddenChannels princ channels = []
    · simp only [hf, ne_eq, not_true_eq_false, if_false, true_iff]
      intro c hc
      by_contra hsee
      have : c ∈ forbiddenChannels princ channels :=
        (mem_forbiddenChannels princ channels c).mpr ⟨hc, by simpa using hsee⟩
      rw [hf] at this
      cases this
    · simp only [hf, ne_eq, not_false_eq_true, if_true]
      constructor
      · intro h
        cases princ <;> cases h
      · intro hall
        exfalso
        apply hf
        rw [List.eq_nil_iff_forall_not_mem]
        intro c hc
        have := (mem_forbiddenChannels princ channels c).mp hc
        rw [hall c this.1] at this
        cases this.2
  · intro r hp hname hfail
    subst hp
    unfold authorizeAllChannels at hfail ⊢
    simp only at hfail ⊢
    split
    · simp [roleImpl.UnauthError, hname]
    · rename_i hf
      rw [if_neg hf] at hfail
      exact absurd rfl hfail
  · intro r hp hname hfail
    subst hp
    unfold authorizeAllChannels at hfail ⊢
    simp only at hfail ⊢
    split
    · simp [roleImpl.UnauthError, hname]
    · rename_i hf
      rw [if_neg hf] at hfail
      exact absurd rfl hfail

/-- C17 (amended), instantiated: `alice`, with channels `foo` and `bar`, asks for `foo`,
`baz` and `qux`. -/
theorem C17_authorizeAllChannels_witness :
    authorizeAllChannels
        (some { Name_ := "alice", ExplicitChannels_ := [], Channels_ := ["foo", "bar"] })
        ["foo", "baz", "qux"]
      = some (Error.http 403 ("You are not allowed to see channels " ++
          formatStrings (forbiddenChannels
            (some { Name_ := "alice", ExplicitChannels_ := [], Channels_ := ["foo", "bar"] })
            ["foo", "baz", "qux"]))) :=
  (C17_authorizeAllChannels
    (some { Name_ := "alice", ExplicitChannels_ := [], Channels_ := ["foo", "bar"] })
    ["foo", "baz", "qux"]).2.2.2.1 _ rfl (by decide) (by decide)

/-! ### `getRevFromDoc` -/

theorem getRevFromDoc_authorized (db : Database) (encodeRevisions : List String → JSON)
    (doc : document) (revid : String) (listRevisions : Bool)
    (hauth : AuthorizeAnyDocChannels db.user doc.Channels = none) :
    db.getRevFromDoc encodeRevisions doc revid listRevisions =
      if revid = "" ∧ (doc.History.get doc.CurrentRev).Deleted = true then
        .error (Error.http 404 "deleted")
      else
        match doc.getRevision (if revid = "" then doc.CurrentRev else revid) with
        | none => .error (Error.http 404 "missing")
        | some stored =>
          .ok (if listRevisions = true then
              mapSet (if (doc.History.get (if revid = "" then doc.CurrentRev else revid)).Deleted
                  = true then mapSet stored "_deleted" (JSON.bool true) else stored)
                "_revisions" (encodeRevisions
                  (doc.History.getHistory (if revid = "" then doc.CurrentRev else revid)))
            else
              (if (doc.History.get (if revid = "" then doc.CurrentRev else revid)).Deleted
                  = true then mapSet stored "_deleted" (JSON.bool true) else stored)) := by
  unfold Database.getRevFromDoc
  rw [hauth]
  simp only
  by_cases hr : revid = ""
  · subst hr
    simp only [if_true, true_and]
  · simp only [hr, if_false, false_and]

/-- C18: for a reader that passes authorization, `getRevFromDoc` fails with HTTP 404 "deleted"
if and only if no revision ID is requested and the current (winning) revision is a tombstone.
When a revision is requested by ID, the read fails with HTTP 404 "missing" if the body of the
revision is not available, and otherwise returns that body, with `"_deleted": true` if the
revision is a tombstone (and with `_revisions` if the history is asked for). -/
theorem C18_getRevFromDoc_deleted (db : Database) (encodeRevisions : List String → JSON)
    (doc : document) (revid : String) (listRevisions : Bool)
    (hauth : AuthorizeAnyDocChannels db.user doc.Channels = none) :
    (db.getRevFromDoc encodeRevisions doc revid listRevisions
        = .error (Error.http 404 "deleted") ↔
      revid = "" ∧ (doc.History.get doc.CurrentRev).Deleted = true) ∧
    (doc.currentIsWinner →
      (db.getRevFromDoc encodeRevisions doc revid listRevisions
          = .error (Error.http 404 "deleted") ↔
        revid = "" ∧ (doc.History.get doc.History.winningRevision).Deleted = true)) ∧
    (revid ≠ "" → doc.getRevision revid = none →
      db.getRevFromDoc encodeRevisions doc revid listRevisions
        = .error (Error.http 404 "missing")) ∧
    (revid ≠ "" → ∀ stored, doc.getRevision revid = some stored →
      ∃ body, db.getRevFromDoc encodeRevisions doc revid listRevisions = .ok body ∧
        ((doc.History.get revid).Deleted = true →
          body.lookup "_deleted" = some (JSON.bool true)) ∧
        ((doc.History.get revid).Deleted = false → listRevisions = false → body = stored) ∧
        (listRevisions = true → body.lookup "_revisions"
          = some (encodeRevisions (doc.History.getHistory revid)))) := by
  have hmain : db.getRevFromDoc encodeRevisions doc revid listRevisions
        = .error (Error.http 404 "deleted") ↔
      revid = "" ∧ (doc.History.get doc.CurrentRev).Deleted = true := by
    rw [getRevFromDoc_authorized db encodeRevisions doc revid listRevisions hauth]
    by_cases hc : revid = "" ∧ (doc.History.get doc.CurrentRev).Deleted = true
    · simp only [hc, and_self, if_true]
    · simp only [hc, if_false, iff_false]
      split
      · intro h
        injection h with h
        injection h with _ h
        revert h
        decide
      · intro h
        cases h
  refine ⟨hmain, fun hwin => ?_, fun hr hnone => ?_, fun hr stored hsome => ?_⟩
  · rw [hmain, hwin.1]
  · rw [getRevFromDoc_authorized db encodeRevisions doc revid listRevisions hauth]
    simp only [hr, false_and, if_false, hnone]
  · rw [getRevFromDoc_authorized db encodeRevisions doc revid listRevisions hauth]
    simp only [hr, false_and, if_false, hsome]
    refine ⟨_, rfl, fun hdel => ?_, fun hdel hl => ?_, fun hl => ?_⟩
    · cases listRevisions with
      | true =>
        simp only [if_true, hdel, lookup_mapSet]
        simp
      | false =>
        simp only [Bool.false_eq_true, if_false, hdel, if_true, lookup_mapSet]
    · simp only [hl, hdel]
      simp
    · simp only [hl, if_true, lookup_mapSet]

/-- C18, instantiated: reading the current revision of a deleted document fails with
HTTP 404 "deleted". -/
theorem C18_getRevFromDoc_deleted_witness :
    deletedDatabase.getRevFromDoc exampleEncodeRevisions
        (deletedDatabase.currentDocument "doc" "doc") "" false
      = .error (Error.http 404 "deleted") :=
  (C18_getRevFromDoc_deleted deletedDatabase exampleEncodeRevisions
    (deletedDatabase.currentDocument "doc" "doc") "" false
    (by with_unfolding_all decide)).1.mpr ⟨rfl, by with_unfolding_all decide⟩

/-! ### The channel map after a write that does not win -/

/-- C13 fails on the code: after the losing revision `2-b` (channel `bar`) is added next to
the winner `2-c` (channel `foo`), the winning revision is still `2-c`, whose channels by the
sync function are `[foo]`, but the channel map has a Removal record for `foo` and the
membership sentinel for `bar`: the channels were computed from the body of `2-b`. -/
theorem C13_channels_of_losing_revision :
    (losingBranchDatabase.currentDocument "doc" "doc").CurrentRev = "2-c" ∧
    (losingBranchDatabase.currentDocument "doc" "doc").History.winningRevision = "2-c" ∧
    (Option.map (fun body => (exampleMapper body none none).1.Channels)
      ((losingBranchDatabase.currentDocument "doc" "doc").getRevision "2-c")) = some ["foo"] ∧
    (losingBranchDatabase.currentDocument "doc" "doc").Channels.lookup "foo"
      = some (some { Seq := 2, Rev := "2-c" }) ∧
    (losingBranchDatabase.currentDocument "doc" "doc").Channels.lookup "bar" = some none := by
  refine ⟨?_, ?_, ?_, ?_, ?_⟩ <;> with_unfolding_all decide

/-! ### `Put`: the revision that is added -/

theorem parseRevID_bounds (revid : String) :
    -1 ≤ parseRevID revid ∧ parseRevID revid < 9223372036854775808 := by
  unfold parseRevID
  split
  · exact ⟨by decide, by decide⟩
  · simp only
    split
    · split
      · rename_i h
        obtain ⟨_, _, _, h1, h2⟩ := h
        constructor <;> omega
      · exact ⟨by decide, by decide⟩
    · exact ⟨by decide, by decide⟩

theorem wrapInt_of_bounds (x : Int) (h1 : -9223372036854775808 ≤ x)
    (h2 : x < 9223372036854775808) : wrapInt x = x := by
  unfold wrapInt
  omega

theorem PutCheck_ok (v v' : PutVars) (doc : document) (h : PutCheck v doc = .ok v') :
    v'.body = v.body ∧
    (v.matchRev ≠ "" → v' = v ∧ doc.History.isLeaf v.matchRev = true) ∧
    (v.matchRev = "" → v'.matchRev = doc.CurrentRev ∧
      (doc.CurrentRev ≠ "" → (doc.History.get doc.CurrentRev).Deleted = true ∧
        v'.generation = wrapInt (parseRevID doc.CurrentRev + 1)) ∧
      (doc.CurrentRev = "" → v'.generation = v.generation)) := by
  unfold PutCheck at h
  by_cases hm : v.matchRev = ""
  · simp only [hm, if_true] at h
    by_cases hc : doc.CurrentRev = ""
    · simp only [hc, ne_eq, not_true_eq_false, if_false, Except.ok.injEq] at h
      subst h
      simp [hm, hc]
    · simp only [hc, ne_eq, not_false_eq_true, if_true] at h
      by_cases hd : (doc.History.get doc.CurrentRev).Deleted = true
      · simp only [hd, Bool.not_true, Bool.false_eq_true, if_false, Except.ok.injEq] at h
        subst h
        simp [hm, hc, hd]
      · simp [hd] at h
  · simp only [hm, if_false] at h
    by_cases hl : doc.History.isLeaf v.matchRev = true
    · simp only [hl, Bool.not_true, Bool.false_eq_true, if_false, Except.ok.injEq] at h
      subst h
      simp [hm, hl]
    · simp [hl] at h

theorem PutCallback_ok (db : Database) (deleted : Bool) (v v' : PutVars) (doc : document)
    (body1 : Body) (hcheck : PutCheck v doc = .ok v')
    (hatt : db.storeAttachments doc v'.body v'.generation v'.matchRev = .ok body1) :
    (db.PutCallback deleted v doc).2 =
      .ok ({ doc with History := doc.History.addRevision (putRevision db v' body1 deleted) },
           mapSet body1 "_rev" (JSON.str (putRevision db v' body1 deleted).ID)) := by
  unfold Database.PutCallback
  rw [hcheck]
  simp only [hatt]
  rfl

theorem PutCallback_inv (db : Database) (deleted : Bool) (v : PutVars) (doc doc1 : document)
    (body2 : Body) (h : (db.PutCallback deleted v doc).2 = .ok (doc1, body2)) :
    ∃ v' body1, PutCheck v doc = .ok v' ∧
      db.storeAttachments doc v'.body v'.generation v'.matchRev = .ok body1 ∧
      doc1.History = doc.History.addRevision (putRevision db v' body1 deleted) := by
  cases hcheck : PutCheck v doc with
  | error e =>
    unfold Database.PutCallback at h
    rw [hcheck] at h
    cases h
  | ok v' =>
    cases hatt : db.storeAttachments doc v'.body v'.generation v'.matchRev with
    | error e =>
      unfold Database.PutCallback at h
      rw [hcheck] at h
      simp only [hatt] at h
      cases h
    | ok body1 =>
      rw [PutCallback_ok db deleted v v' doc body1 hcheck hatt] at h
      simp only [Except.ok.injEq, Prod.mk.injEq] at h
      exact ⟨v', body1, rfl, hatt, by rw [← h.1]⟩

/-- The outcome of `Put` on the store: nothing changes, or the parent check and
`storeAttachments` succeeded and the stored tree is the old tree with the new revision. -/
theorem Put_outcome (db : Database) (docid : String) (body : Body) :
    ((db.Put docid body).2.Bucket = db.Bucket ∧
      (db.Put docid body).2.notifications = db.notifications) ∨
    (∃ v' body1 stored,
      PutCheck (putVars body) (db.currentDocument docid (db.realDocID docid)) = .ok v' ∧
      db.storeAttachments (db.currentDocument docid (db.realDocID docid)) v'.body
        v'.generation v'.matchRev = .ok body1 ∧
      (db.Put docid body).2.Bucket.docs
        = mapSet db.Bucket.docs (db.realDocID docid) stored ∧
      stored.History.shape
        = ((db.currentDocument docid (db.realDocID docid)).History.addRevision
            (putRevision db v' body1 (body.getBool "_deleted"))).shape ∧
      (db.Put docid body).2.notifications = db.notifications + 1) := by
  unfold Database.Put
  simp only
  split
  · exact Or.inl ⟨rfl, rfl⟩
  · rcases updateDoc_outcome db docid (fun doc =>
        (db.PutCallback (body.getBool "_deleted")
          { matchRev := body.getString "_rev",
            generation := wrapInt (parseRevID (body.getString "_rev") + 1),
            body := body } doc).2)
      with hsame | ⟨d, r, db', hres, hdocs, hn⟩
    · exact Or.inl hsame
    · right
      obtain ⟨doc1, body2, hcall, _, _, _, hshape⟩ := updateDocCallback_ok db _ _ d r db' hres
      obtain ⟨v', body1, hcheck, hatt, hhist⟩ := PutCallback_inv db _ _ _ doc1 body2 hcall
      exact ⟨v', body1, d, hcheck, hatt, hdocs, by rw [hshape, hhist], hn⟩

/-- The outcome of `PutExistingRev` on the store: nothing changes, or some revision of the
history was new and the stored tree is the grafted tree. -/
theorem PutExistingRev_outcome (db : Database) (docid : String) (body : Body)
    (docHistory : List String) :
    ((db.PutExistingRev docid body docHistory).2.Bucket = db.Bucket ∧
      (db.PutExistingRev docid body docHistory).2.notifications = db.notifications) ∨
    (∃ stored,
      0 < currentRevIndex (db.currentDocument docid (db.realDocID docid)).History docHistory ∧
      (db.PutExistingRev docid body docHistory).2.Bucket.docs
        = mapSet db.Bucket.docs (db.realDocID docid) stored ∧
      stored.History.shape
        = (graftedTree (db.currentDocument docid (db.realDocID docid)).History docHistory
            (body.getBool "_deleted")).shape ∧
      (db.PutExistingRev docid body docHistory).2.notifications = db.notifications + 1) := by
  unfold Database.PutExistingRev
  cases docHistory with
  | nil => exact Or.inl ⟨rfl, rfl⟩
  | cons newRev ancestors =>
    simp only
    split
    · exact Or.inl ⟨rfl, rfl⟩
    · rcases updateDoc_outcome db docid (db.PutExistingRevCallback body (newRev :: ancestors)
          newRev (parseRevID newRev) (body.getBool "_deleted"))
        with hsame | ⟨d, r, db', hres, hdocs, hn⟩
      · exact Or.inl hsame
      · right
        obtain ⟨doc1, body1, hcall, _, _, _, hshape⟩ := updateDocCallback_ok db _ _ d r db' hres
        refine ⟨d, ?_, hdocs, ?_, hn⟩
        · by_contra hk
          have h0 : currentRevIndex (db.currentDocument docid (db.realDocID docid)).History
              (newRev :: ancestors) = 0 := by omega
          unfold Database.PutExistingRevCallback at hcall
          simp only [h0, if_true] at hcall
          cases hcall
        · rw [hshape, PutExistingRevCallback_history db body _ newRev _ _ _ doc1 body1 hcall]

/-- C15 as stated fails. A `Put` on a new document passes the parent check, but when
`storeAttachments` fails it returns that error and no revision is added. In the database
whose tree already holds the ID `2-b` that `createRevID` makes for the child of `1-a`, a `Put`
on the leaf `1-a` succeeds while the tree keeps its two revisions: none is added. And a `Put`
on the leaf `9223372036854775807-a` passes the parent check with the generation
`-9223372036854775808`, which is not the parent's generation + 1: the increment of the 64-bit
`int` wraps around. -/
theorem C15_counterexample :
    (∃ v', PutCheck (putVars [("x", JSON.num 1)])
      (failingAttachmentsDatabase.currentDocument "doc" "doc") = .ok v') ∧
    (failingAttachmentsDatabase.Put "doc" [("x", JSON.num 1)]).1
      = ("", some (Error.http 400 "Invalid attachment")) ∧
    ((failingAttachmentsDatabase.Put "doc" [("x", JSON.num 1)]).2.currentDocument
      "doc" "doc").History.keys = [] ∧
    (collisionDatabase.currentDocument "doc" "doc").History.keys = ["1-a", "2-b"] ∧
    (collisionDatabase.currentDocument "doc" "doc").History.isLeaf "1-a" = true ∧
    (collisionDatabase.Put "doc" [("_rev", JSON.str "1-a"), ("x", JSON.num 2)]).1
      = ("2-b", none) ∧
    ((collisionDatabase.Put "doc" [("_rev", JSON.str "1-a"), ("x", JSON.num 2)]).2.currentDocument
      "doc" "doc").History.keys = ["1-a", "2-b"] ∧
    (maxGenerationDatabase.currentDocument "doc" "doc").History.keys
      = ["9223372036854775807-a"] ∧
    (maxGenerationDatabase.currentDocument "doc" "doc").History.isLeaf
      "9223372036854775807-a" = true ∧
    parseRevID "9223372036854775807-a" = 9223372036854775807 ∧
    (∃ v', PutCheck (putVars [("_rev", JSON.str "9223372036854775807-a")])
        (maxGenerationDatabase.currentDocument "doc" "doc") = .ok v' ∧
      v'.matchRev = "9223372036854775807-a" ∧
      v'.generation = -9223372036854775808) := by
  refine ⟨⟨_, rfl⟩, ?_, ?_, ?_, ?_, ?_, ?_, ?_, ?_, ?_,
    ⟨putVars [("_rev", JSON.str "9223372036854775807-a")], by with_unfolding_all rfl,
      by with_unfolding_all decide, by with_unfolding_all decide⟩⟩ <;>
    with_unfolding_all decide

/-- C15 (amended): for a `Put` that passes the parent check and whose attachments are stored
without error, the callback adds one revision to the tree (exactly one more revision when its
ID is not already there, every other revision unchanged): its `Parent` is the matched
revision (`body["_rev"]` when given, else the document's current revision, which is then a
tombstone, or empty for a new document), its `Deleted` flag is `body["_deleted"]`, and the
generation passed to `createRevID` is the parent's generation + 1 computed on a 64-bit `int`:
the parent's generation + 1 (1 without parent) while that is below `2 ^ 63`, and `-2 ^ 63` for
a parent of generation `2 ^ 63 - 1` = 9223372036854775807. When the write commits, the stored
tree has this structure. -/
theorem C15_put_new_revision (db : Database) (docid : String) (body : Body) (doc : document)
    (v' : PutVars) (body1 : Body)
    (hcheck : PutCheck (putVars body) doc = .ok v')
    (hatt : db.storeAttachments doc v'.body v'.generation v'.matchRev = .ok body1) :
    (body.getString "_rev" ≠ "" → v'.matchRev = body.getString "_rev") ∧
    (body.getString "_rev" = "" → v'.matchRev = doc.CurrentRev ∧
      (doc.CurrentRev ≠ "" → (doc.History.get doc.CurrentRev).Deleted = true)) ∧
    (v'.generation = wrapInt (parseRevID v'.matchRev + 1) ∧
      (parseRevID v'.matchRev < 9223372036854775807 →
        v'.generation = parseRevID v'.matchRev + 1) ∧
      (parseRevID v'.matchRev = 9223372036854775807 →
        v'.generation = -9223372036854775808)) ∧
    putRevision db v' body1 (body.getBool "_deleted")
      = { ID := db.createRevID (wrapInt (parseRevID v'.matchRev + 1)) v'.matchRev body1,
          Parent := v'.matchRev, Deleted := body.getBool "_deleted", Body := none } ∧
    (db.PutCallback (body.getBool "_deleted") (putVars body) doc).2
      = .ok ({ doc with
               History := (doc.History.addRevision
                 (putRevision db v' body1 (body.getBool "_deleted"))) },
             mapSet body1 "_rev" (JSON.str (putRevision db v' body1 (body.getBool "_deleted")).ID)) ∧
    (∀ r, (doc.History.addRevision (putRevision db v' body1 (body.getBool "_deleted"))).get r
      = if (putRevision db v' body1 (body.getBool "_deleted")).ID = r
        then putRevision db v' body1 (body.getBool "_deleted") else doc.History.get r) ∧
    (doc.History.contains (putRevision db v' body1 (body.getBool "_deleted")).ID = false →
      (doc.History.addRevision (putRevision db v' body1 (body.getBool "_deleted"))).keys
        = doc.History.keys ++ [(putRevision db v' body1 (body.getBool "_deleted")).ID]) ∧
    (db.currentDocument docid (db.realDocID docid) = doc →
      (db.Put docid body).2.notifications = db.notifications + 1 →
      ∃ stored,
        (db.Put docid body).2.Bucket.docs.lookup (db.realDocID docid) = some stored ∧
        stored.History.shape
          = (doc.History.addRevision (putRevision db v' body1 (body.getBool "_deleted"))).shape) := by
  obtain ⟨hbody, hgiven, habsent⟩ := PutCheck_ok _ _ _ hcheck
  have hgen : v'.generation = wrapInt (parseRevID v'.matchRev + 1) := by
    by_cases hm : body.getString "_rev" = ""
    · obtain ⟨hmatch, hcur, hnew⟩ := habsent hm
      by_cases hc : doc.CurrentRev = ""
      · rw [hnew hc, hmatch, hc]
        simp only [putVars, hm]
      · rw [(hcur hc).2, hmatch]
    · rw [(hgiven hm).1]
      rfl
  have hlow := (parseRevID_bounds v'.matchRev).1
  refine ⟨fun hm => ?_, fun hm => ?_, ⟨hgen, fun hlt => ?_, fun hmax => ?_⟩, ?_, ?_, ?_, ?_, ?_⟩
  · rw [(hgiven hm).1]
    rfl
  · obtain ⟨hmatch, hcur, _⟩ := habsent hm
    exact ⟨hmatch, fun hc => (hcur hc).1⟩
  · rw [hgen]
    exact wrapInt_of_bounds _ (by omega) (by omega)
  · rw [hgen, hmax]
    decide
  · unfold putRevision
    rw [hgen]
  · exact PutCallback_ok db _ _ v' doc body1 hcheck hatt
  · exact fun r => RevTree.get_addRevision doc.History _ r
  · exact fun hfresh => RevTree.keys_addRevision doc.History _ hfresh
  · intro hdoc hcommit
    rcases Put_outcome db docid body with ⟨_, hsame⟩ | ⟨v2, body2, stored, hc2, ha2, hdocs, hshape, _⟩
    · omega
    · rw [hdoc] at hc2 ha2 hshape
      rw [hcheck] at hc2
      injection hc2 with hv
      subst hv
      rw [hatt] at ha2
      injection ha2 with hb
      subst hb
      refine ⟨stored, ?_, hshape⟩
      rw [hdocs, lookup_mapSet]
      simp

/-- C15 (amended), instantiated: in the database with the leaves `2-b` and `2-c`, a `Put` on
the leaf `2-b` adds the one revision `3-c`, and the generation passed to `createRevID` is that
of `2-b` plus 1. -/
theorem C15_put_new_revision_witness :
    ((conflictDatabase.currentDocument "doc" "doc").History.addRevision
        (putRevision conflictDatabase (putVars [("_rev", JSON.str "2-b"), ("z", JSON.num 3)])
          [("_rev", JSON.str "2-b"), ("z", JSON.num 3)]
          (Body.getBool [("_rev", JSON.str "2-b"), ("z", JSON.num 3)] "_deleted"))).keys
      = (conflictDatabase.currentDocument "doc" "doc").History.keys ++
        [(putRevision conflictDatabase (putVars [("_rev", JSON.str "2-b"), ("z", JSON.num 3)])
          [("_rev", JSON.str "2-b"), ("z", JSON.num 3)]
          (Body.getBool [("_rev", JSON.str "2-b"), ("z", JSON.num 3)] "_deleted")).ID] ∧
    (putVars [("_rev", JSON.str "2-b"), ("z", JSON.num 3)]).generation
      = parseRevID (putVars [("_rev", JSON.str "2-b"), ("z", JSON.num 3)]).matchRev + 1 :=
  ⟨(C15_put_new_revision conflictDatabase "doc" [("_rev", JSON.str "2-b"), ("z", JSON.num 3)]
      (conflictDatabase.currentDocument "doc" "doc")
      (putVars [("_rev", JSON.str "2-b"), ("z", JSON.num 3)])
      [("_rev", JSON.str "2-b"), ("z", JSON.num 3)]
      (by with_unfolding_all rfl) (by with_unfolding_all rfl)).2.2.2.2.2.2.1
      (by with_unfolding_all decide),
   (C15_put_new_revision conflictDatabase "doc" [("_rev", JSON.str "2-b"), ("z", JSON.num 3)]
      (conflictDatabase.currentDocument "doc" "doc")
      (putVars [("_rev", JSON.str "2-b"), ("z", JSON.num 3)])
      [("_rev", JSON.str "2-b"), ("z", JSON.num 3)]
      (by with_unfolding_all rfl) (by with_unfolding_all rfl)).2.2.1.2.1
      (by with_unfolding_all decide)⟩

/-! ### Well-formed revision trees -/

theorem RevTree.shape_addRevision (tree : RevTree) (info : RevInfo)
    (h : tree.contains info.ID = false) :
    (tree.addRevision info).shape = tree.shape ++ [(info.ID, info.Parent, info.Deleted)] := by
  induction tree with
  | nil => rfl
  | cons x rest ih =>
    unfold RevTree.contains at h ih
    simp only [List.any_cons, Bool.or_eq_false_iff, decide_eq_false_iff_not] at h
    unfold RevTree.addRevision
    simp only [h.1, if_false]
    unfold RevTree.shape at ih ⊢
    simp only [List.map_cons, List.cons_append, ih h.2]

theorem RevTree.mem_shape_fst (tree : RevTree) (r : String) :
    (∃ y ∈ tree.shape, y.1 = r) ↔ tree.contains r = true := by
  rw [RevTree.contains_eq_shape]
  simp

theorem RevTree.wellFormed_congr {t t' : RevTree} (h : t.shape = t'.shape)
    (hwf : t.wellFormed) : t'.wellFormed := by
  unfold RevTree.wellFormed at hwf ⊢
  rw [← h]
  exact hwf

/-- Adding a revision whose ID is new, whose parent is empty or in the tree and whose
generation is its parent's + 1 keeps the tree well formed. -/
theorem RevTree.wellFormed_addRevision (tree : RevTree) (info : RevInfo)
    (hwf : tree.wellFormed) (hfresh : tree.contains info.ID = false)
    (hparent : info.Parent = "" ∨ tree.contains info.Parent = true)
    (hgen : parseRevID info.ID = parseRevID info.Parent + 1) :
    (tree.addRevision info).wellFormed := by
  obtain ⟨hnodup, hparents, hgens⟩ := hwf
  unfold RevTree.wellFormed
  rw [RevTree.shape_addRevision tree info hfresh]
  refine ⟨?_, ?_, ?_⟩
  · rw [List.map_append, List.nodup_append]
    refine ⟨hnodup, by simp, ?_⟩
    intro a ha hb
    simp only [List.map_cons, List.map_nil, List.mem_singleton] at hb
    subst hb
    have : tree.contains info.ID = true := by
      rw [← RevTree.mem_shape_fst]
      obtain ⟨y, hy, hy1⟩ := List.mem_map.mp ha
      exact ⟨y, hy, hy1⟩
    rw [hfresh] at this
    cases this
  · intro x hx
    rcases List.mem_append.mp hx with h1 | h1
    · rcases hparents x h1 with h2 | ⟨y, hy, hy1⟩
      · exact Or.inl h2
      · exact Or.inr ⟨y, List.mem_append_left _ hy, hy1⟩
    · simp only [List.mem_singleton] at h1
      subst h1
      rcases hparent with h2 | h2
      · exact Or.inl h2
      · obtain ⟨y, hy, hy1⟩ := (RevTree.mem_shape_fst tree info.Parent).mpr h2
        exact Or.inr ⟨y, List.mem_append_left _ hy, hy1⟩
  · intro x hx
    rcases List.mem_append.mp hx with h1 | h1
    · exact hgens x h1
    · simp only [List.mem_singleton] at h1
      subst h1
      exact hgen

theorem wellFormed_addNewRevisions (h : List String) (deleted : Bool) :
    ∀ (n : Nat) (tree : RevTree) (parent : String),
      tree.wellFormed →
      (parent = "" ∨ tree.contains parent = true) →
      (∀ j < n, tree.contains (h.getD j "") = false) →
      (∀ i j, i < j → j < n → h.getD i "" ≠ h.getD j "") →
      (∀ j < n, parseRevID (h.getD j "")
        = parseRevID (if j + 1 = n then parent else h.getD (j + 1) "") + 1) →
      (addNewRevisions h deleted n tree parent).wellFormed := by
  intro n
  induction n with
  | zero => intro tree parent hwf _ _ _ _; exact hwf
  | succ i ih =>
    intro tree parent hwf hparent hnot hdistinct hgens
    unfold addNewRevisions
    apply ih
    · apply RevTree.wellFormed_addRevision tree _ hwf (hnot i (by omega)) hparent
      have := hgens i (by omega)
      simpa using this
    · right
      rw [RevTree.contains_addRevision]
      simp
    · intro j hj
      rw [RevTree.contains_addRevision, hnot j (by omega)]
      simp only [Bool.or_false, decide_eq_false_iff_not]
      exact fun heq => hdistinct j i hj (by omega) heq.symm
    · exact fun a b hab hb => hdistinct a b hab (by omega)
    · intro j hj
      have := hgens j (by omega)
      have hne : ¬ j + 1 = i + 1 := by omega
      simp only [hne, if_false] at this
      rw [this]
      by_cases hji : j + 1 = i
      · simp [hji]
      · simp [hji]

theorem generation_chain (h : List String) (n : Nat)
    (hgens : ∀ j < n, parseRevID (h.getD j "") = parseRevID (h.getD (j + 1) "") + 1) :
    ∀ d i, i + d < n → parseRevID (h.getD i "") = parseRevID (h.getD (i + d) "") + d := by
  intro d
  induction d with
  | zero => intro i _; simp
  | succ d ih =>
    intro i hi
    rw [ih i (by omega), hgens (i + d) (by omega)]
    have : i + d + 1 = i + (d + 1) := by omega
    rw [this]
    push_cast
    omega

theorem distinct_of_generations (h : List String) (n : Nat)
    (hgens : ∀ j < n, parseRevID (h.getD j "") = parseRevID (h.getD (j + 1) "") + 1) :
    ∀ i j, i < j → j < n → h.getD i "" ≠ h.getD j "" := by
  intro i j hij hj heq
  have hchain := generation_chain h n hgens (j - i) i (by omega)
  have hidx : i + (j - i) = j := by omega
  rw [hidx, heq] at hchain
  have : ((j - i : Nat) : Int) > 0 := by
    have : j - i > 0 := by omega
    exact_mod_cast this
  omega

theorem wellFormed_graftedTree (tree : RevTree) (docHistory : List String) (deleted : Bool)
    (hwf : tree.wellFormed)
    (hgens : ∀ j < currentRevIndex tree docHistory,
      parseRevID (docHistory.getD j "") = parseRevID (docHistory.getD (j + 1) "") + 1) :
    (graftedTree tree docHistory deleted).wellFormed := by
  unfold graftedTree
  apply wellFormed_addNewRevisions docHistory deleted _ tree _ hwf
  · by_cases hlt : currentRevIndex tree docHistory < docHistory.length
    · exact Or.inr (currentRevIndex_contains tree docHistory hlt)
    · left
      rw [List.getD_eq_default _ _ (by omega)]
  · exact currentRevIndex_not_contains tree docHistory
  · exact distinct_of_generations docHistory _ hgens
  · intro j hj
    rw [hgens j hj]
    by_cases hlast : j + 1 = currentRevIndex tree docHistory
    · simp [hlast]
    · simp [hlast]

theorem winningRevision_contains (tree : RevTree) :
    tree.winningRevision = "" ∨ tree.contains tree.winningRevision = true := by
  have hleaf : ∀ (p : String → Bool) (w : String),
      pickWinner (tree.getLeaves.filter p) = some w → tree.contains w = true := by
    intro p w hw
    have := pickWinner_mem _ _ hw
    have hk : w ∈ tree.keys := (List.mem_filter.mp (List.mem_filter.mp this).1).1
    exact (RevTree.mem_keys_iff tree w).mp hk
  unfold RevTree.winningRevision
  cases hlive : pickWinner (tree.getLeaves.filter (fun revid => !(tree.get revid).Deleted)) with
  | some w => exact Or.inr (hleaf _ w hlive)
  | none =>
    simp only
    cases hdead : pickWinner (tree.getLeaves.filter (fun revid => (tree.get revid).Deleted)) with
    | none => exact Or.inl rfl
    | some w => exact Or.inr (hleaf _ w hdead)

theorem lookup_currentDocument (db : Database) (docid key : String)
    (h : (db.Bucket.docs.lookup key).isSome = true) :
    db.Bucket.docs.lookup key = some (db.currentDocument docid key) := by
  unfold Database.currentDocument
  cases hl : db.Bucket.docs.lookup key with
  | none => rw [hl] at h; cases h
  | some doc => rfl

theorem PutCheck_generation (body : Body) (doc : document) (v' : PutVars)
    (hcheck : PutCheck (putVars body) doc = .ok v') :
    v'.generation = wrapInt (parseRevID v'.matchRev + 1) := by
  obtain ⟨_, hgiven, habsent⟩ := PutCheck_ok _ _ _ hcheck
  by_cases hm : body.getString "_rev" = ""
  · obtain ⟨hmatch, hcur, hnew⟩ := habsent hm
    by_cases hc : doc.CurrentRev = ""
    · rw [hnew hc, hmatch, hc]
      simp only [putVars, hm]
    · rw [(hcur hc).2, hmatch]
  · rw [(hgiven hm).1]
    rfl

theorem PutCheck_parent (body : Body) (doc : document) (v' : PutVars)
    (hcheck : PutCheck (putVars body) doc = .ok v') (hwin : doc.currentIsWinner) :
    v'.matchRev = "" ∨ doc.History.contains v'.matchRev = true := by
  obtain ⟨_, hgiven, habsent⟩ := PutCheck_ok _ _ _ hcheck
  by_cases hm : body.getString "_rev" = ""
  · rw [(habsent hm).1, hwin.1]
    exact winningRevision_contains doc.History
  · have hleaf := (hgiven hm).2
    rw [(hgiven hm).1]
    unfold RevTree.isLeaf at hleaf
    exact Or.inr (Bool.and_eq_true_iff.mp hleaf).1

theorem stored_of_unchanged (db db' : Database) (docid : String) (stored : document)
    (hsame : db'.Bucket = db.Bucket)
    (hl : db'.Bucket.docs.lookup (db.realDocID docid) = some stored) :
    db.currentDocument docid (db.realDocID docid) = stored := by
  rw [hsame] at hl
  unfold Database.currentDocument
  rw [hl]

theorem Put_wellFormed (db : Database) (docid : String) (body : Body) (doc : document)
    (hdoc : db.currentDocument docid (db.realDocID docid) = doc)
    (hwf : doc.History.wellFormed) (hwin : doc.currentIsWinner)
    (hcreate : ∀ v' body1, PutCheck (putVars body) doc = .ok v' →
      parseRevID (db.createRevID v'.generation v'.matchRev body1) = v'.generation ∧
      doc.History.contains (db.createRevID v'.generation v'.matchRev body1) = false) :
    ∀ stored, (db.Put docid body).2.Bucket.docs.lookup (db.realDocID docid) = some stored →
      stored.History.wellFormed := by
  intro stored hl
  rcases Put_outcome db docid body with ⟨hsame, _⟩ | ⟨v', body1, d, hcheck, _, hdocs, hshape, _⟩
  · rw [← stored_of_unchanged db _ docid stored hsame hl, hdoc]
    exact hwf
  · rw [hdocs, lookup_mapSet] at hl
    simp only [if_true, Option.some.injEq] at hl
    subst hl
    rw [hdoc] at hcheck hshape
    obtain ⟨hgen, hfresh⟩ := hcreate v' body1 hcheck
    apply RevTree.wellFormed_congr hshape.symm
    apply RevTree.wellFormed_addRevision doc.History _ hwf
    · exact hfresh
    · exact PutCheck_parent body doc v' hcheck hwin
    · show parseRevID (db.createRevID v'.generation v'.matchRev body1)
        = parseRevID v'.matchRev + 1
      have hg := PutCheck_generation body doc v' hcheck
      have hparent := parseRevID_bounds v'.matchRev
      have hnew := parseRevID_bounds (db.createRevID v'.generation v'.matchRev body1)
      rw [hgen, hg] at hnew
      rw [hgen, hg]
      unfold wrapInt at hnew ⊢
      omega

theorem PutExistingRev_wellFormed (db : Database) (docid : String) (body : Body)
    (docHistory : List String) (doc : document)
    (hdoc : db.currentDocument docid (db.realDocID docid) = doc)
    (hwf : doc.History.wellFormed)
    (hgens : ∀ j < currentRevIndex doc.History docHistory,
      parseRevID (docHistory.getD j "") = parseRevID (docHistory.getD (j + 1) "") + 1) :
    ∀ stored,
      (db.PutExistingRev docid body docHistory).2.Bucket.docs.lookup (db.realDocID docid)
        = some stored →
      stored.History.wellFormed := by
  intro stored hl
  rcases PutExistingRev_outcome db docid body docHistory
    with ⟨hsame, _⟩ | ⟨d, _, hdocs, hshape, _⟩
  · rw [← stored_of_unchanged db _ docid stored hsame hl, hdoc]
    exact hwf
  · rw [hdocs, lookup_mapSet] at hl
    simp only [if_true, Option.some.injEq] at hl
    subst hl
    rw [hdoc] at hshape
    exact RevTree.wellFormed_congr hshape.symm
      (wellFormed_graftedTree doc.History docHistory _ hwf hgens)

/-- C14 as stated fails: `PutExistingRev` with the client history `[3-c, 1-a]` on a new
document (whose empty tree is well formed) succeeds and leaves a tree in which `3-c`, of
generation 3, is the child of `1-a`, of generation 1. -/
theorem C14_counterexample :
    (emptyDatabase.currentDocument "doc" "doc").History.wellFormed ∧
    (emptyDatabase.PutExistingRev "doc" [("v", JSON.str "c")] ["3-c", "1-a"]).1 = none ∧
    ((emptyDatabase.PutExistingRev "doc" [("v", JSON.str "c")] ["3-c", "1-a"]).2.currentDocument
      "doc" "doc").History.shape = [("1-a", "", false), ("3-c", "1-a", false)] ∧
    ¬ ((emptyDatabase.PutExistingRev "doc" [("v", JSON.str "c")]
      ["3-c", "1-a"]).2.currentDocument "doc" "doc").History.wellFormed := by
  refine ⟨?_, ?_, ?_, ?_⟩ <;> with_unfolding_all decide

/-- C14 (amended): let the tree of the document be well formed (unique IDs, every parent in
the tree, generation = parent's generation + 1). Then the stored tree is well formed after
every `Put` and `DeleteDoc`, provided the document's current revision is its winner and
`createRevID` returns an ID of the requested generation that is not yet in the tree; and after
every `PutExistingRev` whose new revisions `h[0..k-1]` have consecutive generations
(generation of `h[i]` = generation of `h[i+1]` + 1, an absent parent counting 0). -/
theorem C14_wellFormed_preserved (db : Database) (docid : String) (doc : document)
    (hdoc : db.currentDocument docid (db.realDocID docid) = doc)
    (hwf : doc.History.wellFormed) :
    (∀ body, doc.currentIsWinner →
      (∀ v' body1, PutCheck (putVars body) doc = .ok v' →
        parseRevID (db.createRevID v'.generation v'.matchRev body1) = v'.generation ∧
        doc.History.contains (db.createRevID v'.generation v'.matchRev body1) = false) →
      ∀ stored, (db.Put docid body).2.Bucket.docs.lookup (db.realDocID docid) = some stored →
        stored.History.wellFormed) ∧
    (∀ revid, doc.currentIsWinner →
      (∀ v' body1,
        PutCheck (putVars [("_deleted", JSON.bool true), ("_rev", JSON.str revid)]) doc
          = .ok v' →
        parseRevID (db.createRevID v'.generation v'.matchRev body1) = v'.generation ∧
        doc.History.contains (db.createRevID v'.generation v'.matchRev body1) = false) →
      ∀ stored,
        (db.DeleteDoc docid revid).2.Bucket.docs.lookup (db.realDocID docid) = some stored →
        stored.History.wellFormed) ∧
    (∀ body docHistory,
      (∀ j < currentRevIndex doc.History docHistory,
        parseRevID (docHistory.getD j "") = parseRevID (docHistory.getD (j + 1) "") + 1) →
      ∀ stored,
        (db.PutExistingRev docid body docHistory).2.Bucket.docs.lookup (db.realDocID docid)
          = some stored →
        stored.History.wellFormed) :=
  ⟨fun body hwin hcreate => Put_wellFormed db docid body doc hdoc hwf hwin hcreate,
   fun revid hwin hcreate =>
     Put_wellFormed db docid [("_deleted", JSON.bool true), ("_rev", JSON.str revid)] doc hdoc
       hwf hwin hcreate,
   fun body docHistory hgens =>
     PutExistingRev_wellFormed db docid body docHistory doc hdoc hwf hgens⟩

/-- C14 (amended), instantiated: grafting the history `[3-d, 2-c, 1-a]`, of consecutive
generations, onto the document that has `1-a` leaves a well-formed tree; and so does a `Put`
on the leaf `2-b` of the document with the leaves `2-b` and `2-c`. -/
theorem C14_wellFormed_preserved_witness :
    ((oneRevDatabase.PutExistingRev "doc" [("v", JSON.str "d")]
      ["3-d", "2-c", "1-a"]).2.currentDocument "doc" "doc").History.wellFormed ∧
    ((conflictDatabase.Put "doc" [("_rev", JSON.str "2-b")]).2.currentDocument
      "doc" "doc").History.wellFormed :=
  ⟨(C14_wellFormed_preserved oneRevDatabase "doc" (oneRevDatabase.currentDocument "doc" "doc")
      (by with_unfolding_all rfl) (by with_unfolding_all decide)).2.2
      [("v", JSON.str "d")] ["3-d", "2-c", "1-a"] (by with_unfolding_all decide) _
      (lookup_currentDocument _ "doc" "doc" (by with_unfolding_all decide)),
   (C14_wellFormed_preserved conflictDatabase "doc"
      (conflictDatabase.currentDocument "doc" "doc")
      (by with_unfolding_all rfl) (by with_unfolding_all decide)).1
      [("_rev", JSON.str "2-b")] (by with_unfolding_all decide)
      (fun v' body1 hcheck => by
        have h0 : PutCheck (putVars [("_rev", JSON.str "2-b")])
            (conflictDatabase.currentDocument "doc" "doc")
            = .ok (putVars [("_rev", JSON.str "2-b")]) := by with_unfolding_all rfl
        rw [h0] at hcheck
        injection hcheck with hv
        subst hv
        have hid : conflictDatabase.createRevID (putVars [("_rev", JSON.str "2-b")]).generation
            (putVars [("_rev", JSON.str "2-b")]).matchRev body1 = "3-c" := by
          with_unfolding_all rfl
        rw [hid]
        constructor <;> with_unfolding_all decide) _
      (lookup_currentDocument _ "doc" "doc" (by with_unfolding_all decide))⟩

/-! ### Read authorization comes first -/

/-- C29: when `AuthorizeAnyDocChannels` fails for the user on the channel map of a document
(which only a non-nil user can make it do), `getRevFromDoc` returns that same error for every
requested revision ID and `listRevisions` flag, on that document and on every document with
the same channel map, whatever their histories, bodies, current revisions and deletion
flags. -/
theorem C29_authorization_first (db : Database) (encodeRevisions : List String → JSON)
    (doc1 doc2 : document) (e : Error)
    (hauth : AuthorizeAnyDocChannels db.user doc1.Channels = some e)
    (hch : doc2.Channels = doc1.Channels) :
    db.user ≠ none ∧
    ∀ revid1 revid2 listRevisions1 listRevisions2,
      db.getRevFromDoc encodeRevisions doc1 revid1 listRevisions1 = .error e ∧
      db.getRevFromDoc encodeRevisions doc2 revid2 listRevisions2 = .error e := by
  refine ⟨fun hnone => ?_, fun revid1 revid2 l1 l2 => ⟨?_, ?_⟩⟩
  · rw [hnone] at hauth
    cases hauth
  · unfold Database.getRevFromDoc
    rw [hauth]
  · unfold Database.getRevFromDoc
    rw [hch, hauth]

/-- C29, instantiated: a user who sees only the channel `bar` gets the same 403 for the
current revision of a live document in the channel `foo` and for the revision `1-a`, with its
history, of a deleted document in the same channel. -/
theorem C29_authorization_first_witness :
    AuthorizeAnyDocChannels
        (some { Name_ := "alice", ExplicitChannels_ := [], Channels_ := ["bar"] })
        [("foo", none)]
      = some (Error.http 403 "You are not allowed to see this") ∧
    { emptyDatabase with
        user := some { Name_ := "alice", ExplicitChannels_ := [], Channels_ := ["bar"] }
      }.getRevFromDoc exampleEncodeRevisions
        { linearDoc with Channels := [("foo", none)] } "" false
      = .error (Error.http 403 "You are not allowed to see this") ∧
    { emptyDatabase with
        user := some { Name_ := "alice", ExplicitChannels_ := [], Channels_ := ["bar"] }
      }.getRevFromDoc exampleEncodeRevisions
        { deletedDatabase.currentDocument "doc" "doc" with Channels := [("foo", none)] }
        "1-a" true
      = .error (Error.http 403 "You are not allowed to see this") :=
  ⟨by decide,
   (C29_authorization_first
      { emptyDatabase with
        user := some { Name_ := "alice", ExplicitChannels_ := [], Channels_ := ["bar"] } }
      exampleEncodeRevisions { linearDoc with Channels := [("foo", none)] }
      { deletedDatabase.currentDocument "doc" "doc" with Channels := [("foo", none)] }
      (Error.http 403 "You are not allowed to see this") (by decide) rfl).2 "" "1-a" false true⟩

/-! ### Access maps returned by the sync function -/

theorem isLower_iff (c : Char) : ('a' ≤ c ∧ c ≤ 'z') ↔ c.isLower = true := by
  simp only [Char.isLower, Bool.and_eq_true, decide_eq_true_eq]
  exact Iff.rfl

theorem isUpper_iff (c : Char) : ('A' ≤ c ∧ c ≤ 'Z') ↔ c.isUpper = true := by
  simp only [Char.isUpper, Bool.and_eq_true, decide_eq_true_eq]
  exact Iff.rfl

theorem isDigit_iff (c : Char) : ('0' ≤ c ∧ c ≤ '9') ↔ c.isDigit = true := by
  simp only [Char.isDigit, Bool.and_eq_true, decide_eq_true_eq]
  exact Iff.rfl

theorem isNameChar_iff (c : Char) :
    isNameChar c = true ↔
      (('a' ≤ c ∧ c ≤ 'z') ∨ ('A' ≤ c ∧ c ≤ 'Z') ∨ ('0' ≤ c ∧ c ≤ '9') ∨
        c ∈ ['_', '-', '+', '.', '@']) := by
  rw [isLower_iff, isUpper_iff, isDigit_iff]
  simp only [isNameChar, Char.isAlphanum, Char.isAlpha, Bool.or_eq_true, decide_eq_true_eq,
    List.mem_cons, List.mem_singleton, List.mem_nil_iff, or_false]
  generalize c.isLower = p
  generalize c.isUpper = q
  generalize c.isDigit = r
  generalize (c = '_') = x1
  generalize (c = '-') = x2
  generalize (c = '+') = x3
  generalize (c = '.') = x4
  generalize (c = '@') = x5
  tauto

theorem IsValidPrincipalName_iff (name : String) :
    IsValidPrincipalName name = true ↔ matchesNameRegexp name := by
  unfold IsValidPrincipalName matchesNameRegexp
  rw [List.all_eq_true]
  exact forall_congr' fun c => imp_congr_right fun _ => isNameChar_iff c

theorem validateAccessMap_iff (access : AccessMap) :
    validateAccessMap access = true ↔
      ∀ kv ∈ access, matchesNameRegexp (withoutRolePrefix kv.1) := by
  unfold validateAccessMap
  rw [List.all_eq_true]
  exact forall_congr' fun kv => imp_congr_right fun _ => IsValidPrincipalName_iff _

theorem getChannelsAndAccess_mapper_ok (db : Database) (doc : document) (body : Body)
    (parentRevID : String)
    (mapper : Body → Option Body → Option roleImpl → ChannelMapperOutput × Option Error)
    (output : ChannelMapperOutput)
    (hpass : db.Validator = none ∨ ∃ validate status msg, db.Validator = some validate ∧
      validate body (if parentRevID ≠ "" then doc.getRevisionJSON parentRevID else none)
        db.user = (status, msg, none) ∧ status < 300)
    (hm : db.ChannelMapper = some mapper)
    (hres : mapper body (if parentRevID ≠ "" then doc.getRevisionJSON parentRevID else none)
      db.user = (output, none))
    (hrej : output.Rejection = none) :
    db.getChannelsAndAccess doc body parentRevID
      = (output.Channels, output.Access,
          if validateAccessMap output.Access then none
          else some (Error.http 500 "Error in JS sync function")) := by
  have hnov : { db with Validator := none }.getChannelsAndAccess doc body parentRevID
      = (output.Channels, output.Access,
          if validateAccessMap output.Access then none
          else some (Error.http 500 "Error in JS sync function")) := by
    unfold Database.getChannelsAndAccess
    simp only [hm, hres, hrej]
    cases validateAccessMap output.Access <;> rfl
  rcases hpass with hnone | ⟨validate, status, msg, hv, hvres, hlt⟩
  · have hdb : db = { db with Validator := none } := by
      cases db
      simp only at hnone
      subst hnone
      rfl
    rw [hdb]
    exact hnov
  · rw [(getChannelsAndAccess_validator db doc body parentRevID validate status msg none hv
      hvres).2.2 rfl hlt]
    exact hnov

theorem updateDoc_of_sync_error (db : Database) (docid : String)
    (callback : document → Except Error (document × Body)) (doc1 : document)
    (body : Body) (newRevID : String) (sequence : Nat) (sequences : SequenceAllocator)
    (e : Error)
    (hkey : db.realDocID docid ≠ "") (hfault : db.Bucket.fault = none)
    (hcb : callback (db.currentDocument docid (db.realDocID docid)) = .ok (doc1, body))
    (hrev : body.lookup "_rev" = some (JSON.str newRevID))
    (hseq : db.sequences.nextSequence = (.ok sequence, sequences))
    (hsync : (db.getChannelsAndAccess
      { updateDocRevisions doc1 newRevID body with Sequence := sequence }
      (mapSet body "_id" (JSON.str (updateDocRevisions doc1 newRevID body).ID))
      ((updateDocRevisions doc1 newRevID body).History.get newRevID).Parent).2.2 = some e) :
    (db.updateDoc docid callback).1
        = ("", if e = Error.UpdateCancel then none else some e) ∧
    (db.updateDoc docid callback).2 = { db with sequences := sequences } := by
  have hrun := updateDocCallback_sync_error db callback _ doc1 body newRevID sequence
    sequences e hcb hrev hseq hsync
  unfold Database.updateDoc
  simp only [hkey, if_false]
  unfold Database.bucketUpdate
  rw [hfault]
  simp only
  rw [hrun]
  cases e <;> simp

theorem updateDoc_of_sync_ok (db : Database) (docid : String)
    (callback : document → Except Error (document × Body)) (doc1 : document)
    (body : Body) (newRevID : String) (sequence : Nat) (sequences : SequenceAllocator)
    (hkey : db.realDocID docid ≠ "") (hfault : db.Bucket.fault = none)
    (hcb : callback (db.currentDocument docid (db.realDocID docid)) = .ok (doc1, body))
    (hrev : body.lookup "_rev" = some (JSON.str newRevID))
    (hseq : db.sequences.nextSequence = (.ok sequence, sequences))
    (hsync : (db.getChannelsAndAccess
      { updateDocRevisions doc1 newRevID body with Sequence := sequence }
      (mapSet body "_id" (JSON.str (updateDocRevisions doc1 newRevID body).ID))
      ((updateDocRevisions doc1 newRevID body).History.get newRevID).Parent).2.2 = none) :
    (db.updateDoc docid callback).1 = (newRevID, none) ∧
    (db.updateDoc docid callback).2.sequences = sequences ∧
    (db.updateDoc docid callback).2.notifications = db.notifications + 1 := by
  unfold Database.updateDoc
  simp only [hkey, if_false]
  unfold Database.bucketUpdate
  rw [hfault]
  simp only
  unfold Database.updateDocCallback
  rw [hcb]
  simp only [hrev, hseq]
  rw [getChannelsAndAccess_sequences]
  rcases hres : db.getChannelsAndAccess
      { updateDocRevisions doc1 newRevID body with Sequence := sequence }
      (mapSet body "_id" (JSON.str (updateDocRevisions doc1 newRevID body).ID))
      ((updateDocRevisions doc1 newRevID body).History.get newRevID).Parent
    with ⟨channels, access, err⟩
  rw [hres] at hsync
  simp only at hsync
  subst hsync
  exact ⟨rfl, rfl, rfl⟩

/-- C21: when the validator lets the write pass and the sync function returns an output
without raising and without a rejection: `validateAccessMap` accepts the access map exactly
when every key, with one leading `role:` removed, matches `^[-+.@\w]*$`;
`getChannelsAndAccess` fails with HTTP 500 exactly when some key does not, and otherwise
returns the channels and the access map of the output with no error; and the write through
`updateDoc` that makes this call fails with HTTP 500 exactly when some key does not (then
nothing is stored and no notification is sent), and otherwise returns the new revision ID. -/
theorem C21_invalid_access_map (db : Database) (doc : document) (body : Body)
    (parentRevID : String)
    (mapper : Body → Option Body → Option roleImpl → ChannelMapperOutput × Option Error)
    (output : ChannelMapperOutput)
    (hpass : db.Validator = none ∨ ∃ validate status msg, db.Validator = some validate ∧
      validate body (if parentRevID ≠ "" then doc.getRevisionJSON parentRevID else none)
        db.user = (status, msg, none) ∧ status < 300)
    (hm : db.ChannelMapper = some mapper)
    (hres : mapper body (if parentRevID ≠ "" then doc.getRevisionJSON parentRevID else none)
      db.user = (output, none))
    (hrej : output.Rejection = none) :
    (validateAccessMap output.Access = true ↔
      ∀ kv ∈ output.Access, matchesNameRegexp (withoutRolePrefix kv.1)) ∧
    ((db.getChannelsAndAccess doc body parentRevID).2.2.bind Error.status = some 500 ↔
      ∃ kv ∈ output.Access, ¬ matchesNameRegexp (withoutRolePrefix kv.1)) ∧
    ((∀ kv ∈ output.Access, matchesNameRegexp (withoutRolePrefix kv.1)) →
      db.getChannelsAndAccess doc body parentRevID
        = (output.Channels, output.Access, none)) ∧
    (∀ docid callback doc1 body0 newRevID sequence sequences,
      db.realDocID docid ≠ "" → db.Bucket.fault = none →
      callback (db.currentDocument docid (db.realDocID docid)) = .ok (doc1, body0) →
      body0.lookup "_rev" = some (JSON.str newRevID) →
      db.sequences.nextSequence = (.ok sequence, sequences) →
      doc = { updateDocRevisions doc1 newRevID body0 with Sequence := sequence } →
      body = mapSet body0 "_id" (JSON.str doc.ID) →
      parentRevID = (doc.History.get newRevID).Parent →
      ((db.updateDoc docid callback).1.2.bind Error.status = some 500 ↔
        ∃ kv ∈ output.Access, ¬ matchesNameRegexp (withoutRolePrefix kv.1)) ∧
      ((∃ kv ∈ output.Access, ¬ matchesNameRegexp (withoutRolePrefix kv.1)) →
        (db.updateDoc docid callback).1
          = ("", some (Error.http 500 "Error in JS sync function")) ∧
        (db.updateDoc docid callback).2.Bucket = db.Bucket ∧
        (db.updateDoc docid callback).2.notifications = db.notifications) ∧
      ((∀ kv ∈ output.Access, matchesNameRegexp (withoutRolePrefix kv.1)) →
        (db.updateDoc docid callback).1 = (newRevID, none))) := by
  have hget := getChannelsAndAccess_mapper_ok db doc body parentRevID mapper output hpass hm
    hres hrej
  have hiff := validateAccessMap_iff output.Access
  have hbad : (∃ kv ∈ output.Access, ¬ matchesNameRegexp (withoutRolePrefix kv.1)) ↔
      validateAccessMap output.Access = false := by
    rw [← Bool.not_eq_true, hiff]
    push_neg
    rfl
  refine ⟨hiff, ?_, fun hall => ?_, ?_⟩
  · rw [hbad, hget]
    cases validateAccessMap output.Access <;> simp [Error.status]
  · rw [hget, hiff.mpr hall]
    rfl
  · intro docid callback doc1 body0 newRevID sequence sequences hkey hfault hcb hrev hseq hdoc
      hbody hparent
    subst hdoc
    subst hbody
    subst hparent
    have hfail : validateAccessMap output.Access = false →
        (db.updateDoc docid callback).1
          = ("", some (Error.http 500 "Error in JS sync function")) ∧
        (db.updateDoc docid callback).2.Bucket = db.Bucket ∧
        (db.updateDoc docid callback).2.notifications = db.notifications := by
      intro hv
      rw [hv] at hget
      have h := updateDoc_of_sync_error db docid callback doc1 body0 newRevID sequence
        sequences (Error.http 500 "Error in JS sync function") hkey hfault hcb hrev hseq
        (by rw [hget]; rfl)
      refine ⟨?_, ?_, ?_⟩
      · rw [h.1]
        rfl
      · rw [h.2]
      · rw [h.2]
    have hok : validateAccessMap output.Access = true →
        (db.updateDoc docid callback).1 = (newRevID, none) := by
      intro hv
      rw [hv] at hget
      exact (updateDoc_of_sync_ok db docid callback doc1 body0 newRevID sequence
        sequences hkey hfault hcb hrev hseq (by rw [hget]; rfl)).1
    refine ⟨?_, fun hex => hfail (hbad.mp hex), fun hall => hok (hiff.mpr hall)⟩
    rw [hbad]
    cases hv : validateAccessMap output.Access with
    | false =>
      rw [(hfail hv).1]
      simp [Error.status]
    | true =>
      rw [hok hv]
      simp

/-- C21, instantiated: an access map with the keys `role:admin` and `bob@example.com` is
accepted, and one with the key `role:ad min` makes `getChannelsAndAccess` fail with 500. -/
theorem C21_invalid_access_map_witness :
    ((accessMapperDatabase
        [("role:admin", ["foo"]), ("bob@example.com", ["bar"])]).getChannelsAndAccess
        (newDocument "doc") [("x", JSON.num 1)] ""
      = ([], [("role:admin", ["foo"]), ("bob@example.com", ["bar"])], none)) ∧
    (((accessMapperDatabase [("role:ad min", ["foo"])]).getChannelsAndAccess
        (newDocument "doc") [("x", JSON.num 1)] "").2.2.bind Error.status = some 500) :=
  ⟨(C21_invalid_access_map
      (accessMapperDatabase [("role:admin", ["foo"]), ("bob@example.com", ["bar"])])
      (newDocument "doc") [("x", JSON.num 1)] "" _
      { Channels := [], Access := [("role:admin", ["foo"]), ("bob@example.com", ["bar"])],
        Rejection := none }
      (Or.inl rfl) rfl rfl rfl).2.2.1 (by with_unfolding_all decide),
   (C21_invalid_access_map (accessMapperDatabase [("role:ad min", ["foo"])])
      (newDocument "doc") [("x", JSON.num 1)] "" _
      { Channels := [], Access := [("role:ad min", ["foo"])], Rejection := none }
      (Or.inl rfl) rfl rfl rfl).2.1.mpr (by with_unfolding_all decide)⟩

/-! ### `updateDocAccess` -/

/-- C22, counterexample: the document grants `alice` the channel `foo` and the new access map
grants her `bar` instead. The maps differ and `alice` is a key of both, so she is not in the
symmetric difference of the key sets, yet `updateDocAccess` invalidates her channels. -/
theorem C22_counterexample :
    accessDeepEqual [("alice", ["bar"])] [("alice", ["foo"])] = false ∧
    symmetricDifference [("alice", ["foo"])] [("alice", ["bar"])] = [] ∧
    (usersDatabase.updateDocAccess { linearDoc with Access := [("alice", ["foo"])] }
      [("alice", ["bar"])]).2.1 = ["alice", "alice"] := by
  refine ⟨?_, ?_, ?_⟩ <;> with_unfolding_all decide

/-- C22 (amended): when the new access map differs from the document's, `updateDocAccess`
replaces `doc.Access` by the new map, leaves the rest of the document alone, reports a change,
and invalidates the channels of exactly the names that are keys of the old map or of the new
map and that `GetUser` resolves to a user, the names in both maps included; when the maps are
equal it changes and invalidates nothing. -/
theorem C22_updateDocAccess (db : Database) (doc : document) (newAccess : AccessMap) :
    (accessDeepEqual newAccess doc.Access = false →
      (db.updateDocAccess doc newAccess).1 = { doc with Access := newAccess } ∧
      (db.updateDocAccess doc newAccess).2.2 = true ∧
      (∀ name, name ∈ (db.updateDocAccess doc newAccess).2.1 ↔
        (name ∈ doc.Access.map Prod.fst ∨ name ∈ newAccess.map Prod.fst) ∧
          (db.GetUser name).isSome = true) ∧
      (∀ name, name ∈ doc.Access.map Prod.fst → name ∈ newAccess.map Prod.fst →
        (db.GetUser name).isSome = true →
        name ∈ (db.updateDocAccess doc newAccess).2.1 ∧
          name ∉ symmetricDifference doc.Access newAccess)) ∧
    (accessDeepEqual newAccess doc.Access = true →
      db.updateDocAccess doc newAccess = (doc, [], false)) := by
  have hmem : ∀ name,
      name ∈ (doc.Access.map Prod.fst ++ newAccess.map Prod.fst).filter
        (fun name => (db.GetUser name).isSome) ↔
      (name ∈ doc.Access.map Prod.fst ∨ name ∈ newAccess.map Prod.fst) ∧
        (db.GetUser name).isSome = true := by
    intro name
    rw [List.mem_filter, List.mem_append]
  refine ⟨fun hne => ?_, fun heq => ?_⟩
  · have hrun : db.updateDocAccess doc newAccess
        = ({ doc with Access := newAccess },
           (doc.Access.map Prod.fst ++ newAccess.map Prod.fst).filter
             (fun name => (db.GetUser name).isSome), true) := by
      unfold Database.updateDocAccess
      simp only [hne, Bool.false_eq_true, if_false]
    rw [hrun]
    refine ⟨rfl, rfl, hmem, fun name hold hnew huser =>
      ⟨(hmem name).mpr ⟨Or.inl hold, huser⟩, ?_⟩⟩
    unfold symmetricDifference
    simp only [List.mem_append, List.mem_filter, Bool.not_eq_true', List.contains_eq_any_beq,
      List.any_eq_false, beq_iff_eq, not_or, not_and]
    constructor
    · intro _ hall
      exact hall name hnew rfl
    · intro _ hall
      exact hall name hold rfl
  · unfold Database.updateDocAccess
    simp only [heq, if_true]

/-- C22, instantiated: granting `bob` the channel `foo` on a document that granted `alice`
the channel `foo` replaces the access map. -/
theorem C22_updateDocAccess_witness :
    (usersDatabase.updateDocAccess { linearDoc with Access := [("alice", ["foo"])] }
      [("bob", ["foo"])]).1
      = { linearDoc with Access := [("bob", ["foo"])] } :=
  ((C22_updateDocAccess usersDatabase { linearDoc with Access := [("alice", ["foo"])] }
    [("bob", ["foo"])]).1 (by with_unfolding_all decide)).1

/-! ### Sequence numbers of writes that are not stored -/

theorem nextSequence_ok (s : SequenceAllocator) (sequence : Nat) (sequences : SequenceAllocator)
    (h : s.nextSequence = (.ok sequence, sequences)) :
    sequence = (s.last + 1) % 2 ^ 64 ∧ sequences.last = (s.last + 1) % 2 ^ 64 := by
  unfold SequenceAllocator.nextSequence at h
  cases hf : s.fault with
  | some e =>
    rw [hf] at h
    cases h
  | none =>
    rw [hf] at h
    simp only [Prod.mk.injEq, Except.ok.injEq] at h
    obtain ⟨h1, h2⟩ := h
    subst h1
    subst h2
    exact ⟨rfl, rfl⟩

/-- C23, counterexample: a `Put` of a first revision into the empty database whose validator
answers 403 fails with that error and stores nothing, yet the sequence counter has moved from
0 to 1. -/
theorem C23_counterexample :
    ((validatorDatabase 403 "forbidden" none).Put "doc" [("x", JSON.num 1)]).1
      = ("", some (Error.http 403 "forbidden")) ∧
    ((validatorDatabase 403 "forbidden" none).Put "doc" [("x", JSON.num 1)]).2.Bucket.docs
      = [] ∧
    (validatorDatabase 403 "forbidden" none).sequences.last = 0 ∧
    ((validatorDatabase 403 "forbidden" none).Put "doc" [("x", JSON.num 1)]).2.sequences.last
      = 1 := by
  refine ⟨?_, ?_, ?_, ?_⟩ <;> with_unfolding_all rfl

/-- C23 (amended): a write whose callback fails or cancels (a cancelled no-op, a parent
conflict) leaves the whole database, the sequence counter included, unchanged; a write whose
callback succeeds and which `getChannelsAndAccess` then rejects (validator, sync function,
invalid access map) stores nothing and sends no notification, but `nextSequence` has run and
the counter has advanced by one, as it does for a write that commits. -/
theorem C23_sequence_acquisition (db : Database) (docid : String)
    (callback : document → Except Error (document × Body)) :
    (∀ e, callback (db.currentDocument docid (db.realDocID docid)) = .error e →
      (db.updateDoc docid callback).2 = db) ∧
    (∀ doc1 body newRevID sequence sequences,
      db.realDocID docid ≠ "" → db.Bucket.fault = none →
      callback (db.currentDocument docid (db.realDocID docid)) = .ok (doc1, body) →
      body.lookup "_rev" = some (JSON.str newRevID) →
      db.sequences.nextSequence = (.ok sequence, sequences) →
      (∀ e, (db.getChannelsAndAccess
          { updateDocRevisions doc1 newRevID body with Sequence := sequence }
          (mapSet body "_id" (JSON.str (updateDocRevisions doc1 newRevID body).ID))
          ((updateDocRevisions doc1 newRevID body).History.get newRevID).Parent).2.2
          = some e →
        (db.updateDoc docid callback).2.Bucket = db.Bucket ∧
        (db.updateDoc docid callback).2.notifications = db.notifications ∧
        (db.updateDoc docid callback).2.sequences.last = (db.sequences.last + 1) % 2 ^ 64) ∧
      ((db.getChannelsAndAccess
          { updateDocRevisions doc1 newRevID body with Sequence := sequence }
          (mapSet body "_id" (JSON.str (updateDocRevisions doc1 newRevID body).ID))
          ((updateDocRevisions doc1 newRevID body).History.get newRevID).Parent).2.2
          = none →
        (db.updateDoc docid callback).1 = (newRevID, none) ∧
        (db.updateDoc docid callback).2.notifications = db.notifications + 1 ∧
        (db.updateDoc docid callback).2.sequences.last
          = (db.sequences.last + 1) % 2 ^ 64)) := by
  refine ⟨fun e hcb => updateDoc_unchanged_of_callback_error db docid callback e hcb,
    fun doc1 body newRevID sequence sequences hkey hfault hcb hrev hseq =>
      ⟨fun e hsync => ?_, fun hsync => ?_⟩⟩
  · have h := (updateDoc_of_sync_error db docid callback doc1 body newRevID sequence
      sequences e hkey hfault hcb hrev hseq hsync).2
    rw [h]
    exact ⟨rfl, rfl, (nextSequence_ok _ _ _ hseq).2⟩
  · have h := updateDoc_of_sync_ok db docid callback doc1 body newRevID sequence
      sequences hkey hfault hcb hrev hseq hsync
    refine ⟨h.1, h.2.2, ?_⟩
    rw [h.2.1]
    exact (nextSequence_ok _ _ _ hseq).2

/-- C23, instantiated: a `Put` without `_rev` on the document that has the live revision
`1-a` is a parent conflict and leaves the database, with its sequence counter, as it was; a
write of the revision `1-a` that the validator answers with 403 leaves the sequence counter
at 1. -/
theorem C23_sequence_acquisition_witness :
    (oneRevDatabase.updateDoc "doc" (fun doc =>
      (oneRevDatabase.PutCallback false (putVars [("x", JSON.num 2)]) doc).2)).2
      = oneRevDatabase ∧
    ((validatorDatabase 403 "forbidden" none).updateDoc "doc" (fun doc =>
      .ok ({ doc with History := (doc.History.addRevision
              { ID := "1-a", Parent := "", Deleted := false, Body := none }) },
           [("_rev", JSON.str "1-a")]))).2.sequences.last = (0 + 1) % 2 ^ 64 :=
  ⟨(C23_sequence_acquisition oneRevDatabase "doc" (fun doc =>
      (oneRevDatabase.PutCallback false (putVars [("x", JSON.num 2)]) doc).2)).1
      (Error.http 409 "Document exists") (by with_unfolding_all rfl),
   (((C23_sequence_acquisition (validatorDatabase 403 "forbidden" none) "doc" (fun doc =>
      .ok ({ doc with History := (doc.History.addRevision
              { ID := "1-a", Parent := "", Deleted := false, Body := none }) },
           [("_rev", JSON.str "1-a")]))).2
      { (validatorDatabase 403 "forbidden" none).currentDocument "doc" "doc" with
        History := (((validatorDatabase 403 "forbidden" none).currentDocument "doc"
          "doc").History.addRevision
            { ID := "1-a", Parent := "", Deleted := false, Body := none }) }
      [("_rev", JSON.str "1-a")] "1-a" 1 { last := 1, fault := none }
      (by decide) rfl rfl rfl rfl).1
      (Error.http 403 "forbidden") (by with_unfolding_all rfl)).2.2⟩

/-! ### The default channel assignment -/

theorem mem_channelStrings (value : List JSON) (name : String) :
    name ∈ channelStrings value ↔ JSON.str name ∈ value ∧ name ≠ "" := by
  unfold channelStrings
  rw [List.mem_filterMap]
  constructor
  · rintro ⟨channel, hmem, hsome⟩
    cases channel with
    | str channelStr =>
      by_cases he : channelStr = ""
      · simp [he] at hsome
      · simp only [ne_eq, he, not_false_eq_true, if_true, Option.some.injEq] at hsome
        subst hsome
        exact ⟨hmem, he⟩
    | _ => simp at hsome
  · rintro ⟨hmem, hne⟩
    exact ⟨JSON.str name, hmem, by simp [hne]⟩

/-- C24, counterexample: with no validator and no channel mapper, the body
`\x7b"channels": ["foo", "", 7]\x7d` has the string elements `foo` and the empty string, but
the channel set returned is `foo` alone: the empty string is a string element of the array
and is not made a channel (the example `SetFromArray` keeps every name it is given). -/
theorem C24_counterexample :
    emptyDatabase.getChannelsAndAccess (newDocument "doc")
        [("channels", JSON.arr [JSON.str "foo", JSON.str "", JSON.num 7])] ""
      = (["foo"], [], none) ∧
    channelStrings [JSON.str "foo", JSON.str "", JSON.num 7] = ["foo"] := by
  constructor <;> with_unfolding_all decide

theorem getChannelsAndAccess_of_pass (db : Database) (doc : document) (body : Body)
    (parentRevID : String)
    (hpass : db.Validator = none ∨ ∃ validate status msg, db.Validator = some validate ∧
      validate body (if parentRevID ≠ "" then doc.getRevisionJSON parentRevID else none)
        db.user = (status, msg, none) ∧ status < 300) :
    db.getChannelsAndAccess doc body parentRevID
      = { db with Validator := none }.getChannelsAndAccess doc body parentRevID := by
  rcases hpass with hnone | ⟨validate, status, msg, hv, hvres, hlt⟩
  · have hdb : db = { db with Validator := none } := by
      cases db
      simp only at hnone
      subst hnone
      rfl
    rw [← hdb]
  · exact (getChannelsAndAccess_validator db doc body parentRevID validate status msg none hv
      hvres).2.2 rfl hlt

/-- C24 (amended): with no channel mapper, and no validator or one that lets the write pass,
`getChannelsAndAccess` hands to `SetFromArray` the elements of the array at
`body["channels"]` that are strings of non-zero length, in order (a name is handed over
exactly when it is a non-empty string element of the array), and returns the set that
`SetFromArray` makes of them with an empty access map and no error, or the error of
`SetFromArray`; when `body["channels"]` is absent or not an array it returns the empty channel
set, an empty access map and no error. -/
theorem C24_default_channels (db : Database) (doc : document) (body : Body)
    (parentRevID : String)
    (hpass : db.Validator = none ∨ ∃ validate status msg, db.Validator = some validate ∧
      validate body (if parentRevID ≠ "" then doc.getRevisionJSON parentRevID else none)
        db.user = (status, msg, none) ∧ status < 300)
    (hm : db.ChannelMapper = none) :
    (∀ value, body.lookup "channels" = some (JSON.arr value) →
      (∀ name, name ∈ channelStrings value ↔ JSON.str name ∈ value ∧ name ≠ "") ∧
      (∀ result, db.SetFromArray (channelStrings value) = .ok result →
        db.getChannelsAndAccess doc body parentRevID = (result, [], none)) ∧
      (∀ e, db.SetFromArray (channelStrings value) = .error e →
        db.getChannelsAndAccess doc body parentRevID = ([], [], some e))) ∧
    ((∀ value, body.lookup "channels" ≠ some (JSON.arr value)) →
      db.getChannelsAndAccess doc body parentRevID = ([], [], none)) := by
  rw [getChannelsAndAccess_of_pass db doc body parentRevID hpass]
  refine ⟨fun value hlook => ⟨mem_channelStrings value, fun result hset => ?_,
    fun e hset => ?_⟩, fun hno => ?_⟩
  · unfold Database.getChannelsAndAccess
    simp only [hm, hlook, hset]
  · unfold Database.getChannelsAndAccess
    simp only [hm, hlook, hset]
  · unfold Database.getChannelsAndAccess
    simp only [hm]

/-- C24, instantiated: the body `\x7b"channels": ["foo", 7, "bar"]\x7d` is assigned the
channels `foo` and `bar` by the example database, whose `SetFromArray` keeps the names, also
behind a validator that answers 200. -/
theorem C24_default_channels_witness :
    emptyDatabase.getChannelsAndAccess (newDocument "doc")
        [("channels", JSON.arr [JSON.str "foo", JSON.num 7, JSON.str "bar"])] ""
      = (["foo", "bar"], [], none) ∧
    (validatorDatabase 200 "" none).getChannelsAndAccess (newDocument "doc")
        [("channels", JSON.arr [JSON.str "foo", JSON.num 7, JSON.str "bar"])] ""
      = (["foo", "bar"], [], none) :=
  ⟨((C24_default_channels emptyDatabase (newDocument "doc")
      [("channels", JSON.arr [JSON.str "foo", JSON.num 7, JSON.str "bar"])] "" (Or.inl rfl)
      rfl).1 [JSON.str "foo", JSON.num 7, JSON.str "bar"] rfl).2.1 ["foo", "bar"] rfl,
   ((C24_default_channels (validatorDatabase 200 "" none) (newDocument "doc")
      [("channels", JSON.arr [JSON.str "foo", JSON.num 7, JSON.str "bar"])] ""
      (Or.inr ⟨_, 200, "", rfl, rfl, by decide⟩)
      rfl).1 [JSON.str "foo", JSON.num 7, JSON.str "bar"] rfl).2.1 ["foo", "bar"] rfl⟩

/-! ### Document IDs -/

theorem underscore_prefix_iff (docid : String) :
    "_".toList.isPrefixOf docid.toList = true ↔ ∃ rest, docid.toList = '_' :: rest := by
  have h : "_".toList = ['_'] := rfl
  rw [h]
  cases docid.toList with
  | nil => simp
  | cons c rest =>
    simp only [List.isPrefixOf, Bool.and_true, beq_iff_eq, List.cons.injEq]
    constructor
    · intro h
      exact ⟨rest, h.symm, rfl⟩
    · rintro ⟨_, h, _⟩
      exact h.symm

theorem realDocID_eq_empty_iff (db : Database) (docid : String) :
    db.realDocID docid = "" ↔
      (docid = "" ∨ docid.utf8ByteSize > 250 ∨ ∃ rest, docid.toList = '_' :: rest) := by
  rw [← underscore_prefix_iff]
  unfold Database.realDocID
  by_cases hc : (decide (docid.utf8ByteSize > 250) || "_".toList.isPrefixOf docid.toList) = true
  · rw [if_pos hc]
    simp only [Bool.or_eq_true, decide_eq_true_eq] at hc
    exact ⟨fun _ => Or.inr hc, fun _ => rfl⟩
  · rw [if_neg hc]
    simp only [Bool.or_eq_true, decide_eq_true_eq] at hc
    exact ⟨fun h => Or.inl h, fun h => h.resolve_right hc⟩

/-- C25, counterexample: the empty string is not longer than 250 characters and does not
start with `_`, yet `getDoc` and `updateDoc` answer it with HTTP 400 "Invalid doc ID"; and
the ID made of 63 times the character `𝄞` (U+1D11E, four bytes in UTF-8) has 63 characters
but 252 bytes, and is answered likewise. -/
theorem C25_counterexample :
    ("".length = 0 ∧ "_".toList.isPrefixOf "".toList = false ∧
      emptyDatabase.getDoc "" = .error (Error.http 400 "Invalid doc ID") ∧
      (emptyDatabase.updateDoc "" (fun doc => .ok (doc, []))).1
        = ("", some (Error.http 400 "Invalid doc ID"))) ∧
    ((String.mk (List.replicate 63 '𝄞')).length = 63 ∧
      "_".toList.isPrefixOf (String.mk (List.replicate 63 '𝄞')).toList = false ∧
      emptyDatabase.getDoc (String.mk (List.replicate 63 '𝄞'))
        = .error (Error.http 400 "Invalid doc ID") ∧
      (emptyDatabase.updateDoc (String.mk (List.replicate 63 '𝄞'))
        (fun doc => .ok (doc, []))).1 = ("", some (Error.http 400 "Invalid doc ID"))) := by
  refine ⟨⟨?_, ?_, ?_, ?_⟩, ?_, ?_, ?_, ?_⟩ <;> with_unfolding_all rfl

/-- C25 (amended): `realDocID` gives the empty key exactly when the ID is empty, is longer
than 250 bytes, or starts with `_`; then `getDoc` and `updateDoc` fail with HTTP 400
"Invalid doc ID" and `updateDoc` leaves the database as it was, without running the callback;
every other ID is its own store key: `getDoc` is the store's `Get` of it and `updateDoc` is
the store's `Update` on it. -/
theorem C25_doc_id (db : Database) (docid : String) :
    (db.realDocID docid = "" ↔
      (docid = "" ∨ docid.utf8ByteSize > 250 ∨ ∃ rest, docid.toList = '_' :: rest)) ∧
    (db.realDocID docid = "" →
      db.getDoc docid = .error (Error.http 400 "Invalid doc ID") ∧
      ∀ callback, db.updateDoc docid callback
        = (("", some (Error.http 400 "Invalid doc ID")), db)) ∧
    (db.realDocID docid ≠ "" →
      db.realDocID docid = docid ∧
      db.getDoc docid = db.Bucket.Get docid ∧
      ∀ callback, db.updateDoc docid callback =
        match db.bucketUpdate docid docid callback with
        | ((some Error.UpdateCancel, _), db) => (("", none), db)
        | ((some err, _), db) => (("", some err), db)
        | ((none, newRevID), db) =>
          ((newRevID, none), { db with notifications := db.notifications + 1 })) := by
  refine ⟨realDocID_eq_empty_iff db docid, fun hkey => ⟨?_, fun callback => ?_⟩,
    fun hkey => ?_⟩
  · unfold Database.getDoc
    simp only [hkey, if_true]
  · unfold Database.updateDoc
    simp only [hkey, if_true]
  · have hid : db.realDocID docid = docid := by
      unfold Database.realDocID at hkey ⊢
      split
      · rename_i hc
        rw [if_pos hc] at hkey
        exact absurd rfl hkey
      · rfl
    have hne : docid ≠ "" := fun h => hkey (hid.trans h)
    refine ⟨hid, ?_, fun callback => ?_⟩
    · unfold Database.getDoc
      simp only [hid, hne, if_false]
    · unfold Database.updateDoc
      simp only [hid, hne, if_false]

/-- C25, instantiated: `doc` is its own key, `_design/foo` and the empty ID are refused. -/
theorem C25_doc_id_witness :
    (oneRevDatabase.realDocID "doc" = "doc" ∧
      oneRevDatabase.getDoc "doc" = oneRevDatabase.Bucket.Get "doc") ∧
    oneRevDatabase.getDoc "_design/foo" = .error (Error.http 400 "Invalid doc ID") :=
  ⟨⟨((C25_doc_id oneRevDatabase "doc").2.2 (by decide)).1,
    ((C25_doc_id oneRevDatabase "doc").2.2 (by decide)).2.1⟩,
   ((C25_doc_id oneRevDatabase "_design/foo").2.1 (by decide)).1⟩

/-! ### The callback of `Put` across retries -/

/-- C28 fails on the code: `Put` of a body without `_rev`. The callback first runs on the document
whose winning revision is the tombstone `2-b`, and assigns the captured `matchRev := "2-b"`
and `generation := 3`. The store then loses the race against a `PutExistingRev` of the live
revision `2-c`, and the callback runs again on the new document, whose leaves are `2-b` and
`2-c` and whose current revision is `2-c`. The second run finds `matchRev = "2-b"` already
set and a leaf, and accepts the write as `3-c`, child of `2-b`; a fresh `Put` of the same
body on the new document is refused with 409 "Document exists". -/
theorem C28_retry_diverges :
    (deletedDatabase.currentDocument "doc" "doc").CurrentRev = "2-b" ∧
    (racedDatabase.currentDocument "doc" "doc").CurrentRev = "2-c" ∧
    (racedDatabase.currentDocument "doc" "doc").History.getLeaves = ["2-b", "2-c"] ∧
    ((deletedDatabase.PutCallback false (putVars [("x", JSON.num 1)])
        (deletedDatabase.currentDocument "doc" "doc")).1.matchRev = "2-b" ∧
      (deletedDatabase.PutCallback false (putVars [("x", JSON.num 1)])
        (deletedDatabase.currentDocument "doc" "doc")).1.generation = 3) ∧
    putOutcome (deletedDatabase.PutCallback false
        (deletedDatabase.PutCallback false (putVars [("x", JSON.num 1)])
          (deletedDatabase.currentDocument "doc" "doc")).1
        (racedDatabase.currentDocument "doc" "doc"))
      = (none, "3-c", "2-b", 3) ∧
    putOutcome (deletedDatabase.PutCallback false (putVars [("x", JSON.num 1)])
        (racedDatabase.currentDocument "doc" "doc"))
      = (some (Error.http 409 "Document exists"), "", "", 0) := by
  refine ⟨?_, ?_, ?_, ⟨?_, ?_⟩, ?_, ?_⟩ <;> with_unfolding_all decide

/-! ### `ReadConfig` -/

theorem readConfigLoop_fst (databases : List DbConfig) :
    (readConfigLoop databases).1 = databases := by
  unfold readConfigLoop
  suffices h : ∀ (rest : List DbConfig) (state : List DbConfig × Option DbConfig),
      (rest.foldl (fun state element => (state.1, some (readConfigLoopBody element))) state).1
        = state.1 from h databases (databases, none)
  intro rest
  induction rest with
  | nil => intro state; rfl
  | cons element rest ih =>
    intro state
    rw [List.foldl_cons, ih]

/-- C30 fails on the code: `ReadConfig` returns the entries of `Databases` as they were
decoded, for every configuration that lists a database, because the loop that fills in the
defaults assigns to its loop variable, a copy of the entry. For the configuration file
`\x7b"Databases": [\x7b"Name": "db"\x7d]\x7d` the returned entry has nil `Server`, `Bucket`
and `Pool`, although the loop variable was given all three defaults; `addDatabaseFromConfig`
applies the same defaults itself when it reads the entry. -/
theorem C30_defaults_not_stored :
    (∀ config : ServerConfig,
      ReadConfig (.ok config) =
        if config.Databases.length = 0 then .error (Error.other "no databases listed")
        else .ok { config with
          Interface := some (config.Interface.getD DefaultInterface),
          AdminInterface := some (config.AdminInterface.getD DefaultAdminInterface) }) ∧
    ReadConfig (.ok exampleConfig)
      = .ok { Interface := some ":4984", AdminInterface := some ":4985", BrowserID := none,
              Log := [], Pretty := false,
              Databases := [{ Name := "db", Server := none, Bucket := none, Pool := none }] } ∧
    (readConfigLoop exampleConfig.Databases).2
      = some { Name := "db", Server := some "http://localhost:8091", Bucket := some "db",
               Pool := some "default" } ∧
    addDatabaseFromConfig { Name := "db", Server := none, Bucket := none, Pool := none }
      = ("http://localhost:8091", "default", "db") := by
  refine ⟨fun config => ?_, by with_unfolding_all rfl, by decide, by decide⟩
  unfold ReadConfig
  simp only [readConfigLoop_fst]
  split
  · rfl
  · cases hi : config.Interface <;> cases ha : config.AdminInterface <;> simp [hi, ha]

/-! ### Revision numbers of special documents -/

theorem digitChar_value (k : Nat) (hk : k < 10) :
    (Nat.digitChar k).toNat - '0'.toNat = k ∧ (Nat.digitChar k).isDigit = true := by
  interval_cases k <;> exact ⟨rfl, rfl⟩

theorem foldl_toDigitsCore (fuel n : Nat) (ds : List Char) (h : n < fuel) :
    (Nat.toDigitsCore 10 fuel n ds).foldl (fun n c => 10 * n + (c.toNat - '0'.toNat)) 0
      = ds.foldl (fun n c => 10 * n + (c.toNat - '0'.toNat)) n := by
  induction fuel generalizing n ds with
  | zero => omega
  | succ fuel ih =>
    unfold Nat.toDigitsCore
    simp only
    have hd := (digitChar_value (n % 10) (Nat.mod_lt n (by decide))).1
    split
    · rename_i hz
      rw [List.foldl_cons, hd]
      have : n / 10 = 0 := hz
      have hn : 10 * 0 + n % 10 = n := by omega
      rw [hn]
    · rename_i hz
      have hlt : n / 10 < fuel := by omega
      rw [ih (n / 10) _ hlt, List.foldl_cons, hd]
      have hn : 10 * (n / 10) + n % 10 = n := by omega
      rw [hn]

theorem all_isDigit_toDigitsCore (fuel n : Nat) (ds : List Char)
    (hds : ds.all Char.isDigit = true) :
    (Nat.toDigitsCore 10 fuel n ds).all Char.isDigit = true := by
  induction fuel generalizing n ds with
  | zero => exact hds
  | succ fuel ih =>
    unfold Nat.toDigitsCore
    simp only
    have hd := (digitChar_value (n % 10) (Nat.mod_lt n (by decide))).2
    have hcons : (Nat.digitChar (n % 10) :: ds).all Char.isDigit = true := by
      rw [List.all_cons, hd, hds]
      rfl
    split
    · exact hcons
    · exact ih _ _ hcons

theorem toDigitsCore_ne_nil_of_ne_nil (fuel n : Nat) (ds : List Char) (h : ds ≠ []) :
    Nat.toDigitsCore 10 fuel n ds ≠ [] := by
  induction fuel generalizing n ds with
  | zero => exact h
  | succ fuel ih =>
    unfold Nat.toDigitsCore
    simp only
    split
    · exact List.cons_ne_nil _ _
    · exact ih _ _ (List.cons_ne_nil _ _)

theorem toDigits_ne_nil (n : Nat) : Nat.toDigits 10 n ≠ [] := by
  unfold Nat.toDigits Nat.toDigitsCore
  simp only
  split
  · exact List.cons_ne_nil _ _
  · exact toDigitsCore_ne_nil_of_ne_nil _ _ _ (List.cons_ne_nil _ _)

theorem takeWhile_of_all {α : Type} (p : α → Bool) (l : List α) (h : l.all p = true) :
    l.takeWhile p = l := by
  induction l with
  | nil => rfl
  | cons a rest ih =>
    rw [List.all_cons, Bool.and_eq_true] at h
    rw [List.takeWhile_cons, h.1, ih h.2]
    rfl

theorem toList_formatGeneration (n : Nat) :
    (formatGeneration n).toList = '0' :: '-' :: Nat.toDigits 10 n := by
  unfold formatGeneration
  show ("0-" ++ Nat.repr n).data = _
  rw [String.data_append]
  rfl

theorem scanGeneration_formatGeneration (n : Nat) (hn : n < 2 ^ 64) :
    scanGeneration (formatGeneration n) = n := by
  have hall : (Nat.toDigits 10 n).all Char.isDigit = true :=
    all_isDigit_toDigitsCore (n + 1) n [] rfl
  have hval : decimalValue (Nat.toDigits 10 n) = n :=
    foldl_toDigitsCore (n + 1) n [] (Nat.lt_succ_self n)
  have hne : Nat.toDigits 10 n ≠ [] := toDigits_ne_nil n
  unfold scanGeneration
  rw [toList_formatGeneration]
  simp only [takeWhile_of_all _ _ hall, hval]
  rw [if_pos ⟨hne, hn⟩]

theorem formatGeneration_injective (m n : Nat) (hm : m < 2 ^ 64) (hn : n < 2 ^ 64)
    (h : formatGeneration m = formatGeneration n) : m = n := by
  rw [← scanGeneration_formatGeneration m hm, ← scanGeneration_formatGeneration n hn, h]

theorem formatGeneration_ne_empty (n : Nat) : formatGeneration n ≠ "" := by
  intro h
  have h2 := congrArg String.toList h
  rw [toList_formatGeneration] at h2
  cases h2

/-! ### `putSpecial` -/

theorem realSpecialDocID_ne_empty (doctype docid : String) :
    realSpecialDocID doctype docid ≠ "" := by
  intro h
  have h2 := congrArg String.length h
  unfold realSpecialDocID at h2
  rw [String.length_append, String.length_append, String.length_append] at h2
  have h6 : "_sync:".length = 6 := rfl
  have h0 : "".length = 0 := rfl
  rw [h6, h0] at h2
  omega

theorem revMismatch_iff (matchRev : String) (prevBody : Body) :
    revMismatch matchRev prevBody = true ↔
      prevBody.lookup "_rev" ≠ some (JSON.str matchRev) := by
  unfold revMismatch
  cases prevBody.lookup "_rev" with
  | none => simp
  | some stored =>
    cases stored with
    | str rev =>
      simp only [decide_eq_true_eq, ne_eq, Option.some.injEq, JSON.str.injEq]
      exact ⟨fun h e => h e.symm, fun h e => h e.symm⟩
    | _ => simp

theorem lookup_filter_ne {V : Type} (m : List (String × V)) (key k : String) :
    (m.filter (fun kv => kv.1 ≠ key)).lookup k = if k = key then none else m.lookup k := by
  induction m with
  | nil => simp
  | cons x rest ih =>
    obtain ⟨a, b⟩ := x
    by_cases ha : a = key
    · subst ha
      rw [List.filter_cons]
      simp only [ne_eq, not_true_eq_false, decide_False, Bool.false_eq_true, if_false]
      rw [ih]
      by_cases hk : k = a
      · simp [hk]
      · have hb : (k == a) = false := by simpa using hk
        simp [hk, List.lookup, hb]
    · rw [List.filter_cons]
      simp only [ne_eq, ha, not_false_eq_true, decide_True, if_true]
      by_cases hk : k = a
      · subst hk
        simp [List.lookup, ha]
      · have hb : (k == a) = false := by simpa using hk
        simp only [List.lookup, hb]
        exact ih

theorem putSpecial_eq (bucket : SpecialBucket) (doctype docid matchRev : String)
    (body : Option Body) (hfault : bucket.fault = none) :
    putSpecial bucket doctype docid matchRev body =
      match putSpecialCallback matchRev body
        (bucket.docs.lookup (realSpecialDocID doctype docid)) with
      | .error err => (("", some err), bucket, false)
      | .ok (revid, some value) =>
        ((revid, none),
         { bucket with docs := mapSet bucket.docs (realSpecialDocID doctype docid) value },
         decide (doctype = "design" ∧ docid = "channels"))
      | .ok (revid, none) =>
        ((revid, none),
         { bucket with
           docs := bucket.docs.filter (fun kv => kv.1 ≠ realSpecialDocID doctype docid) },
         decide (doctype = "design" ∧ docid = "channels")) := by
  unfold putSpecial
  simp only [realSpecialDocID_ne_empty, if_false]
  unfold SpecialBucket.Update
  rw [hfault]
  simp only
  rcases putSpecialCallback matchRev body
      (bucket.docs.lookup (realSpecialDocID doctype docid)) with err | ⟨revid, value⟩
  · rfl
  · cases value <;> simp

theorem putSpecialCallback_absent (matchRev : String) (body : Option Body) :
    putSpecialCallback matchRev body none =
      if matchRev ≠ "" ∨ body.isNone = true then
        Except.error (Error.http 404 "No previous revision to replace")
      else
        match body with
        | some body =>
          Except.ok (formatGeneration 1,
            some (mapSet body "_rev" (JSON.str (formatGeneration 1))))
        | none => Except.ok ("", none) := by
  unfold putSpecialCallback
  by_cases hm : matchRev = ""
  · subst hm
    cases body <;> simp
  · cases body <;> simp [hm]

theorem putSpecialCallback_present (matchRev : String) (body : Option Body)
    (prevBody : Body) :
    putSpecialCallback matchRev body (some prevBody) =
      if revMismatch matchRev prevBody = true then
        Except.error (Error.http 409 "Document update conflict")
      else
        match body with
        | some body =>
          Except.ok (formatGeneration
                (((if matchRev ≠ "" then scanGeneration matchRev else 0) + 1) % 2 ^ 64),
               some (mapSet body "_rev" (JSON.str (formatGeneration
                (((if matchRev ≠ "" then scanGeneration matchRev else 0) + 1) % 2 ^ 64)))))
        | none => Except.ok ("", none) := by
  unfold putSpecialCallback
  cases hr : revMismatch matchRev prevBody
  · cases body <;> simp [hr]
  · simp [hr]

/-- C27: on a store that does not fail, `putSpecial` fails with HTTP 404 exactly when the
document does not exist and `matchRev` is non-empty or the body is nil (a delete); it fails
with HTTP 409 exactly when the document exists and `matchRev` differs from the stored `_rev`;
whenever it fails the store is unchanged; and `DeleteSpecial` with the stored revision
succeeds, removes the document, so that `GetSpecial` then reports 404, and leaves every other
key as it was. -/
theorem C27_putSpecial_errors (bucket : SpecialBucket) (doctype docid matchRev : String)
    (body : Option Body) (hfault : bucket.fault = none) :
    ((putSpecial bucket doctype docid matchRev body).1.2.bind Error.status = some 404 ↔
      bucket.docs.lookup (realSpecialDocID doctype docid) = none ∧
        (matchRev ≠ "" ∨ body.isNone = true)) ∧
    ((putSpecial bucket doctype docid matchRev body).1.2.bind Error.status = some 409 ↔
      ∃ prevBody, bucket.docs.lookup (realSpecialDocID doctype docid) = some prevBody ∧
        prevBody.lookup "_rev" ≠ some (JSON.str matchRev)) ∧
    ((putSpecial bucket doctype docid matchRev body).1.2 ≠ none →
      (putSpecial bucket doctype docid matchRev body).2.1 = bucket) ∧
    (∀ prevBody, bucket.docs.lookup (realSpecialDocID doctype docid) = some prevBody →
      prevBody.lookup "_rev" = some (JSON.str matchRev) →
      (DeleteSpecial bucket doctype docid matchRev).1 = none ∧
      GetSpecial (DeleteSpecial bucket doctype docid matchRev).2 doctype docid
        = .error (Error.http 404 "missing") ∧
      ∀ key, key ≠ realSpecialDocID doctype docid →
        (DeleteSpecial bucket doctype docid matchRev).2.docs.lookup key
          = bucket.docs.lookup key) := by
  have hput := putSpecial_eq bucket doctype docid matchRev body hfault
  refine ⟨?_, ?_, ?_, ?_⟩
  · rw [hput]
    cases hl : bucket.docs.lookup (realSpecialDocID doctype docid) with
    | none =>
      rw [putSpecialCallback_absent]
      by_cases hc : matchRev ≠ "" ∨ body.isNone = true
      · rw [if_pos hc]
        simp only [Option.bind, Error.status, true_and, true_iff]
        exact hc
      · rw [if_neg hc]
        cases body with
        | none => simp at hc
        | some b =>
          simp only [Option.bind, true_and]
          exact ⟨fun h => (by cases h), fun h => absurd h hc⟩
    | some prevBody =>
      rw [putSpecialCallback_present]
      by_cases hr : revMismatch matchRev prevBody = true
      · rw [if_pos hr]
        simp [Error.status]
      · rw [if_neg hr]
        cases body <;> simp
  · rw [hput]
    cases hl : bucket.docs.lookup (realSpecialDocID doctype docid) with
    | none =>
      rw [putSpecialCallback_absent]
      by_cases hc : matchRev ≠ "" ∨ body.isNone = true
      · rw [if_pos hc]
        simp [Error.status]
      · rw [if_neg hc]
        cases body with
        | none => simp at hc
        | some b => simp
    | some prevBody =>
      rw [putSpecialCallback_present]
      by_cases hr : revMismatch matchRev prevBody = true
      · rw [if_pos hr]
        simp only [Option.bind, Error.status, Option.some.injEq, exists_eq_left', true_iff]
        exact (revMismatch_iff matchRev prevBody).mp hr
      · rw [if_neg hr]
        have hne : ¬ prevBody.lookup "_rev" ≠ some (JSON.str matchRev) :=
          fun h => hr ((revMismatch_iff matchRev prevBody).mpr h)
        cases body <;> simp [hne]
  · rw [hput]
    rcases putSpecialCallback matchRev body
        (bucket.docs.lookup (realSpecialDocID doctype docid)) with err | ⟨revid, value⟩
    · intro _
      rfl
    · cases value <;> simp
  · intro prevBody hl hrev
    have hmatch : revMismatch matchRev prevBody = false := by
      rw [← Bool.not_eq_true, revMismatch_iff]
      exact fun h => h hrev
    have hdel : putSpecial bucket doctype docid matchRev none
        = (("", none),
           { bucket with
             docs := bucket.docs.filter (fun kv => kv.1 ≠ realSpecialDocID doctype docid) },
           decide (doctype = "design" ∧ docid = "channels")) := by
      rw [putSpecial_eq bucket doctype docid matchRev none hfault, hl,
        putSpecialCallback_present, hmatch]
      rfl
    unfold DeleteSpecial
    rw [hdel]
    refine ⟨rfl, ?_, fun key hkey => ?_⟩
    · unfold GetSpecial
      simp only [realSpecialDocID_ne_empty, if_false]
      unfold SpecialBucket.Get
      simp only [hfault, lookup_filter_ne, if_true]
    · simp only [lookup_filter_ne, hkey, if_false]

/-- C27, instantiated on the store of `TestDesignDocs` after the PUT of `_design/foo`:
`DeleteSpecial` with the revision `0-1` succeeds and the next `GetSpecial` reports 404; a
delete with the revision `0-2` is a 409, and a delete of the absent `_design/bar` is a 404. -/
theorem C27_putSpecial_errors_witness :
    ((DeleteSpecial designFooBucket "design" "foo" "0-1").1 = none ∧
      GetSpecial (DeleteSpecial designFooBucket "design" "foo" "0-1").2 "design" "foo"
        = .error (Error.http 404 "missing")) ∧
    (putSpecial designFooBucket "design" "foo" "0-2" none).1.2.bind Error.status
      = some 409 ∧
    (putSpecial designFooBucket "design" "bar" "" none).1.2.bind Error.status = some 404 :=
  ⟨⟨((C27_putSpecial_errors designFooBucket "design" "foo" "0-1" none rfl).2.2.2
        [("hi", JSON.str "there"), ("_rev", JSON.str "0-1")]
        (by with_unfolding_all rfl) (by with_unfolding_all rfl)).1,
    ((C27_putSpecial_errors designFooBucket "design" "foo" "0-1" none rfl).2.2.2
        [("hi", JSON.str "there"), ("_rev", JSON.str "0-1")]
        (by with_unfolding_all rfl) (by with_unfolding_all rfl)).2.1⟩,
   (C27_putSpecial_errors designFooBucket "design" "foo" "0-2" none rfl).2.1.mpr
      ⟨[("hi", JSON.str "there"), ("_rev", JSON.str "0-1")], by with_unfolding_all rfl,
       by simp [List.lookup]⟩,
   (C27_putSpecial_errors designFooBucket "design" "bar" "" none rfl).1.mpr
      ⟨by with_unfolding_all rfl, Or.inr rfl⟩⟩

theorem putSpecial_create (bucket : SpecialBucket) (doctype docid : String) (body : Body)
    (hfault : bucket.fault = none)
    (hl : bucket.docs.lookup (realSpecialDocID doctype docid) = none) :
    putSpecial bucket doctype docid "" (some body) =
      (("0-1", none),
       { bucket with
         docs := mapSet bucket.docs (realSpecialDocID doctype docid)
           (mapSet body "_rev" (JSON.str "0-1")) },
       decide (doctype = "design" ∧ docid = "channels")) := by
  rw [putSpecial_eq bucket doctype docid "" (some body) hfault, hl, putSpecialCallback_absent]
  have h1 : formatGeneration 1 = "0-1" := by decide
  rw [h1]
  simp

theorem putSpecial_update (bucket : SpecialBucket) (doctype docid matchRev : String)
    (body prevBody : Body) (n : Nat) (hfault : bucket.fault = none)
    (hl : bucket.docs.lookup (realSpecialDocID doctype docid) = some prevBody)
    (hrev : prevBody.lookup "_rev" = some (JSON.str (formatGeneration n)))
    (hn : n + 1 < 2 ^ 64) :
    putSpecial bucket doctype docid matchRev (some body) =
      if matchRev = formatGeneration n then
        ((formatGeneration (n + 1), none),
         { bucket with
           docs := mapSet bucket.docs (realSpecialDocID doctype docid)
             (mapSet body "_rev" (JSON.str (formatGeneration (n + 1)))) },
         decide (doctype = "design" ∧ docid = "channels"))
      else (("", some (Error.http 409 "Document update conflict")), bucket, false) := by
  rw [putSpecial_eq bucket doctype docid matchRev (some body) hfault, hl,
    putSpecialCallback_present]
  by_cases hm : matchRev = formatGeneration n
  · have hmatch : revMismatch matchRev prevBody = false := by
      rw [← Bool.not_eq_true, revMismatch_iff, hrev, hm]
      exact fun h => h rfl
    have hscan : scanGeneration (formatGeneration n) = n :=
      scanGeneration_formatGeneration n (by omega)
    have hmod : (n + 1) % 2 ^ 64 = n + 1 := Nat.mod_eq_of_lt hn
    rw [hmatch, if_pos hm]
    subst hm
    simp only [Bool.false_eq_true, if_false, ne_eq, formatGeneration_ne_empty,
      not_false_eq_true, if_true, hscan, hmod]
  · have hmatch : revMismatch matchRev prevBody = true := by
      rw [revMismatch_iff, hrev]
      intro h
      injection h with h
      injection h with h
      exact hm h.symm
    rw [hmatch, if_neg hm]
    simp

/-- C26, counterexample: the special document `_design/foo` is stored with `_rev` equal to
`0-18446744073709551615`, the greatest number that fits the 64-bit `generation`. An update
with that `matchRev` succeeds, and returns and stores `0-0`, not `0-18446744073709551616`:
`generation + 1` wraps around. -/
theorem C26_counterexample :
    (lastGenerationBucket.docs.lookup (realSpecialDocID "design" "foo")).map
        (fun stored => stored.getString "_rev")
      = some (formatGeneration 18446744073709551615) ∧
    (putSpecial lastGenerationBucket "design" "foo" "0-18446744073709551615"
        (some [("hi", JSON.str "you")])).1 = ("0-0", none) ∧
    ((putSpecial lastGenerationBucket "design" "foo" "0-18446744073709551615"
        (some [("hi", JSON.str "you")])).2.1.docs.lookup (realSpecialDocID "design" "foo")).map
        (fun stored => stored.getString "_rev")
      = some "0-0" ∧
    formatGeneration (18446744073709551615 + 1) = "0-18446744073709551616" := by
  refine ⟨?_, ?_, ?_, ?_⟩ <;> with_unfolding_all decide

/-- C26 (amended): on a store that does not fail, `putSpecial` with a non-nil body and an
empty `matchRev` on a special document that does not exist succeeds, returns `0-1` and stores
the body with `_rev` set to `0-1`; a successful update of a special document whose stored
`_rev` is `0-n`, for `n + 1` below `2 ^ 64`, returns `0-(n+1)` and stores the body with `_rev`
set to it; and if every stored special document has a `_rev` of the form `0-n` with
`1 ≤ n` and `n + 1` below `2 ^ 64`, then after any `putSpecial` every stored special document
has a `_rev` of the form `0-n` with `1 ≤ n`. -/
theorem C26_special_revisions (bucket : SpecialBucket) (doctype docid : String)
    (hfault : bucket.fault = none) :
    (∀ body, bucket.docs.lookup (realSpecialDocID doctype docid) = none →
      (putSpecial bucket doctype docid "" (some body)).1 = ("0-1", none) ∧
      GetSpecial (putSpecial bucket doctype docid "" (some body)).2.1 doctype docid
        = .ok (mapSet body "_rev" (JSON.str "0-1"))) ∧
    (∀ n prevBody matchRev body,
      bucket.docs.lookup (realSpecialDocID doctype docid) = some prevBody →
      prevBody.lookup "_rev" = some (JSON.str (formatGeneration n)) →
      n + 1 < 2 ^ 64 →
      (putSpecial bucket doctype docid matchRev (some body)).1.2 = none →
      (putSpecial bucket doctype docid matchRev (some body)).1.1 = formatGeneration (n + 1) ∧
      GetSpecial (putSpecial bucket doctype docid matchRev (some body)).2.1 doctype docid
        = .ok (mapSet body "_rev" (JSON.str (formatGeneration (n + 1))))) ∧
    ((∀ key stored, bucket.docs.lookup key = some stored →
        ∃ n, 1 ≤ n ∧ n + 1 < 2 ^ 64 ∧
          stored.lookup "_rev" = some (JSON.str (formatGeneration n))) →
      ∀ matchRev body key stored,
        (putSpecial bucket doctype docid matchRev body).2.1.docs.lookup key = some stored →
        ∃ n, 1 ≤ n ∧ stored.lookup "_rev" = some (JSON.str (formatGeneration n))) := by
  have hget : ∀ value : Body,
      GetSpecial { bucket with
          docs := mapSet bucket.docs (realSpecialDocID doctype docid) value } doctype docid
        = .ok value := by
    intro value
    unfold GetSpecial
    simp only [realSpecialDocID_ne_empty, if_false]
    unfold SpecialBucket.Get
    simp only [hfault, lookup_mapSet, if_true]
  refine ⟨fun body hl => ?_, fun n prevBody matchRev body hl hrev hn hok => ?_,
    fun hinv matchRev body key stored hstored => ?_⟩
  · rw [putSpecial_create bucket doctype docid body hfault hl]
    exact ⟨rfl, hget _⟩
  · rw [putSpecial_update bucket doctype docid matchRev body prevBody n hfault hl hrev hn]
      at hok ⊢
    by_cases hm : matchRev = formatGeneration n
    · rw [if_pos hm]
      exact ⟨rfl, hget _⟩
    · rw [if_neg hm] at hok
      cases hok
  · have hweak : ∀ key stored, bucket.docs.lookup key = some stored →
        ∃ n, 1 ≤ n ∧ stored.lookup "_rev" = some (JSON.str (formatGeneration n)) :=
      fun key stored h => by
        obtain ⟨n, h1, _, h3⟩ := hinv key stored h
        exact ⟨n, h1, h3⟩
    cases body with
    | none =>
      rw [putSpecial_eq bucket doctype docid matchRev none hfault] at hstored
      cases hl : bucket.docs.lookup (realSpecialDocID doctype docid) with
      | none =>
        rw [hl, putSpecialCallback_absent] at hstored
        simp only [Option.isNone_none, or_true, if_true] at hstored
        exact hweak key stored hstored
      | some prevBody =>
        rw [hl, putSpecialCallback_present] at hstored
        by_cases hr : revMismatch matchRev prevBody = true
        · rw [if_pos hr] at hstored
          exact hweak key stored hstored
        · rw [if_neg hr] at hstored
          simp only [lookup_filter_ne] at hstored
          by_cases hk : key = realSpecialDocID doctype docid
          · rw [if_pos hk] at hstored
            cases hstored
          · rw [if_neg hk] at hstored
            exact hweak key stored hstored
    | some body =>
      cases hl : bucket.docs.lookup (realSpecialDocID doctype docid) with
      | none =>
        rw [putSpecial_eq bucket doctype docid matchRev (some body) hfault, hl,
          putSpecialCallback_absent] at hstored
        by_cases hm : matchRev ≠ ""
        · rw [if_pos (Or.inl hm)] at hstored
          exact hweak key stored hstored
        · have hc : ¬ (matchRev ≠ "" ∨ (some body).isNone = true) := by
            simp only [Option.isNone_some, Bool.false_eq_true, or_false]
            exact hm
          rw [if_neg hc] at hstored
          simp only [lookup_mapSet] at hstored
          by_cases hk : key = realSpecialDocID doctype docid
          · rw [if_pos hk] at hstored
            injection hstored with hstored
            subst hstored
            exact ⟨1, le_refl 1, by rw [lookup_mapSet, if_pos rfl]⟩
          · rw [if_neg hk] at hstored
            exact hweak key stored hstored
      | some prevBody =>
        obtain ⟨n, h1, hn, hrev⟩ := hinv _ prevBody hl
        rw [putSpecial_update bucket doctype docid matchRev body prevBody n hfault hl hrev hn]
          at hstored
        by_cases hm : matchRev = formatGeneration n
        · rw [if_pos hm] at hstored
          simp only [lookup_mapSet] at hstored
          by_cases hk : key = realSpecialDocID doctype docid
          · rw [if_pos hk] at hstored
            injection hstored with hstored
            subst hstored
            exact ⟨n + 1, Nat.le_add_left 1 n, by rw [lookup_mapSet, if_pos rfl]⟩
          · rw [if_neg hk] at hstored
            exact hweak key stored hstored
        · rw [if_neg hm] at hstored
          exact hweak key stored hstored

/-- C26, instantiated on `TestDesignDocs`: the PUT of `\x7b"hi": "there"\x7d` to the absent
`_design/foo` returns `0-1`, and the following GET returns `hi` = `there` with `_rev` =
`0-1`; an update of that document with `matchRev` = `0-1` returns `0-2`. -/
theorem C26_special_revisions_witness :
    ((putSpecial emptySpecialBucket "design" "foo" "" (some [("hi", JSON.str "there")])).1
        = ("0-1", none) ∧
      GetSpecial
          (putSpecial emptySpecialBucket "design" "foo" ""
            (some [("hi", JSON.str "there")])).2.1 "design" "foo"
        = .ok [("hi", JSON.str "there"), ("_rev", JSON.str "0-1")]) ∧
    (putSpecial designFooBucket "design" "foo" "0-1" (some [("hi", JSON.str "you")])).1.1
      = formatGeneration (1 + 1) :=
  ⟨(C26_special_revisions emptySpecialBucket "design" "foo" rfl).1
      [("hi", JSON.str "there")] rfl,
   ((C26_special_revisions designFooBucket "design" "foo" rfl).2.1 1
      [("hi", JSON.str "there"), ("_rev", JSON.str "0-1")] "0-1" [("hi", JSON.str "you")]
      (by with_unfolding_all rfl) (by with_unfolding_all rfl) (by decide)
      (by with_unfolding_all rfl)).1⟩

end SyncGateway
